import Mathlib

/-!
# Single-product (s,S) inventory simulation (`assignment-02/main.c`)

A shallow embedding of the discrete-event core of `main.c`: the global variables
become one record `State`, every C function becomes a function on that record, and
the two ways the program can stop early become values of `Fault`.

Modelling conventions.
* C `float` values are exact rationals (`ℚ`): every comparison and every arithmetic
  operation is the mathematical one.  Rounding, overflow to infinity and NaN are
  outside the model.  Two places where the `float` of the program departs from the
  rational matter for the properties below.  The value of `expon` underflows to `0` when the
  product `-mean * log(u)` is below the least positive `float`; `float_underflow`,
  `expon_float` and `initialize_float` describe that case, and the property of the
  first event is stated for values of `expon` of at least `2^-149`.  The sum
  `sim_time + 1.0` is `sim_time` again from `2^24` on, so that a run reaches
  END_SIMULATION in general holds of the rational clock only
  (`policy_loop_terminates`); the properties of the specification state of the end of
  a run what holds of every run that ends, and the runs they show to end are concrete
  runs of one month.
* C `int` values are unbounded integers (`Int`).  The program and the model agree as
  long as every integer stored is an `int` value (`int_ok`); `InRunInt` is the run in
  which the level and the amount on order have stayed `int` values, `wrap_int` is the
  value a two's-complement machine stores otherwise, and the property of the sign of the
  amount ordered is stated for an amount that is an `int` value.
* `time_next_event` is the map from a cell index to its content; the program only
  touches cells `1..num_events`.
* `prob_distrib_demand` is the list of the cells of the array, cell `0` first; a read
  at an index that is not a cell of the list is a `Fault.outOfBounds`.
* `lcgrand` (from `lcgrand.h`) and the C library `log` are parameters (`Extern`).
* `table_print` of `table.c` writes to a stream that is the list of the characters
  written so far; a C string is the list of its characters.
-/

namespace Inventory

/-! ## The program -/

/-- Modelled from the spec: `lcgrand.h` is not among the sources.  `lcgrand z` is the
call `lcgrand(1)` made when the integer stream state is `z`: it gives the draw and the
next stream state ("advances RandomStream by one multiplicative-congruential step and
returns the normalized result").  `log` is the C library logarithm. -/
structure Extern where
  lcgrand : Int → ℚ × Int
  log : ℚ → ℚ

/-- The two abnormal ends of the program: `exit(1)` in `timing`, and a read of
`prob_distrib[i]` at an index `i` beyond the last cell of the array. -/
inductive Fault where
  | eventListEmpty : Fault
  | outOfBounds : Nat → Fault
  deriving DecidableEq

/-- One result record handed to the table by `report` (the values before they are
turned into text). -/
structure Row where
  policy_no : Int
  smalls : Int
  bigs : Int
  avg_total_cost : ℚ
  avg_ordering_cost : ℚ
  avg_holding_cost : ℚ
  avg_shortage_cost : ℚ
  deriving DecidableEq

/-- The global variables of `main.c`, the stream state of `lcgrand`, and the rows of
`policies_table` (the table local to `main` that `report` appends to). -/
structure State where
  amount : Int
  bigs : Int
  initial_inv_level : Int
  inv_level : Int
  next_event_type : Int
  num_events : Int
  num_months : Int
  num_values_demand : Int
  smalls : Int
  policy_no : Int
  area_holding : ℚ
  area_shortage : ℚ
  holding_cost : ℚ
  incremental_cost : ℚ
  maxlag : ℚ
  mean_interdemand : ℚ
  minlag : ℚ
  prob_distrib_demand : List ℚ
  setup_cost : ℚ
  shortage_cost : ℚ
  sim_time : ℚ
  time_last_event : ℚ
  time_next_event : Nat → ℚ
  total_ordering_cost : ℚ
  zrng : Int
  policies_table : List Row

/-- The body of the `for` loop of `timing` for one index `i`; `acc` is the pair
`(min_time_next_event, next_event_type)`. -/
def timing_scan (time_next_event : Nat → ℚ) (acc : ℚ × Int) (i : Nat) : ℚ × Int :=
  if time_next_event i < acc.1 then (time_next_event i, (i : Int)) else acc

/-- The function `timing`: scan the cells `1..num_events`, starting from
`min_time_next_event = 1.0e+29` and `next_event_type = 0`; stop the program when no
cell was selected, otherwise advance the clock. -/
def timing (s : State) : Except Fault State :=
  let min_time_next_event : ℚ := 10 ^ 29
  let r := (List.range' 1 s.num_events.toNat).foldl (timing_scan s.time_next_event)
    (min_time_next_event, 0)
  if r.2 = 0 then Except.error Fault.eventListEmpty
  else Except.ok { s with next_event_type := r.2, sim_time := r.1 }

/-- The function `expon`: `-mean * log(lcgrand(1))`, with the stream state after the
draw.  The product is the mathematical one; the `float` that the program returns is `0`
when the product underflows (`expon_float`). -/
def expon (E : Extern) (mean : ℚ) (z : Int) : ℚ × Int :=
  let d := E.lcgrand z
  (-mean * E.log d.1, d.2)

/-- The `for` loop of `random_integer`, `for (i = 1; u >= prob_distrib[i]; ++i)`, over
the cells that remain from index `i` on; running out of cells is a read beyond the
array. -/
def random_integer_scan (u : ℚ) : List ℚ → Nat → Except Fault Int
  | [], i => Except.error (Fault.outOfBounds i)
  | p :: rest, i => if u ≥ p then random_integer_scan u rest (i + 1) else Except.ok (i : Int)

/-- The function `random_integer`: one draw `u`, then the scan from index `1`. -/
def random_integer (E : Extern) (prob_distrib : List ℚ) (z : Int) : Except Fault Int × Int :=
  let d := E.lcgrand z
  let u := d.1
  (random_integer_scan u (prob_distrib.drop 1) 1, d.2)

/-- The function `uniform`: `a + lcgrand(1) * (b - a)`, with the stream state after the
draw. -/
def uniform (E : Extern) (a b : ℚ) (z : Int) : ℚ × Int :=
  let d := E.lcgrand z
  (a + d.1 * (b - a), d.2)

/-- The function `initialize` of `main.c` (the bare name is reserved in Lean). -/
def initialize_run (E : Extern) (s : State) : State :=
  let s := { s with sim_time := 0 }
  let s := { s with inv_level := s.initial_inv_level }
  let s := { s with time_last_event := 0 }
  let s := { s with total_ordering_cost := 0 }
  let s := { s with area_holding := 0 }
  let s := { s with area_shortage := 0 }
  let s := { s with amount := 0 }
  let s := { s with time_next_event := Function.update s.time_next_event 1 (10 ^ 30) }
  let x := expon E s.mean_interdemand s.zrng
  let s := { s with
    time_next_event := Function.update s.time_next_event 2 (s.sim_time + x.1), zrng := x.2 }
  let s := { s with time_next_event := Function.update s.time_next_event 3 (s.num_months : ℚ) }
  { s with time_next_event := Function.update s.time_next_event 4 0 }

/-- The function `order_arrival`. -/
def order_arrival (s : State) : State :=
  let s := { s with inv_level := s.inv_level + s.amount }
  { s with time_next_event := Function.update s.time_next_event 1 (10 ^ 30) }

/-- The function `demand`; it stops with the fault of `random_integer` when the scan
of the demand table leaves the array. -/
def demand (E : Extern) (s : State) : Except Fault State :=
  let r := random_integer E s.prob_distrib_demand s.zrng
  match r.1 with
  | Except.error f => Except.error f
  | Except.ok size =>
    let s := { s with inv_level := s.inv_level - size, zrng := r.2 }
    let x := expon E s.mean_interdemand s.zrng
    Except.ok { s with
      time_next_event := Function.update s.time_next_event 2 (s.sim_time + x.1), zrng := x.2 }

/-- The function `evaluate`.  The subtraction `bigs - inv_level` is the mathematical one:
it is the `int` that the program stores when it is an `int` value (`int_ok`), and the
program overflows otherwise (`wrap_int`).  The sum `sim_time + 1.0` is the mathematical
one: the `float` sum is `sim_time` again from `2^24` on. -/
def evaluate (E : Extern) (s : State) : State :=
  let s :=
    if s.inv_level < s.smalls then
      let s := { s with amount := s.bigs - s.inv_level }
      let s := { s with total_ordering_cost :=
        s.total_ordering_cost + (s.setup_cost + s.incremental_cost * (s.amount : ℚ)) }
      let x := uniform E s.minlag s.maxlag s.zrng
      { s with
        time_next_event := Function.update s.time_next_event 1 (s.sim_time + x.1), zrng := x.2 }
    else s
  { s with time_next_event := Function.update s.time_next_event 4 (s.sim_time + 1) }

/-- The function `report`: the four averages, appended to the table as one row. -/
def report (table : List Row) (s : State) : List Row :=
  let avg_ordering_cost := s.total_ordering_cost / (s.num_months : ℚ)
  let avg_holding_cost := s.holding_cost * s.area_holding / (s.num_months : ℚ)
  let avg_shortage_cost := s.shortage_cost * s.area_shortage / (s.num_months : ℚ)
  let avg_total_cost := avg_ordering_cost + avg_holding_cost + avg_shortage_cost
  table ++ [{ policy_no := s.policy_no, smalls := s.smalls, bigs := s.bigs,
              avg_total_cost := avg_total_cost, avg_ordering_cost := avg_ordering_cost,
              avg_holding_cost := avg_holding_cost, avg_shortage_cost := avg_shortage_cost }]

/-- The function `update_time_avg_stats`. -/
def update_time_avg_stats (s : State) : State :=
  let time_since_last_event := s.sim_time - s.time_last_event
  let s := { s with time_last_event := s.sim_time }
  if s.inv_level < 0 then
    { s with area_shortage := s.area_shortage - (s.inv_level : ℚ) * time_since_last_event }
  else if s.inv_level > 0 then
    { s with area_holding := s.area_holding + (s.inv_level : ℚ) * time_since_last_event }
  else s

/-- The `switch (next_event_type)` of `main`. -/
def event_switch (E : Extern) (s : State) : Except Fault State :=
  if s.next_event_type = 1 then Except.ok (order_arrival s)
  else if s.next_event_type = 2 then demand E s
  else if s.next_event_type = 4 then Except.ok (evaluate E s)
  else if s.next_event_type = 3 then
    Except.ok { s with policies_table := report s.policies_table s }
  else Except.ok s

/-- The body of the `do ... while (next_event_type != 3)` loop of `main`: `timing`,
`update_time_avg_stats`, then the handler of the selected event. -/
def loop_body (E : Extern) (s : State) : Except Fault State :=
  match timing s with
  | Except.error f => Except.error f
  | Except.ok s1 => event_switch E (update_time_avg_stats s1)

/-- The states at which the body of the `do ... while` loop of one policy run starts:
the state left by `initialize` (called on `s0`, the state just before the call), and the
state left by every execution of the body that did not select event type 3. -/
inductive InRun (E : Extern) (s0 : State) : State → Prop
  | start : InRun E s0 (initialize_run E s0)
  | next {s s1 : State} : InRun E s0 s → loop_body E s = Except.ok s1 →
      s1.next_event_type ≠ 3 → InRun E s0 s1

/-- A concrete generator and logarithm used to evaluate the definitions: every draw is
`1/2`, the stream state counts the draws, and `log u` is replaced by `u - 1`. -/
def sampleExtern : Extern where
  lcgrand := fun z => (1 / 2, z + 1)
  log := fun u => u - 1

/-- A concrete state just before `initialize`: the scenario of the specification
(initial level 60, 120 months, four demand sizes, policy `(20, 40)`). -/
def sampleState : State where
  amount := 0
  bigs := 40
  initial_inv_level := 60
  inv_level := 0
  next_event_type := 0
  num_events := 4
  num_months := 120
  num_values_demand := 4
  smalls := 20
  policy_no := 1
  area_holding := 0
  area_shortage := 0
  holding_cost := 1
  incremental_cost := 3
  maxlag := 1
  mean_interdemand := 1 / 10
  minlag := 1 / 2
  prob_distrib_demand := [0, 167 / 1000, 1 / 2, 833 / 1000, 1] ++ List.replicate 21 0
  setup_cost := 32
  shortage_cost := 5
  sim_time := 0
  time_last_event := 0
  time_next_event := fun _ => 0
  total_ordering_cost := 0
  zrng := 1
  policies_table := []

/-- The state after the first execution of the loop body from
`initialize_run sampleExtern sampleState`: EVALUATE at time `0` placed no order
(level `60 >= 20`) and rescheduled itself at time `1`. -/
def sampleAfterEvaluate : State :=
  { sampleState with
    inv_level := 60, next_event_type := 4, zrng := 2,
    time_next_event := fun i =>
      if i = 1 then 10 ^ 30 else if i = 2 then 1 / 20 else if i = 3 then 120
      else if i = 4 then 1 else 0 }

/-- The state after the second execution of the loop body: DEMAND at time `1/20` took
`3` items, and the level `60` held over the interval `[0, 1/20]`. -/
def sampleAfterDemand : State :=
  { sampleAfterEvaluate with
    inv_level := 57, next_event_type := 2, zrng := 4, sim_time := 1 / 20,
    time_last_event := 1 / 20, area_holding := 3,
    time_next_event := fun i =>
      if i = 1 then 10 ^ 30 else if i = 2 then 1 / 10 else if i = 3 then 120
      else if i = 4 then 1 else 0 }

/-- A state whose calendar has a tie: cell `1` holds `5`, cells `2`, `3`, `4` hold `3`. -/
def sampleTieState : State :=
  { sampleState with time_next_event := fun i => if i = 1 then 5 else 3 }

/-- An array of 26 cells whose table `prob_distrib[1..2] = 0.3, 0.4` does not reach
`1.0`; the cells after the table are `0`, as in the zero-initialised global
`prob_distrib_demand` when `num_values_demand = 2`. -/
def unnormalizedTable : List ℚ := [0, 3 / 10, 4 / 10] ++ List.replicate 23 0

/-- The `do ... while (next_event_type != 3)` loop of `main` for one policy: the body is
executed, and executed again as long as the event it selected is not type 3.  `fuel`
bounds the number of executions of the body; `none` means the bound was reached before
the loop ended. -/
def policy_loop (E : Extern) : Nat → State → Option (Except Fault State)
  | 0, _ => none
  | fuel + 1, s =>
    match loop_body E s with
    | Except.error f => some (Except.error f)
    | Except.ok s1 =>
      if s1.next_event_type ≠ 3 then policy_loop E fuel s1 else some (Except.ok s1)

/-- The `for (i = 1; i <= num_policies; ++i)` loop of `main`, from the value `i` of the
loop counter on: `policies` are the pairs `smalls bigs` that the remaining `fscanf` calls
read.  Each pass sets `smalls`, `bigs` and `policy_no`, calls `initialize` and runs the
`do ... while` loop (at most `fuel` bodies per policy); a fault ends the program. -/
def simulate_policies (E : Extern) (fuel : Nat) :
    List (Int × Int) → Int → State → Option (Except Fault State)
  | [], _, s => some (Except.ok s)
  | p :: rest, i, s =>
    let s := { s with smalls := p.1, bigs := p.2 }
    let s := { s with policy_no := i }
    let s := initialize_run E s
    match policy_loop E fuel s with
    | none => none
    | some (Except.error f) => some (Except.error f)
    | some (Except.ok s1) => simulate_policies E fuel rest (i + 1) s1

/-- A bound on the work left in a policy run, used to show that the `do ... while` loop
ends: `1` for an order due by `num_months`, one unit per `delta` of time between the
next demand and `num_months`, and two units per unit of time between the next
evaluation and `num_months`. -/
def remaining_work (delta : ℚ) (s : State) : ℚ :=
  (if s.time_next_event 1 ≤ (s.num_months : ℚ) then 1 else 0) +
    max 0 (((s.num_months : ℚ) - s.time_next_event 2) / delta + 1) +
    2 * max 0 ((s.num_months : ℚ) - s.time_next_event 4 + 1)

/-- A configuration with `smalls = 40 >= bigs = 20` and `minlag = 1 > maxlag = 1/2`:
one month, initial level `10`, mean interdemand time `10`, the rest as in the sample
state. -/
def badConfigState : State :=
  { sampleState with
    smalls := 40, bigs := 20, minlag := 1, maxlag := 1 / 2, mean_interdemand := 10,
    num_months := 1, initial_inv_level := 10 }

/-- The run of `badConfigState` after its first loop body: EVALUATE at time `0` found
the level `10 < 40` and ordered `20 - 10 = 10` at cost `32 + 3 * 10`, due at
`0 + (1 + 1/2 * (1/2 - 1)) = 3/4`. -/
def badAfterEvaluate : State :=
  { badConfigState with
    inv_level := 10, amount := 10, total_ordering_cost := 62, next_event_type := 4,
    zrng := 3,
    time_next_event := fun i =>
      if i = 1 then 3 / 4 else if i = 2 then 5 else if i = 3 then 1
      else if i = 4 then 1 else 0 }

/-- The run of `badConfigState` after its second loop body: ORDER_ARRIVAL at `3/4`,
with the level `10` held since time `0`. -/
def badAfterArrival : State :=
  { badAfterEvaluate with
    inv_level := 20, next_event_type := 1, sim_time := 3 / 4, time_last_event := 3 / 4,
    area_holding := 15 / 2,
    time_next_event := fun i =>
      if i = 1 then 10 ^ 30 else if i = 2 then 5 else if i = 3 then 1
      else if i = 4 then 1 else 0 }

/-- The run of `badConfigState` after its third loop body: END_SIMULATION at time `1`,
with the result row of `report`. -/
def badFinal : State :=
  { badAfterArrival with
    next_event_type := 3, sim_time := 1, time_last_event := 1, area_holding := 25 / 2,
    policies_table :=
      [{ policy_no := 1, smalls := 40, bigs := 20, avg_total_cost := 149 / 2,
         avg_ordering_cost := 62, avg_holding_cost := 25 / 2, avg_shortage_cost := 0 }] }

/-- The part of a state that the simulation can read with four event types: every
variable, and the cells `1..4` of the calendar (the other cells are put to `0`). -/
def observable (s : State) : State :=
  { s with time_next_event := fun i => if 1 ≤ i ∧ i ≤ 4 then s.time_next_event i else 0 }

/-- Two states hold the same inputs of a scenario: the seed (the stream state), the
scenario parameters, and the rows already in the table.  The policy and the variables
that `initialize` or `timing` overwrite are not compared. -/
def SameInputs (s t : State) : Prop :=
  s.zrng = t.zrng ∧ s.initial_inv_level = t.initial_inv_level ∧
  s.num_events = t.num_events ∧ s.num_months = t.num_months ∧
  s.num_values_demand = t.num_values_demand ∧
  s.mean_interdemand = t.mean_interdemand ∧ s.setup_cost = t.setup_cost ∧
  s.incremental_cost = t.incremental_cost ∧ s.holding_cost = t.holding_cost ∧
  s.shortage_cost = t.shortage_cost ∧ s.minlag = t.minlag ∧ s.maxlag = t.maxlag ∧
  s.prob_distrib_demand = t.prob_distrib_demand ∧ s.policies_table = t.policies_table

/-- The result rows of an outcome of the scenario: the table of the final state, the
fault that ended the program, or nothing when the fuel ran out. -/
def result_rows (r : Option (Except Fault State)) : Option (Except Fault (List Row)) :=
  r.map (Except.map State.policies_table)

/-- The sample state with other values in the variables that are not inputs: the level,
the amount on order, the clock, the accumulators, the calendar, the selected type and
the policy. -/
def sampleStateOther : State :=
  { sampleState with
    inv_level := -7, amount := 13, sim_time := 99, time_last_event := 98,
    area_holding := 5, area_shortage := 6, total_ordering_cost := 1000,
    next_event_type := 3, smalls := 1, bigs := 2, policy_no := 9,
    time_next_event := fun _ => 7 }

/-! ### The table printer (`table.c`)

A C string is the list of its characters before the terminating NUL, a `NULL` string is
`none`, and the stream `out` is the list of the characters written so far. -/

/-- The `struct Table` of `table.c`: `title` may be `NULL`, `colnames` has `ncols`
entries that may be `NULL`, and every row has `ncols` cells (`table_add_row` stores a
copy of each value, or of `""`). -/
structure Table where
  title : Option (List Char)
  ncols : Nat
  colnames : List (Option (List Char))
  rows : List (List (List Char))

/-- The function `max_int`. -/
def max_int (a b : Int) : Int := if a > b then a else b

/-- The function `fputc`. -/
def fputc (c : Char) (out : List Char) : List Char := out ++ [c]

/-- The function `fputs`. -/
def fputs (s : List Char) (out : List Char) : List Char := out ++ s

/-- The loop `for (k = 0; k < n; ++k) fputc(c, out);`. -/
def fputc_times (c : Char) (n : Int) (out : List Char) : List Char :=
  (List.range n.toNat).foldl (fun out _ => fputc c out) out

/-- The string that `table_print` prints for column `j` of the header:
`t->colnames[j] ? t->colnames[j] : ""`. -/
def table_label (t : Table) (j : Nat) : List Char :=
  match t.colnames.getD j none with
  | some s => s
  | none => []

/-- The first loop of `table_print`: `widths[j]` is `0`, or the length of the name of
column `j` when there is one. -/
def table_widths_names (t : Table) : List Int :=
  (List.range t.ncols).map (fun j =>
    match t.colnames.getD j none with
    | some s => (s.length : Int)
    | none => 0)

/-- The second loop nest of `table_print`: row after row,
`widths[j] = max_int(widths[j], strlen(rows[i][j]))` for every column `j`. -/
def table_widths (t : Table) : List Int :=
  t.rows.foldl
    (fun widths row =>
      (List.range t.ncols).map (fun j =>
        max_int (widths.getD j 0) ((row.getD j []).length : Int)))
    (table_widths_names t)

/-- The loop that computes `total_len`: from `1`, `total_len += widths[j] + 5`. -/
def table_total_len (t : Table) (widths : List Int) : Int :=
  (List.range t.ncols).foldl (fun total_len j => total_len + (widths.getD j 0 + 5)) 1

/-- The top border of `table_print`: `+`, then per column `widths[j] + 4` dashes followed
by `-` (by `+` after the last column), then the newline. -/
def print_top_border (t : Table) (widths : List Int) (out : List Char) : List Char :=
  let out := fputc '+' out
  let out := (List.range t.ncols).foldl
    (fun out j =>
      let out := fputc_times '-' (widths.getD j 0 + 4) out
      if (j : Int) < (t.ncols : Int) - 1 then fputc '-' out else fputc '+' out)
    out
  fputc '\n' out

/-- The separator line that `table_print` writes after the title, after the header and
after every data row (the same code three times): `+`, then per column
`widths[j] + 4` dashes and `+`, then the newline. -/
def print_separator (t : Table) (widths : List Int) (out : List Char) : List Char :=
  let out := fputc '+' out
  let out := (List.range t.ncols).foldl
    (fun out j => fputc '+' (fputc_times '-' (widths.getD j 0 + 4) out))
    out
  fputc '\n' out

/-- The title line of `table_print`: the title centred between two `|` in
`content_width = total_len - 2` columns (`/` of C rounds towards zero). -/
def print_title_line (title : List Char) (total_len : Int) (out : List Char) : List Char :=
  let content_width := total_len - 2
  let out := fputc '|' out
  let tlen : Int := (title.length : Int)
  let left := (content_width - tlen).tdiv 2
  let right := content_width - tlen - left
  let out := fputc_times ' ' left out
  let out := fputs title out
  let out := fputc_times ' ' right out
  let out := fputc '|' out
  fputc '\n' out

/-- One cell of the header row or of a data row (the same code twice): two blanks, the
string centred in `w` columns, two blanks and `|`. -/
def print_cell (w : Int) (label : List Char) (out : List Char) : List Char :=
  let len : Int := (label.length : Int)
  let left := (w - len).tdiv 2
  let right := w - len - left
  let out := fputc ' ' out
  let out := fputc ' ' out
  let out := fputc_times ' ' left out
  let out := fputs label out
  let out := fputc_times ' ' right out
  let out := fputc ' ' out
  let out := fputc ' ' out
  fputc '|' out

/-- The header row of `table_print`. -/
def print_header (t : Table) (widths : List Int) (out : List Char) : List Char :=
  let out := fputc '|' out
  let out := (List.range t.ncols).foldl
    (fun out j => print_cell (widths.getD j 0) (table_label t j) out) out
  fputc '\n' out

/-- One data row of `table_print`, without its separator. -/
def print_row (t : Table) (widths : List Int) (row : List (List Char))
    (out : List Char) : List Char :=
  let out := fputc '|' out
  let out := (List.range t.ncols).foldl
    (fun out j => print_cell (widths.getD j 0) (row.getD j []) out) out
  fputc '\n' out

/-- The function `table_print` for a table and a stream that are not `NULL`: the column
widths, `total_len`, the three title lines when there is a title, the header row and
its separator, and every data row followed by a separator. -/
def table_print (t : Table) (out : List Char) : List Char :=
  let widths := table_widths t
  let total_len := table_total_len t widths
  let out :=
    match t.title with
    | some title =>
      let out := print_top_border t widths out
      let out := print_title_line title total_len out
      print_separator t widths out
    | none => out
  let out := print_header t widths out
  let out := print_separator t widths out
  t.rows.foldl (fun out row => print_separator t widths (print_row t widths row out)) out

/-- A small table with a title: columns `No` and `Policy`, one row `1`, `( 20, 40)`. -/
def sampleTable : Table where
  title := some "Policies".toList
  ncols := 2
  colnames := [some "No".toList, some "Policy".toList]
  rows := [["1".toList, "( 20, 40)".toList]]

/-- The same table under a title of 40 characters, longer than its lines. -/
def longTitleTable : Table :=
  { sampleTable with title := some (List.replicate 40 'x') }

/-- No string of the table holds a newline character. -/
def table_no_newline (t : Table) : Prop :=
  (∀ title, t.title = some title → '\n' ∉ title) ∧
  (∀ j, j < t.ncols → '\n' ∉ table_label t j) ∧
  ∀ row, row ∈ t.rows → ∀ j, j < t.ncols → '\n' ∉ row.getD j []

/-- An array of 26 cells whose table `prob_distrib[1..2] = 0.3, 0.4` does not reach
`1.0`, with `0` in cell `3` and `0.9` in cell `4` behind the table. -/
def overrunTable : List ℚ := [0, 3 / 10, 4 / 10, 0, 9 / 10] ++ List.replicate 21 0

/-- A configuration whose first order arrives exactly at the next evaluation: initial
level `10` (below `smalls = 20`), delivery lag `minlag = maxlag = 1`, mean interdemand
time `10`, the rest as in the sample state. -/
def tieRunState : State :=
  { sampleState with
    initial_inv_level := 10, mean_interdemand := 10, minlag := 1, maxlag := 1 }

/-- The run of `tieRunState` after its first loop body: EVALUATE at time `0` ordered
`40 - 10 = 30` items at cost `32 + 3 * 30`, due at `0 + 1`, the time of the next
evaluation. -/
def tieAfterEvaluate : State :=
  { tieRunState with
    inv_level := 10, amount := 30, total_ordering_cost := 122, next_event_type := 4,
    zrng := 3,
    time_next_event := fun i =>
      if i = 1 then 1 else if i = 2 then 5 else if i = 3 then 120
      else if i = 4 then 1 else 0 }

/-- The run of `tieRunState` after its second loop body: of the two events due at time
`1`, ORDER_ARRIVAL (the lower index) was processed, and the level is `40`. -/
def tieAfterArrival : State :=
  { tieAfterEvaluate with
    inv_level := 40, next_event_type := 1, sim_time := 1, time_last_event := 1,
    area_holding := 10,
    time_next_event := fun i =>
      if i = 1 then 10 ^ 30 else if i = 2 then 5 else if i = 3 then 120
      else if i = 4 then 1 else 0 }

/-- The sample state with a mean interdemand time of `-10`. -/
def negativeMeanState : State :=
  { sampleState with mean_interdemand := -10 }

/-- The `float` that receives a `double` of small magnitude: a magnitude of at most
`2^-150`, half the least positive `float` `2^-149`, is rounded to `0`.  Only this
underflow of the conversion is modelled; every other value is left as it is. -/
def float_underflow (x : ℚ) : ℚ := if |x| ≤ 1 / 2 ^ 150 then 0 else x

/-- The function `expon` with the conversion of its `double` product to the `float` that
it returns, as far as underflow goes. -/
def expon_float (E : Extern) (mean : ℚ) (z : Int) : ℚ × Int :=
  let x := expon E mean z
  (float_underflow x.1, x.2)

/-- The function `initialize` with the `float` result of `expon` (`expon_float`) in the
assignment `time_next_event[2] = sim_time + expon(mean_interdemand)`. -/
def initialize_float (E : Extern) (s : State) : State :=
  let s := { s with sim_time := 0 }
  let s := { s with inv_level := s.initial_inv_level }
  let s := { s with time_last_event := 0 }
  let s := { s with total_ordering_cost := 0 }
  let s := { s with area_holding := 0 }
  let s := { s with area_shortage := 0 }
  let s := { s with amount := 0 }
  let s := { s with time_next_event := Function.update s.time_next_event 1 (10 ^ 30) }
  let x := expon_float E s.mean_interdemand s.zrng
  let s := { s with
    time_next_event := Function.update s.time_next_event 2 (s.sim_time + x.1), zrng := x.2 }
  let s := { s with time_next_event := Function.update s.time_next_event 3 (s.num_months : ℚ) }
  { s with time_next_event := Function.update s.time_next_event 4 0 }

/-- A generator whose every draw is `3/4`, with `log(3/4) = -0.28768` to five digits. -/
def underflowExtern : Extern where
  lcgrand := fun z => (3 / 4, z + 1)
  log := fun _ => -28768 / 100000

/-- The sample state with the least positive `float`, `2^-149`, as mean interdemand
time. -/
def underflowState : State :=
  { sampleState with mean_interdemand := 1 / 2 ^ 149 }

/-- The least value of a C `int` (32 bits, two's complement). -/
def INT_MIN : Int := -2147483648

/-- The largest value of a C `int` (32 bits). -/
def INT_MAX : Int := 2147483647

/-- Whether a mathematical integer is the value of a C `int`. -/
def int_ok (x : Int) : Prop := INT_MIN ≤ x ∧ x ≤ INT_MAX

instance (x : Int) : Decidable (int_ok x) := by
  unfold int_ok
  infer_instance

/-- The `int` that a two's-complement machine stores for the mathematical value `x`
(the usual outcome of a signed overflow, which the C standard leaves undefined). -/
def wrap_int (x : Int) : Int := (x + 2147483648) % 4294967296 - 2147483648

/-- The states at which the loop body of one policy run starts (as `InRun`), in a run
whose `int` arithmetic has stayed within the range of `int` so far: the three integer
inputs are `int` values, and so are the level and the amount on order that every loop
body has left (the results of `inv_level += amount`, `inv_level -= size` and
`amount = bigs - inv_level`).  On such a run the unbounded integers of this development
and the `int` variables of the program hold the same values. -/
inductive InRunInt (E : Extern) (s0 : State) : State → Prop
  | start : int_ok s0.initial_inv_level → int_ok s0.smalls → int_ok s0.bigs →
      InRunInt E s0 (initialize_run E s0)
  | next {s s1 : State} : InRunInt E s0 s → loop_body E s = Except.ok s1 →
      s1.next_event_type ≠ 3 → int_ok s1.inv_level → int_ok s1.amount → InRunInt E s0 s1

/-- A configuration whose first order does not fit an `int`: initial level `-1`, policy
`(smalls, bigs) = (0, INT_MAX)`, the rest as in the sample state. -/
def overflowState : State :=
  { sampleState with initial_inv_level := -1, smalls := 0, bigs := 2147483647 }

/-- The run of `overflowState` after its first loop body, with unbounded integers:
EVALUATE at time `0` found the level `-1 < 0` and ordered `2147483647 - (-1)` items, due
at `0 + (1/2 + 1/2 * (1 - 1/2)) = 3/4`. -/
def overflowAfterEvaluate : State :=
  { overflowState with
    inv_level := -1, amount := 2147483648, total_ordering_cost := 6442450976,
    next_event_type := 4, zrng := 3,
    time_next_event := fun i =>
      if i = 1 then 3 / 4 else if i = 2 then 1 / 20 else if i = 3 then 120
      else if i = 4 then 1 else 0 }

/-! ## Auxiliary facts about the program -/

/-- What the scan of `timing` over the cells `1..n` returns, from the threshold `T`
and type `0`: either nothing is below `T`, or the first cell holding the minimum. -/
theorem timing_scan_spec (tne : Nat → ℚ) (T : ℚ) (n : Nat) :
    ((List.range' 1 n).foldl (timing_scan tne) (T, 0) = (T, 0) ∧
        ∀ j, 1 ≤ j → j ≤ n → T ≤ tne j) ∨
    (∃ k : Nat, 1 ≤ k ∧ k ≤ n ∧
        (List.range' 1 n).foldl (timing_scan tne) (T, 0) = (tne k, (k : Int)) ∧
        tne k < T ∧ (∀ j, 1 ≤ j → j ≤ n → tne k ≤ tne j) ∧
        ∀ j, 1 ≤ j → j < k → tne k < tne j) := by
  induction n with
  | zero =>
    left
    refine ⟨by simp, ?_⟩
    intro j h1 h2
    omega
  | succ n ih =>
    rw [List.range'_concat, List.foldl_append]
    rcases ih with ⟨h0, hall⟩ | ⟨k, hk1, hkn, hk, hlt, hmin, hfirst⟩
    · rw [h0]
      by_cases hc : tne (1 + n) < T
      · right
        refine ⟨1 + n, by omega, by omega, by simp [timing_scan, hc], hc, ?_, ?_⟩
        · intro j h1 h2
          rcases Nat.lt_or_ge j (1 + n) with h | h
          · exact le_trans (le_of_lt hc) (hall j h1 (by omega))
          · have : j = 1 + n := by omega
            rw [this]
        · intro j h1 h2
          exact lt_of_lt_of_le hc (hall j h1 (by omega))
      · left
        refine ⟨by simp [timing_scan, hc], ?_⟩
        intro j h1 h2
        rcases Nat.lt_or_ge j (1 + n) with h | h
        · exact hall j h1 (by omega)
        · have : j = 1 + n := by omega
          rw [this]
          exact not_lt.mp hc
    · rw [hk]
      right
      by_cases hc : tne (1 + n) < tne k
      · refine ⟨1 + n, by omega, by omega, by simp [timing_scan, hc],
          lt_trans hc hlt, ?_, ?_⟩
        · intro j h1 h2
          rcases Nat.lt_or_ge j (1 + n) with h | h
          · exact le_trans (le_of_lt hc) (hmin j h1 (by omega))
          · have : j = 1 + n := by omega
            rw [this]
        · intro j h1 h2
          exact lt_of_lt_of_le hc (hmin j h1 (by omega))
      · refine ⟨k, hk1, by omega, by simp [timing_scan, hc], hlt, ?_, hfirst⟩
        intro j h1 h2
        rcases Nat.lt_or_ge j (1 + n) with h | h
        · exact hmin j h1 (by omega)
        · have : j = 1 + n := by omega
          rw [this]
          exact not_lt.mp hc

/-- A normal return of `timing` changes `next_event_type` and `sim_time` only. -/
theorem timing_ok_eq (s s1 : State) (h : timing s = Except.ok s1) :
    s1 = { s with next_event_type := s1.next_event_type, sim_time := s1.sim_time } := by
  unfold timing at h
  simp only at h
  split_ifs at h
  injection h with h
  rw [← h]

/-- With four event types, a normal return of `timing` selects the first cell among
`1..4` that holds the minimum, and that minimum is below `1.0e+29`. -/
theorem timing_ok_four (s s1 : State) (h4 : s.num_events = 4)
    (h : timing s = Except.ok s1) :
    ∃ k : Nat, 1 ≤ k ∧ k ≤ 4 ∧ s.time_next_event k < 10 ^ 29 ∧
      (∀ j, 1 ≤ j → j ≤ 4 → s.time_next_event k ≤ s.time_next_event j) ∧
      s1 = { s with next_event_type := (k : Int), sim_time := s.time_next_event k } := by
  have hn : s.num_events.toNat = 4 := by rw [h4]; rfl
  unfold timing at h
  simp only [hn] at h
  rcases timing_scan_spec s.time_next_event (10 ^ 29) 4 with ⟨h0, _⟩ |
    ⟨k, hk1, hk4, hk, hlt, hmin, _⟩
  · rw [h0] at h
    simp at h
  · rw [hk] at h
    have hk0 : (k : Int) ≠ 0 := by omega
    simp only [hk0, if_false] at h
    injection h with h
    exact ⟨k, hk1, hk4, hlt, hmin, h.symm⟩

/-- With four event types and a cell of `1..4` below `1.0e+29`, `timing` returns
normally. -/
theorem timing_ok_of_scheduled (s : State) (h4 : s.num_events = 4) (i : Nat)
    (hi1 : 1 ≤ i) (hi4 : i ≤ 4) (hi : s.time_next_event i < 10 ^ 29) :
    ∃ s1, timing s = Except.ok s1 := by
  rcases timing_scan_spec s.time_next_event (10 ^ 29) 4 with ⟨_, hall⟩ |
    ⟨k, hk1, hk4, hk, _, _, _⟩
  · exact absurd hi (not_lt.mpr (hall i hi1 hi4))
  · have hk0 : (k : Int) ≠ 0 := by omega
    refine ⟨{ s with next_event_type := (k : Int), sim_time := s.time_next_event k }, ?_⟩
    simp only [timing, h4]
    rw [show Int.toNat 4 = 4 from rfl, hk]
    simp [hk0]

/-- The record form of `update_time_avg_stats`. -/
theorem update_time_avg_stats_eq (s : State) :
    update_time_avg_stats s =
      { s with
        area_holding :=
          s.area_holding + (s.sim_time - s.time_last_event) * max (s.inv_level : ℚ) 0,
        area_shortage :=
          s.area_shortage + (s.sim_time - s.time_last_event) * max (-(s.inv_level : ℚ)) 0,
        time_last_event := s.sim_time } := by
  rcases lt_trichotomy s.inv_level 0 with h | h | h
  · have hq : (s.inv_level : ℚ) < 0 := by exact_mod_cast h
    have h1 : max (s.inv_level : ℚ) 0 = 0 := max_eq_right (le_of_lt hq)
    have h2 : max (-(s.inv_level : ℚ)) 0 = -(s.inv_level : ℚ) :=
      max_eq_left (by linarith)
    simp only [update_time_avg_stats, h, if_true, h1, h2, mul_zero, add_zero]
    congr 1
    ring
  · have h1 : max (s.inv_level : ℚ) 0 = 0 := by simp [h]
    have h2 : max (-(s.inv_level : ℚ)) 0 = 0 := by simp [h]
    simp [update_time_avg_stats, h]
  · have hq : (0 : ℚ) < (s.inv_level : ℚ) := by exact_mod_cast h
    have h1 : max (s.inv_level : ℚ) 0 = (s.inv_level : ℚ) := max_eq_left (le_of_lt hq)
    have h2 : max (-(s.inv_level : ℚ)) 0 = 0 := max_eq_right (by linarith)
    have hn : ¬ s.inv_level < 0 := not_lt.mpr (le_of_lt h)
    simp only [update_time_avg_stats, hn, if_false, gt_iff_lt, h, if_true, h1, h2,
      mul_zero, add_zero]
    congr 1
    ring

/-- What the scan of `random_integer` returns over the remaining cells `l`, started at
index `i`: the index of the first cell above `u`, or a read past the last cell when
every cell is at most `u`. -/
theorem random_integer_scan_spec (u : ℚ) (l : List ℚ) (i : Nat) :
    (∃ (k : Nat) (p : ℚ), l[k]? = some p ∧ u < p ∧
        (∀ (j : Nat) (q : ℚ), j < k → l[j]? = some q → q ≤ u) ∧
        random_integer_scan u l i = Except.ok ((i + k : Nat) : Int)) ∨
    ((∀ (j : Nat) (q : ℚ), l[j]? = some q → q ≤ u) ∧
        random_integer_scan u l i = Except.error (Fault.outOfBounds (i + l.length))) := by
  induction l generalizing i with
  | nil =>
    right
    exact ⟨by simp, by simp [random_integer_scan]⟩
  | cons p rest ih =>
    by_cases hp : u ≥ p
    · rcases ih (i + 1) with ⟨k, p', hk, hlt, hbelow, hres⟩ | ⟨hall, hres⟩
      · left
        refine ⟨k + 1, p', by simpa using hk, hlt, ?_, ?_⟩
        · intro j q hj hq
          cases j with
          | zero =>
            simp at hq
            rw [← hq]
            exact hp
          | succ j =>
            simp at hq
            exact hbelow j q (by omega) hq
        · simp only [random_integer_scan, hp, if_true, hres]
          congr 2
          omega
      · right
        refine ⟨?_, ?_⟩
        · intro j q hq
          cases j with
          | zero =>
            simp at hq
            rw [← hq]
            exact hp
          | succ j =>
            simp at hq
            exact hall j q hq
        · simp only [random_integer_scan, hp, if_true, hres, List.length_cons]
          congr 2
          omega
    · left
      refine ⟨0, p, by simp, not_le.mp hp, ?_, ?_⟩
      · intro j q hj
        omega
      · simp [random_integer_scan, hp]

/-- A normal return of `demand`: the level drops by the generated size, DEMAND is
rescheduled, two draws are consumed, nothing else changes. -/
theorem demand_ok_eq (E : Extern) (s s1 : State) (h : demand E s = Except.ok s1) :
    ∃ size : Int, (random_integer E s.prob_distrib_demand s.zrng).1 = Except.ok size ∧
      s1 = { s with
        inv_level := s.inv_level - size,
        zrng := (E.lcgrand (E.lcgrand s.zrng).2).2,
        time_next_event := Function.update s.time_next_event 2
          (s.sim_time + (expon E s.mean_interdemand (E.lcgrand s.zrng).2).1) } := by
  unfold demand at h
  simp only at h
  cases hr : (random_integer E s.prob_distrib_demand s.zrng).1 with
  | error f =>
    rw [hr] at h
    cases h
  | ok size =>
    rw [hr] at h
    injection h with h
    refine ⟨size, rfl, ?_⟩
    rw [← h]
    simp [random_integer, expon]

/-- The record form of `evaluate`. -/
theorem evaluate_eq (E : Extern) (s : State) :
    evaluate E s =
      if s.inv_level < s.smalls then
        { s with
          amount := s.bigs - s.inv_level,
          total_ordering_cost := s.total_ordering_cost +
            (s.setup_cost + s.incremental_cost * ((s.bigs - s.inv_level : Int) : ℚ)),
          time_next_event :=
            Function.update
              (Function.update s.time_next_event 1
                (s.sim_time + (s.minlag + (E.lcgrand s.zrng).1 * (s.maxlag - s.minlag))))
              4 (s.sim_time + 1),
          zrng := (E.lcgrand s.zrng).2 }
      else
        { s with time_next_event := Function.update s.time_next_event 4 (s.sim_time + 1) } := by
  by_cases h : s.inv_level < s.smalls <;> simp [evaluate, uniform, h]

/-- The handler that `event_switch` runs, by the selected type. -/
theorem event_switch_cases (E : Extern) (s s1 : State)
    (h : event_switch E s = Except.ok s1) :
    (s.next_event_type = 1 ∧ s1 = order_arrival s) ∨
    (s.next_event_type = 2 ∧ demand E s = Except.ok s1) ∨
    (s.next_event_type = 4 ∧ s1 = evaluate E s) ∨
    (s.next_event_type = 3 ∧ s1 = { s with policies_table := report s.policies_table s }) ∨
    (s1 = s) := by
  unfold event_switch at h
  split_ifs at h with h1 h2 h4 h3
  · injection h with h
    exact Or.inl ⟨h1, h.symm⟩
  · exact Or.inr (Or.inl ⟨h2, h⟩)
  · injection h with h
    exact Or.inr (Or.inr (Or.inl ⟨h4, h.symm⟩))
  · injection h with h
    exact Or.inr (Or.inr (Or.inr (Or.inl ⟨h3, h.symm⟩)))
  · injection h with h
    exact Or.inr (Or.inr (Or.inr (Or.inr h.symm)))

/-- The fields that no handler touches: the two area integrals, the clock, the selected
type, the configuration, and the END_SIMULATION cell of the calendar. -/
theorem event_switch_frame (E : Extern) (s s1 : State)
    (h : event_switch E s = Except.ok s1) :
    s1.area_holding = s.area_holding ∧ s1.area_shortage = s.area_shortage ∧
    s1.sim_time = s.sim_time ∧ s1.time_last_event = s.time_last_event ∧
    s1.next_event_type = s.next_event_type ∧
    s1.num_events = s.num_events ∧ s1.num_months = s.num_months ∧
    s1.mean_interdemand = s.mean_interdemand ∧ s1.minlag = s.minlag ∧
    s1.maxlag = s.maxlag ∧ s1.time_next_event 3 = s.time_next_event 3 := by
  rcases event_switch_cases E s s1 h with ⟨_, h⟩ | ⟨_, h⟩ | ⟨_, h⟩ | ⟨_, h⟩ | h
  · subst h
    simp [order_arrival]
  · obtain ⟨size, _, h⟩ := demand_ok_eq E s s1 h
    subst h
    simp
  · subst h
    rw [evaluate_eq]
    split_ifs <;> simp
  · subst h
    simp
  · subst h
    simp

/-- One execution of the loop body: the fields it leaves unchanged, and the two area
integrals, advanced over the interval from the old `time_last_event` to the new
`sim_time` with the level held before the handler ran. -/
theorem loop_body_frame (E : Extern) (s s1 : State) (h : loop_body E s = Except.ok s1) :
    s1.area_holding =
      s.area_holding + (s1.sim_time - s.time_last_event) * max (s.inv_level : ℚ) 0 ∧
    s1.area_shortage =
      s.area_shortage + (s1.sim_time - s.time_last_event) * max (-(s.inv_level : ℚ)) 0 ∧
    s1.time_last_event = s1.sim_time ∧
    s1.num_events = s.num_events ∧ s1.num_months = s.num_months ∧
    s1.mean_interdemand = s.mean_interdemand ∧ s1.minlag = s.minlag ∧
    s1.maxlag = s.maxlag ∧ s1.time_next_event 3 = s.time_next_event 3 := by
  unfold loop_body at h
  cases ht : timing s with
  | error f =>
    rw [ht] at h
    cases h
  | ok t =>
    rw [ht] at h
    simp only at h
    have hf := event_switch_frame E _ _ h
    have ht1 := timing_ok_eq s t ht
    rw [update_time_avg_stats_eq] at hf
    simp only at hf
    obtain ⟨f1, f2, f3, f4, _, f6, f7, f8, f9, f10, f11⟩ := hf
    rw [ht1] at f1 f2 f4 f6 f7 f8 f9 f10 f11
    simp only at f1 f2 f4 f6 f7 f8 f9 f10 f11
    rw [f3]
    exact ⟨f1, f2, f4, f6, f7, f8, f9, f10, f11⟩

/-- The configuration and the END_SIMULATION cell are the same in every state of a
policy run: `num_events`, `mean_interdemand`, `minlag`, `maxlag` and `num_months` keep
their values, and `time_next_event[3]` stays at `num_months`. -/
theorem inRun_config (E : Extern) (s0 s : State) (hrun : InRun E s0 s) :
    s.num_events = s0.num_events ∧ s.num_months = s0.num_months ∧
    s.mean_interdemand = s0.mean_interdemand ∧ s.minlag = s0.minlag ∧
    s.maxlag = s0.maxlag ∧ s.time_next_event 3 = (s0.num_months : ℚ) := by
  induction hrun with
  | start => simp [initialize_run]
  | next _ hbody _ ih =>
    obtain ⟨_, _, _, f4, f5, f6, f7, f8, f9⟩ := loop_body_frame E _ _ hbody
    obtain ⟨i1, i2, i3, i4, i5, i6⟩ := ih
    exact ⟨f4.trans i1, f5.trans i2, f6.trans i3, f7.trans i4, f8.trans i5, f9.trans i6⟩

/-- One execution of the loop body from a state whose calendar is not behind the
clock: the clock does not go back, and afterwards `time_last_event = sim_time` and
every cell of the calendar is again at or after the clock. -/
theorem loop_body_clock (E : Extern) (s s1 : State)
    (hlog : ∀ u : ℚ, 0 < u → u < 1 → E.log u ≤ 0)
    (hdraw : ∀ z : Int, 0 < (E.lcgrand z).1 ∧ (E.lcgrand z).1 < 1)
    (h4 : s.num_events = 4) (hmean : 0 < s.mean_interdemand) (hlag0 : 0 ≤ s.minlag)
    (hlag : s.minlag ≤ s.maxlag)
    (hcal : ∀ i, 1 ≤ i → i ≤ 4 → s.sim_time ≤ s.time_next_event i)
    (h : loop_body E s = Except.ok s1) :
    s.sim_time ≤ s1.sim_time ∧
    ∀ i, 1 ≤ i → i ≤ 4 → s1.sim_time ≤ s1.time_next_event i := by
  unfold loop_body at h
  cases ht : timing s with
  | error f =>
    rw [ht] at h
    cases h
  | ok t =>
    rw [ht] at h
    simp only at h
    obtain ⟨k, hk1, hk4, hlt, hmin, hteq⟩ := timing_ok_four s t h4 ht
    have hsim : s1.sim_time = s.time_next_event k := by
      have := (event_switch_frame E _ _ h).2.2.1
      rw [this, update_time_avg_stats_eq, hteq]
    refine ⟨by rw [hsim]; exact hcal k hk1 hk4, ?_⟩
    intro i hi1 hi4
    rw [hsim]
    have hmi := hmin i hi1 hi4
    rw [update_time_avg_stats_eq, hteq] at h
    rcases event_switch_cases E _ _ h with ⟨_, h⟩ | ⟨_, h⟩ | ⟨_, h⟩ | ⟨_, h⟩ | h
    · subst h
      simp only [order_arrival, Function.update_apply]
      split_ifs
      · have : (10 : ℚ) ^ 29 < 10 ^ 30 := by norm_num
        linarith
      · exact hmi
    · obtain ⟨size, _, h⟩ := demand_ok_eq E _ s1 h
      subst h
      simp only [Function.update_apply]
      split_ifs
      · have hd := hdraw (E.lcgrand s.zrng).2
        have hl := hlog _ hd.1 hd.2
        simp only [expon]
        nlinarith
      · exact hmi
    · subst h
      rw [evaluate_eq]
      split_ifs
      · simp only [Function.update_apply]
        have hd := hdraw s.zrng
        split_ifs
        · linarith
        · nlinarith
        · exact hmi
      · simp only [Function.update_apply]
        split_ifs
        · linarith
        · exact hmi
    · subst h
      exact hmi
    · subst h
      exact hmi

/-- In every state at which the loop body of a policy run starts, `time_last_event`
equals `sim_time`, every cell `1..4` of the calendar is at or after `sim_time`, and the
two area integrals are non-negative. -/
theorem inRun_clock (E : Extern) (s0 s : State)
    (hlog : ∀ u : ℚ, 0 < u → u < 1 → E.log u ≤ 0)
    (hdraw : ∀ z : Int, 0 < (E.lcgrand z).1 ∧ (E.lcgrand z).1 < 1)
    (h4 : s0.num_events = 4) (hmean : 0 < s0.mean_interdemand) (hlag0 : 0 ≤ s0.minlag)
    (hlag : s0.minlag ≤ s0.maxlag) (hmonths : 0 ≤ s0.num_months)
    (hrun : InRun E s0 s) :
    s.time_last_event = s.sim_time ∧
    (∀ i, 1 ≤ i → i ≤ 4 → s.sim_time ≤ s.time_next_event i) ∧
    0 ≤ s.area_holding ∧ 0 ≤ s.area_shortage := by
  induction hrun with
  | start =>
    refine ⟨by simp [initialize_run], ?_, by simp [initialize_run], by simp [initialize_run]⟩
    intro i hi1 hi4
    have hd := hdraw s0.zrng
    have hl := hlog _ hd.1 hd.2
    have hm : (0 : ℚ) ≤ (s0.num_months : ℚ) := by exact_mod_cast hmonths
    have hi : i = 1 ∨ i = 2 ∨ i = 3 ∨ i = 4 := by omega
    rcases hi with rfl | rfl | rfl | rfl
    · simp [initialize_run]
    · simp only [initialize_run, expon]
      simp
      nlinarith
    · simp [initialize_run, hm]
    · simp [initialize_run]
  | @next s s1 hprev hbody _ ih =>
    obtain ⟨c1, _, c3, c4, c5, _⟩ := inRun_config E s0 s hprev
    obtain ⟨itle, ical, iah, ias⟩ := ih
    obtain ⟨hmono, hcal1⟩ := loop_body_clock E s s1 hlog hdraw (c1.trans h4)
      (by rw [c3]; exact hmean) (by rw [c4]; exact hlag0) (by rw [c4, c5]; exact hlag)
      ical hbody
    obtain ⟨fa, fs, ftle, _⟩ := loop_body_frame E s s1 hbody
    refine ⟨ftle, hcal1, ?_, ?_⟩
    · rw [fa, itle]
      have : (0 : ℚ) ≤ max (s.inv_level : ℚ) 0 := le_max_right _ _
      nlinarith
    · rw [fs, itle]
      have : (0 : ℚ) ≤ max (-(s.inv_level : ℚ)) 0 := le_max_right _ _
      nlinarith

/-- The sample logarithm is not positive on `(0,1)`. -/
theorem sample_log (u : ℚ) (_h0 : 0 < u) (h1 : u < 1) : sampleExtern.log u ≤ 0 := by
  simp only [sampleExtern]
  linarith

/-- Every draw of the sample generator is in `(0,1)`. -/
theorem sample_draw (z : Int) :
    0 < (sampleExtern.lcgrand z).1 ∧ (sampleExtern.lcgrand z).1 < 1 := by
  simp only [sampleExtern]
  norm_num

/-- The first execution of the loop body in the sample run. -/
theorem sample_first_step :
    loop_body sampleExtern (initialize_run sampleExtern sampleState) =
      Except.ok sampleAfterEvaluate := by
  have ht : timing (initialize_run sampleExtern sampleState) = Except.ok
      { initialize_run sampleExtern sampleState with next_event_type := 4, sim_time := 0 } := by
    simp [timing, initialize_run, sampleState, sampleExtern, expon, List.range', timing_scan]
    norm_num
  rw [loop_body, ht]
  simp only [event_switch, update_time_avg_stats_eq, evaluate_eq]
  simp [initialize_run, sampleState, sampleExtern, expon, sampleAfterEvaluate]
  funext i
  simp only [Function.update_apply]
  split_ifs <;> first | rfl | omega | norm_num

/-- The second execution of the loop body in the sample run. -/
theorem sample_second_step :
    loop_body sampleExtern sampleAfterEvaluate = Except.ok sampleAfterDemand := by
  have ht : timing sampleAfterEvaluate = Except.ok
      { sampleAfterEvaluate with next_event_type := 2, sim_time := 1 / 20 } := by
    simp [timing, sampleAfterEvaluate, sampleState, List.range', timing_scan]
    norm_num
  rw [loop_body, ht]
  simp only [event_switch, update_time_avg_stats_eq]
  simp [demand, random_integer, random_integer_scan, expon, sampleAfterEvaluate, sampleState,
    sampleExtern, sampleAfterDemand]
  norm_num
  funext i
  simp only [Function.update_apply]
  split_ifs <;> first | rfl | omega

/-- The state after the first step of the sample run is a state of that run. -/
theorem sample_inRun : InRun sampleExtern sampleState sampleAfterEvaluate :=
  InRun.next InRun.start sample_first_step (by simp [sampleAfterEvaluate])

/-- With cell `n >= 1` of the table holding `1.0` and a draw below `1`, the scan of
`random_integer` stays inside the table: it returns the first index in `1..n` whose
cell is above the draw. -/
theorem random_integer_in_table (E : Extern) (prob_distrib : List ℚ) (n : Nat)
    (z : Int) (hn : 1 ≤ n) (hlast : prob_distrib[n]? = some 1)
    (hu : (E.lcgrand z).1 < 1) :
    ∃ i : Nat, 1 ≤ i ∧ i ≤ n ∧
      random_integer E prob_distrib z = (Except.ok (i : Int), (E.lcgrand z).2) := by
  have hcell : ∀ k, (prob_distrib.drop 1)[k]? = prob_distrib[1 + k]? := by
    intro k
    rw [List.getElem?_drop]
  have h1 : (prob_distrib.drop 1)[n - 1]? = some 1 := by
    rw [hcell, show 1 + (n - 1) = n by omega]
    exact hlast
  rcases random_integer_scan_spec (E.lcgrand z).1 (prob_distrib.drop 1) 1 with
    ⟨k, p, _, _, hbelow, hres⟩ | ⟨hall, _⟩
  · refine ⟨1 + k, by omega, ?_, by simp only [random_integer, hres]⟩
    by_contra hgt
    have := hbelow (n - 1) 1 (by omega) h1
    linarith
  · have := hall (n - 1) 1 h1
    linarith

/-- More fields that no handler touches: the policy, the initial level, the cost
coefficients and the demand table; the table of result rows changes only when the
selected event is type 3. -/
theorem event_switch_frame_policy (E : Extern) (s s1 : State)
    (h : event_switch E s = Except.ok s1) :
    s1.bigs = s.bigs ∧ s1.smalls = s.smalls ∧
    s1.initial_inv_level = s.initial_inv_level ∧
    s1.prob_distrib_demand = s.prob_distrib_demand ∧ s1.policy_no = s.policy_no ∧
    s1.setup_cost = s.setup_cost ∧ s1.incremental_cost = s.incremental_cost ∧
    s1.holding_cost = s.holding_cost ∧ s1.shortage_cost = s.shortage_cost ∧
    s1.num_values_demand = s.num_values_demand ∧
    (s.next_event_type ≠ 3 → s1.policies_table = s.policies_table) := by
  rcases event_switch_cases E s s1 h with ⟨_, h⟩ | ⟨_, h⟩ | ⟨_, h⟩ | ⟨h3, h⟩ | h
  · subst h
    simp [order_arrival]
  · obtain ⟨size, _, h⟩ := demand_ok_eq E s s1 h
    subst h
    simp
  · subst h
    rw [evaluate_eq]
    split_ifs <;> simp
  · subst h
    simp [h3]
  · subst h
    simp

/-- One execution of the loop body leaves the policy, the initial level, the cost
coefficients and the demand table unchanged, and the table of result rows too unless
the selected event is type 3. -/
theorem loop_body_frame_policy (E : Extern) (s s1 : State)
    (h : loop_body E s = Except.ok s1) :
    s1.bigs = s.bigs ∧ s1.smalls = s.smalls ∧
    s1.initial_inv_level = s.initial_inv_level ∧
    s1.prob_distrib_demand = s.prob_distrib_demand ∧ s1.policy_no = s.policy_no ∧
    s1.setup_cost = s.setup_cost ∧ s1.incremental_cost = s.incremental_cost ∧
    s1.holding_cost = s.holding_cost ∧ s1.shortage_cost = s.shortage_cost ∧
    s1.num_values_demand = s.num_values_demand ∧
    (s1.next_event_type ≠ 3 → s1.policies_table = s.policies_table) := by
  unfold loop_body at h
  cases ht : timing s with
  | error f =>
    rw [ht] at h
    cases h
  | ok t =>
    rw [ht] at h
    simp only at h
    have hf := event_switch_frame_policy E _ _ h
    have hnet := (event_switch_frame E _ _ h).2.2.2.2.1
    have ht1 := timing_ok_eq s t ht
    rw [update_time_avg_stats_eq] at hf hnet
    simp only at hf hnet
    obtain ⟨f1, f2, f3, f4, f5, f6, f7, f8, f9, f10, f11⟩ := hf
    rw [ht1] at f1 f2 f3 f4 f5 f6 f7 f8 f9 f10 f11
    simp only at f1 f2 f3 f4 f5 f6 f7 f8 f9 f10 f11
    refine ⟨f1, f2, f3, f4, f5, f6, f7, f8, f9, f10, ?_⟩
    intro h3
    exact f11 (by rw [← hnet]; exact h3)

/-- The policy, the initial level, the cost coefficients, the demand table and the
table of result rows are the same in every state at which the loop body of a policy run
starts. -/
theorem inRun_policy (E : Extern) (s0 s : State) (hrun : InRun E s0 s) :
    s.bigs = s0.bigs ∧ s.smalls = s0.smalls ∧
    s.initial_inv_level = s0.initial_inv_level ∧
    s.prob_distrib_demand = s0.prob_distrib_demand ∧ s.policy_no = s0.policy_no ∧
    s.setup_cost = s0.setup_cost ∧ s.incremental_cost = s0.incremental_cost ∧
    s.holding_cost = s0.holding_cost ∧ s.shortage_cost = s0.shortage_cost ∧
    s.num_values_demand = s0.num_values_demand ∧
    s.policies_table = s0.policies_table := by
  induction hrun with
  | start => simp [initialize_run]
  | next _ hbody hne ih =>
    obtain ⟨f1, f2, f3, f4, f5, f6, f7, f8, f9, f10, f11⟩ := loop_body_frame_policy E _ _ hbody
    obtain ⟨i1, i2, i3, i4, i5, i6, i7, i8, i9, i10, i11⟩ := ih
    exact ⟨f1.trans i1, f2.trans i2, f3.trans i3, f4.trans i4, f5.trans i5, f6.trans i6,
      f7.trans i7, f8.trans i8, f9.trans i9, f10.trans i10, (f11 hne).trans i11⟩

/-- With four event types, a normal return of `timing` selects the first cell among
`1..4` that holds the minimum: every cell before it is strictly later. -/
theorem timing_ok_first (s s1 : State) (h4 : s.num_events = 4)
    (h : timing s = Except.ok s1) :
    ∃ k : Nat, 1 ≤ k ∧ k ≤ 4 ∧ s.time_next_event k < 10 ^ 29 ∧
      (∀ j, 1 ≤ j → j ≤ 4 → s.time_next_event k ≤ s.time_next_event j) ∧
      (∀ j, 1 ≤ j → j < k → s.time_next_event k < s.time_next_event j) ∧
      s1 = { s with next_event_type := (k : Int), sim_time := s.time_next_event k } := by
  have hn : s.num_events.toNat = 4 := by rw [h4]; rfl
  unfold timing at h
  simp only [hn] at h
  rcases timing_scan_spec s.time_next_event (10 ^ 29) 4 with ⟨h0, _⟩ |
    ⟨k, hk1, hk4, hk, hlt, hmin, hfirst⟩
  · rw [h0] at h
    simp at h
  · rw [hk] at h
    have hk0 : (k : Int) ≠ 0 := by omega
    simp only [hk0, if_false] at h
    injection h with h
    exact ⟨k, hk1, hk4, hlt, hmin, hfirst, h.symm⟩

/-- One normal execution of the loop body with four event types: the first cell `k`
holding the minimum is selected, the clock moves there, the areas are advanced, and the
handler of type `k` runs. -/
theorem loop_body_cases (E : Extern) (s s1 : State) (h4 : s.num_events = 4)
    (h : loop_body E s = Except.ok s1) :
    ∃ k : Nat, 1 ≤ k ∧ k ≤ 4 ∧ s.time_next_event k < 10 ^ 29 ∧
      (∀ j, 1 ≤ j → j ≤ 4 → s.time_next_event k ≤ s.time_next_event j) ∧
      (∀ j, 1 ≤ j → j < k → s.time_next_event k < s.time_next_event j) ∧
      ((k = 1 ∧ s1 = order_arrival (update_time_avg_stats
          { s with next_event_type := 1, sim_time := s.time_next_event 1 })) ∨
       (k = 2 ∧ demand E (update_time_avg_stats
          { s with next_event_type := 2, sim_time := s.time_next_event 2 }) = Except.ok s1) ∨
       (k = 3 ∧ s1 =
          { update_time_avg_stats
              { s with next_event_type := 3, sim_time := s.time_next_event 3 } with
            policies_table := report s.policies_table (update_time_avg_stats
              { s with next_event_type := 3, sim_time := s.time_next_event 3 }) }) ∨
       (k = 4 ∧ s1 = evaluate E (update_time_avg_stats
          { s with next_event_type := 4, sim_time := s.time_next_event 4 }))) := by
  unfold loop_body at h
  cases ht : timing s with
  | error f =>
    rw [ht] at h
    cases h
  | ok t =>
    rw [ht] at h
    simp only at h
    obtain ⟨k, hk1, hk4, hlt, hmin, hfirst, hteq⟩ := timing_ok_first s t h4 ht
    refine ⟨k, hk1, hk4, hlt, hmin, hfirst, ?_⟩
    subst hteq
    have hk : k = 1 ∨ k = 2 ∨ k = 3 ∨ k = 4 := by omega
    rcases hk with rfl | rfl | rfl | rfl
    · left
      simp [event_switch, update_time_avg_stats_eq] at h
      exact ⟨rfl, by rw [update_time_avg_stats_eq]; exact h.symm⟩
    · right; left
      simp [event_switch, update_time_avg_stats_eq] at h
      exact ⟨rfl, by rw [update_time_avg_stats_eq]; exact h⟩
    · right; right; left
      simp [event_switch, update_time_avg_stats_eq] at h
      exact ⟨rfl, by rw [update_time_avg_stats_eq]; exact h.symm⟩
    · right; right; right
      simp [event_switch, update_time_avg_stats_eq] at h
      exact ⟨rfl, by rw [update_time_avg_stats_eq]; exact h.symm⟩

/-- A size returned by `random_integer` is at least `1`: the scan starts at index `1`. -/
theorem random_integer_ok_pos (E : Extern) (prob_distrib : List ℚ) (z : Int) (size : Int)
    (h : (random_integer E prob_distrib z).1 = Except.ok size) : 1 ≤ size := by
  simp only [random_integer] at h
  rcases random_integer_scan_spec (E.lcgrand z).1 (prob_distrib.drop 1) 1 with
    ⟨k, _, _, _, _, hres⟩ | ⟨_, hres⟩
  · rw [hres] at h
    injection h with h
    omega
  · rw [hres] at h
    cases h

/-- One execution of the loop body keeps the pending order, if any, at or before the
next evaluation: afterwards the ORDER_ARRIVAL cell is `1.0e+30` or at most the EVALUATE
cell; and when EVALUATE was the selected event the cell was `1.0e+30` before it. -/
theorem loop_body_no_overlap (E : Extern) (s s1 : State)
    (hdraw : ∀ z : Int, 0 < (E.lcgrand z).1 ∧ (E.lcgrand z).1 < 1)
    (h4 : s.num_events = 4) (hlag : s.minlag ≤ s.maxlag) (hmax : s.maxlag ≤ 1)
    (hinv : s.time_next_event 1 = 10 ^ 30 ∨ s.time_next_event 1 ≤ s.time_next_event 4)
    (h : loop_body E s = Except.ok s1) :
    (s1.time_next_event 1 = 10 ^ 30 ∨ s1.time_next_event 1 ≤ s1.time_next_event 4) ∧
    (s1.next_event_type = 4 → s.time_next_event 1 = 10 ^ 30) := by
  obtain ⟨k, _, _, _, _, hfirst, hk⟩ := loop_body_cases E s s1 h4 h
  rcases hk with ⟨rfl, h⟩ | ⟨rfl, h⟩ | ⟨rfl, h⟩ | ⟨rfl, h⟩
  · subst h
    simp [order_arrival, update_time_avg_stats_eq]
  · obtain ⟨size, _, h⟩ := demand_ok_eq E _ s1 h
    subst h
    simpa [update_time_avg_stats_eq] using hinv
  · subst h
    simpa [update_time_avg_stats_eq] using hinv
  · have h14 := hfirst 1 (by decide) (by decide)
    have h1 : s.time_next_event 1 = 10 ^ 30 := by
      rcases hinv with h1 | h1
      · exact h1
      · exact absurd h1 (not_le.mpr h14)
    subst h
    have hd := hdraw s.zrng
    rw [evaluate_eq, update_time_avg_stats_eq]
    simp only
    split_ifs
    · refine ⟨Or.inr ?_, fun _ => h1⟩
      simp only [Function.update_apply]
      norm_num
      nlinarith
    · refine ⟨Or.inl ?_, fun _ => h1⟩
      simp only [Function.update_apply]
      norm_num
      exact h1

/-- In every state at which the loop body of a policy run starts, the ORDER_ARRIVAL cell
is `1.0e+30` or at most the EVALUATE cell. -/
theorem inRun_no_overlap (E : Extern) (s0 s : State)
    (hdraw : ∀ z : Int, 0 < (E.lcgrand z).1 ∧ (E.lcgrand z).1 < 1)
    (h4 : s0.num_events = 4) (hlag : s0.minlag ≤ s0.maxlag) (hmax : s0.maxlag ≤ 1)
    (hrun : InRun E s0 s) :
    s.time_next_event 1 = 10 ^ 30 ∨ s.time_next_event 1 ≤ s.time_next_event 4 := by
  induction hrun with
  | start =>
    left
    simp [initialize_run]
  | @next s s1 hprev hbody _ ih =>
    obtain ⟨c1, _, _, c4, c5, _⟩ := inRun_config E s0 s hprev
    exact (loop_body_no_overlap E s s1 hdraw (c1.trans h4) (by rw [c4, c5]; exact hlag)
      (by rw [c5]; exact hmax) ih hbody).1

/-- One execution of the loop body keeps the level, and the level plus the amount on
order while an order is pending, at or below a bound `M` that is at least `bigs`. -/
theorem loop_body_level_bound (E : Extern) (s s1 : State) (M : Int)
    (h4 : s.num_events = 4) (hM : s.bigs ≤ M)
    (hlevel : s.inv_level ≤ M)
    (hpending : s.time_next_event 1 ≠ 10 ^ 30 → s.inv_level + s.amount ≤ M)
    (h : loop_body E s = Except.ok s1) :
    s1.inv_level ≤ M ∧ (s1.time_next_event 1 ≠ 10 ^ 30 → s1.inv_level + s1.amount ≤ M) := by
  obtain ⟨k, _, _, hlt, _, _, hk⟩ := loop_body_cases E s s1 h4 h
  rcases hk with ⟨rfl, h⟩ | ⟨rfl, h⟩ | ⟨rfl, h⟩ | ⟨rfl, h⟩
  · have hne : s.time_next_event 1 ≠ 10 ^ 30 := by
      have : (10 : ℚ) ^ 29 < 10 ^ 30 := by norm_num
      exact ne_of_lt (lt_trans hlt this)
    subst h
    simp only [order_arrival, update_time_avg_stats_eq, Function.update_same]
    exact ⟨hpending hne, fun hc => absurd rfl hc⟩
  · obtain ⟨size, hsize, h⟩ := demand_ok_eq E _ s1 h
    have hpos := random_integer_ok_pos E _ _ size hsize
    subst h
    simp only [update_time_avg_stats_eq]
    refine ⟨by omega, ?_⟩
    intro hc
    have := hpending (by simpa using hc)
    omega
  · subst h
    simp only [update_time_avg_stats_eq]
    exact ⟨hlevel, hpending⟩
  · subst h
    rw [evaluate_eq, update_time_avg_stats_eq]
    simp only
    split_ifs
    · refine ⟨hlevel, fun _ => ?_⟩
      simp only
      omega
    · refine ⟨hlevel, fun hc => hpending ?_⟩
      simpa using hc

/-- In every state at which the loop body of a policy run starts, `inv_level` is at
most `max(initial_inv_level, bigs)`, and so is `inv_level + amount` while an order is
pending. -/
theorem inRun_level_bound (E : Extern) (s0 s : State) (h4 : s0.num_events = 4)
    (hrun : InRun E s0 s) :
    s.inv_level ≤ max s0.initial_inv_level s0.bigs ∧
    (s.time_next_event 1 ≠ 10 ^ 30 →
      s.inv_level + s.amount ≤ max s0.initial_inv_level s0.bigs) := by
  induction hrun with
  | start =>
    refine ⟨by simp [initialize_run], ?_⟩
    intro hc
    simp [initialize_run] at hc
  | @next s s1 hprev hbody _ ih =>
    obtain ⟨c1, _⟩ := inRun_config E s0 s hprev
    obtain ⟨p1, _⟩ := inRun_policy E s0 s hprev
    exact loop_body_level_bound E s s1 _ (c1.trans h4) (by rw [p1]; exact le_max_right _ _)
      ih.1 ih.2 hbody

/-- With a normalized demand table and a draw below `1`, `demand` returns normally. -/
theorem demand_returns (E : Extern) (s : State) (n : Nat) (hn : 1 ≤ n)
    (hlast : s.prob_distrib_demand[n]? = some 1) (hu : (E.lcgrand s.zrng).1 < 1) :
    ∃ s1, demand E s = Except.ok s1 := by
  obtain ⟨i, _, _, hr⟩ := random_integer_in_table E s.prob_distrib_demand n s.zrng hn hlast hu
  unfold demand
  rw [hr]
  exact ⟨_, rfl⟩

/-- With four event types, END_SIMULATION scheduled below `1.0e+29`, a normalized demand
table and draws below `1`, the loop body returns normally. -/
theorem loop_body_returns (E : Extern) (s : State) (n : Nat)
    (hdraw : ∀ z : Int, (E.lcgrand z).1 < 1)
    (h4 : s.num_events = 4) (h3 : s.time_next_event 3 < 10 ^ 29) (hn : 1 ≤ n)
    (hlast : s.prob_distrib_demand[n]? = some 1) :
    ∃ s1, loop_body E s = Except.ok s1 := by
  obtain ⟨t, ht⟩ := timing_ok_of_scheduled s h4 3 (by decide) (by decide) h3
  have hteq := timing_ok_eq s t ht
  unfold loop_body
  rw [ht]
  simp only
  unfold event_switch
  split_ifs
  · exact ⟨_, rfl⟩
  · apply demand_returns E _ n hn _ (hdraw _)
    rw [update_time_avg_stats_eq, hteq]
    exact hlast
  · exact ⟨_, rfl⟩
  · exact ⟨_, rfl⟩
  · exact ⟨_, rfl⟩

/-- The bound `remaining_work` is never negative. -/
theorem remaining_work_nonneg (delta : ℚ) (s : State) : 0 ≤ remaining_work delta s := by
  unfold remaining_work
  have h1 : (0 : ℚ) ≤ (if s.time_next_event 1 ≤ (s.num_months : ℚ) then 1 else 0) := by
    split_ifs <;> norm_num
  have h2 : (0 : ℚ) ≤ max 0 (((s.num_months : ℚ) - s.time_next_event 2) / delta + 1) :=
    le_max_left _ _
  have h3 : (0 : ℚ) ≤ max 0 ((s.num_months : ℚ) - s.time_next_event 4 + 1) :=
    le_max_left _ _
  linarith

/-- Every execution of the loop body that does not select END_SIMULATION lowers
`remaining_work` by at least `1`, when END_SIMULATION is scheduled at `num_months`
(below `1.0e+29`) and each interdemand time is at least `delta > 0`. -/
theorem loop_body_progress (E : Extern) (s s1 : State) (eps : ℚ)
    (heps : 0 < eps) (hgap : ∀ z : Int, E.log (E.lcgrand z).1 ≤ -eps)
    (h4 : s.num_events = 4) (h3 : s.time_next_event 3 = (s.num_months : ℚ))
    (hT : (s.num_months : ℚ) < 10 ^ 29) (hmean : 0 < s.mean_interdemand)
    (h : loop_body E s = Except.ok s1) (hne : s1.next_event_type ≠ 3) :
    remaining_work (s.mean_interdemand * eps) s1 + 1 ≤
      remaining_work (s.mean_interdemand * eps) s := by
  have hd : 0 < s.mean_interdemand * eps := mul_pos hmean heps
  obtain ⟨k, _, _, _, hmin, hfirst, hk⟩ := loop_body_cases E s s1 h4 h
  rcases hk with ⟨rfl, h⟩ | ⟨rfl, h⟩ | ⟨rfl, h⟩ | ⟨rfl, h⟩
  · have h13 := hmin 3 (by decide) (by decide)
    rw [h3] at h13
    subst h
    have hbig : ¬ ((10 : ℚ) ^ 30 ≤ (s.num_months : ℚ)) := by
      have : (10 : ℚ) ^ 29 < 10 ^ 30 := by norm_num
      exact not_le.mpr (lt_trans hT this)
    simp only [remaining_work, order_arrival, update_time_avg_stats_eq, Function.update_same,
      hbig, if_false, h13, if_true]
    simp only [Function.update_apply]
    norm_num
    linarith
  · have h23 := hmin 3 (by decide) (by decide)
    rw [h3] at h23
    obtain ⟨size, _, h⟩ := demand_ok_eq E _ s1 h
    subst h
    have hx : s.mean_interdemand * eps ≤
        -s.mean_interdemand * E.log (E.lcgrand (E.lcgrand s.zrng).2).1 := by
      have := hgap (E.lcgrand s.zrng).2
      nlinarith
    simp only [remaining_work, update_time_avg_stats_eq, expon]
    simp only [Function.update_apply]
    norm_num
    have hq : 0 ≤ ((s.num_months : ℚ) - s.time_next_event 2) / (s.mean_interdemand * eps) :=
      div_nonneg (by linarith) (le_of_lt hd)
    have hstep : ((s.num_months : ℚ) - (s.time_next_event 2 +
        -(s.mean_interdemand * E.log (E.lcgrand (E.lcgrand s.zrng).2).1))) /
          (s.mean_interdemand * eps) + 1 ≤
        ((s.num_months : ℚ) - s.time_next_event 2) / (s.mean_interdemand * eps) := by
      rw [div_add_one (ne_of_gt hd), div_le_div_iff_of_pos_right hd]
      linarith
    rw [max_eq_right (by linarith : (0 : ℚ) ≤
      ((s.num_months : ℚ) - s.time_next_event 2) / (s.mean_interdemand * eps) + 1)]
    have hmax : max 0 (((s.num_months : ℚ) - (s.time_next_event 2 +
        -(s.mean_interdemand * E.log (E.lcgrand (E.lcgrand s.zrng).2).1))) /
          (s.mean_interdemand * eps) + 1) ≤
        ((s.num_months : ℚ) - s.time_next_event 2) / (s.mean_interdemand * eps) :=
      max_le hq hstep
    linarith
  · subst h
    simp [update_time_avg_stats_eq] at hne
  · have h43 := hfirst 3 (by decide) (by decide)
    rw [h3] at h43
    subst h
    have hA : ∀ x : ℚ, (if x ≤ (s.num_months : ℚ) then (1 : ℚ) else 0) ≤ 1 := by
      intro x
      split_ifs <;> norm_num
    have hA0 : (0 : ℚ) ≤ (if s.time_next_event 1 ≤ (s.num_months : ℚ) then 1 else 0) := by
      split_ifs <;> norm_num
    have hV : max 0 ((s.num_months : ℚ) - s.time_next_event 4 + 1) =
        (s.num_months : ℚ) - s.time_next_event 4 + 1 := max_eq_right (by linarith)
    have hV1 : max 0 ((s.num_months : ℚ) - (s.time_next_event 4 + 1) + 1) =
        (s.num_months : ℚ) - s.time_next_event 4 := by
      rw [max_eq_right (by linarith)]
      ring
    rw [evaluate_eq, update_time_avg_stats_eq]
    simp only
    split_ifs
    · simp only [remaining_work, Function.update_apply]
      norm_num
      rw [hV, hV1]
      have := hA (s.time_next_event 4 +
        (s.minlag + (E.lcgrand s.zrng).1 * (s.maxlag - s.minlag)))
      linarith
    · simp only [remaining_work, Function.update_apply]
      norm_num
      rw [hV, hV1]
      linarith

/-- A normal result of the `do ... while` loop is the state left by a loop body that
selected event type 3, started at a state of the run. -/
theorem policy_loop_result (E : Extern) (s0 : State) (fuel : Nat) (s sf : State)
    (hrun : InRun E s0 s) (h : policy_loop E fuel s = some (Except.ok sf)) :
    ∃ s1, InRun E s0 s1 ∧ loop_body E s1 = Except.ok sf ∧ sf.next_event_type = 3 := by
  induction fuel generalizing s with
  | zero =>
    simp [policy_loop] at h
  | succ n ih =>
    unfold policy_loop at h
    cases hb : loop_body E s with
    | error f =>
      rw [hb] at h
      simp at h
    | ok s1 =>
      rw [hb] at h
      simp only at h
      by_cases hne : s1.next_event_type ≠ 3
      · rw [if_pos hne] at h
        exact ih s1 (InRun.next hrun hb hne) h
      · rw [if_neg hne] at h
        injection h with h
        injection h with h
        subst h
        exact ⟨s, hrun, hb, not_not.mp hne⟩

/-- More fuel does not change a result of the `do ... while` loop. -/
theorem policy_loop_mono (E : Extern) (fuel extra : Nat) (s : State)
    (r : Except Fault State) (h : policy_loop E fuel s = some r) :
    policy_loop E (fuel + extra) s = some r := by
  induction fuel generalizing s with
  | zero =>
    simp [policy_loop] at h
  | succ n ih =>
    rw [show n + 1 + extra = (n + extra) + 1 by omega]
    unfold policy_loop at h ⊢
    cases hb : loop_body E s with
    | error f =>
      rw [hb] at h
      simpa using h
    | ok s1 =>
      rw [hb] at h
      simp only at h ⊢
      by_cases hne : s1.next_event_type ≠ 3
      · rw [if_pos hne] at h ⊢
        exact ih s1 h
      · rw [if_neg hne] at h ⊢
        exact h

/-- The loop body that selects event type 3: the clock moves to the END_SIMULATION
cell, the areas are advanced, `report` appends its row, and nothing else changes; in
particular the calendar is the one before the step. -/
theorem loop_body_end (E : Extern) (s sf : State) (h4 : s.num_events = 4)
    (h : loop_body E s = Except.ok sf) (hnet : sf.next_event_type = 3) :
    sf.sim_time = s.time_next_event 3 ∧
    sf.time_next_event = s.time_next_event ∧
    sf.policies_table = report s.policies_table sf ∧
    sf.inv_level = s.inv_level ∧ sf.amount = s.amount ∧
    sf.total_ordering_cost = s.total_ordering_cost ∧ sf.zrng = s.zrng := by
  obtain ⟨k, _, _, _, _, _, hk⟩ := loop_body_cases E s sf h4 h
  rcases hk with ⟨rfl, h⟩ | ⟨rfl, h⟩ | ⟨rfl, h⟩ | ⟨rfl, h⟩
  · subst h
    simp [order_arrival, update_time_avg_stats_eq] at hnet
  · obtain ⟨size, _, h⟩ := demand_ok_eq E _ sf h
    subst h
    simp [update_time_avg_stats_eq] at hnet
  · subst h
    simp [update_time_avg_stats_eq, report]
  · subst h
    rw [evaluate_eq, update_time_avg_stats_eq] at hnet
    simp only at hnet
    split_ifs at hnet <;> simp at hnet

/-- With END_SIMULATION scheduled below `1.0e+29`, a normalized demand table, draws
below `1` and interdemand times bounded below by `mean_interdemand * eps > 0`, the
`do ... while` loop started at a state of the run ends normally within any number of
bodies above `remaining_work`.  This is a fact of the rational clock: the `float` sum
`sim_time + 1.0` stops advancing at `2^24`. -/
theorem policy_loop_terminates (E : Extern) (s0 : State) (eps : ℚ) (n : Nat)
    (heps : 0 < eps) (hgap : ∀ z : Int, E.log (E.lcgrand z).1 ≤ -eps)
    (hdraw : ∀ z : Int, (E.lcgrand z).1 < 1)
    (h4 : s0.num_events = 4) (hT : (s0.num_months : ℚ) < 10 ^ 29)
    (hmean : 0 < s0.mean_interdemand) (hn : 1 ≤ n)
    (hlast : s0.prob_distrib_demand[n]? = some 1)
    (fuel : Nat) (s : State) (hrun : InRun E s0 s)
    (hfuel : remaining_work (s0.mean_interdemand * eps) s < fuel) :
    ∃ sf, policy_loop E fuel s = some (Except.ok sf) := by
  induction fuel generalizing s with
  | zero =>
    have := remaining_work_nonneg (s0.mean_interdemand * eps) s
    simp at hfuel
    linarith
  | succ m ih =>
    obtain ⟨c1, c2, c3, _, _, c6⟩ := inRun_config E s0 s hrun
    obtain ⟨_, _, _, p4, _⟩ := inRun_policy E s0 s hrun
    obtain ⟨s1, hb⟩ := loop_body_returns E s n hdraw (c1.trans h4)
      (by rw [c6]; exact hT) hn (by rw [p4]; exact hlast)
    unfold policy_loop
    rw [hb]
    simp only
    by_cases hne : s1.next_event_type ≠ 3
    · rw [if_pos hne]
      apply ih s1 (InRun.next hrun hb hne)
      have hp := loop_body_progress E s s1 eps heps hgap (c1.trans h4)
        (by rw [c6, c2]) (by rw [c2]; exact hT) (by rw [c3]; exact hmean) hb hne
      rw [c3] at hp
      push_cast at hfuel
      linarith
    · rw [if_neg hne]
      exact ⟨s1, rfl⟩

/-- The first loop body of the run of `badConfigState`. -/
theorem bad_first_step :
    loop_body sampleExtern (initialize_run sampleExtern badConfigState) =
      Except.ok badAfterEvaluate := by
  have ht : timing (initialize_run sampleExtern badConfigState) = Except.ok
      { initialize_run sampleExtern badConfigState with
        next_event_type := 4, sim_time := 0 } := by
    simp [timing, initialize_run, badConfigState, sampleState, sampleExtern, expon,
      List.range', timing_scan]
    norm_num
  rw [loop_body, ht]
  simp only [event_switch, update_time_avg_stats_eq, evaluate_eq]
  simp [initialize_run, badConfigState, sampleState, sampleExtern, expon, badAfterEvaluate]
  norm_num
  funext i
  simp only [Function.update_apply]
  split_ifs <;> first | rfl | omega

/-- The second loop body of the run of `badConfigState`. -/
theorem bad_second_step :
    loop_body sampleExtern badAfterEvaluate = Except.ok badAfterArrival := by
  have ht : timing badAfterEvaluate = Except.ok
      { badAfterEvaluate with next_event_type := 1, sim_time := 3 / 4 } := by
    simp [timing, badAfterEvaluate, badConfigState, sampleState, List.range', timing_scan]
    norm_num
  rw [loop_body, ht]
  simp only [event_switch, update_time_avg_stats_eq]
  simp [order_arrival, badAfterEvaluate, badConfigState, sampleState, badAfterArrival]
  norm_num
  funext i
  simp only [Function.update_apply]
  split_ifs <;> rfl

/-- The third loop body of the run of `badConfigState`. -/
theorem bad_third_step :
    loop_body sampleExtern badAfterArrival = Except.ok badFinal := by
  have ht : timing badAfterArrival = Except.ok
      { badAfterArrival with next_event_type := 3, sim_time := 1 } := by
    simp [timing, badAfterArrival, badAfterEvaluate, badConfigState, sampleState,
      List.range', timing_scan]
    norm_num
  rw [loop_body, ht]
  simp only [event_switch, update_time_avg_stats_eq]
  simp [report, badAfterArrival, badAfterEvaluate, badConfigState, sampleState, badFinal]
  norm_num

/-- Writing a cell in `1..4` commutes with forgetting the cells outside `1..4`. -/
theorem update_restrict (f : Nat → ℚ) (a : Nat) (v : ℚ) (ha : 1 ≤ a ∧ a ≤ 4) :
    Function.update (fun i => if 1 ≤ i ∧ i ≤ 4 then f i else 0) a v =
      fun i => if 1 ≤ i ∧ i ≤ 4 then Function.update f a v i else 0 := by
  funext i
  by_cases hi : i = a
  · subst hi
    simp [ha]
  · simp [Function.update_apply, hi]

/-- The record form of `initialize`. -/
theorem initialize_run_eq (E : Extern) (s : State) :
    initialize_run E s =
      { s with
        inv_level := s.initial_inv_level, sim_time := 0, time_last_event := 0,
        total_ordering_cost := 0, area_holding := 0, area_shortage := 0, amount := 0,
        time_next_event :=
          Function.update
            (Function.update
              (Function.update (Function.update s.time_next_event 1 (10 ^ 30)) 2
                (-s.mean_interdemand * E.log (E.lcgrand s.zrng).1))
              3 (s.num_months : ℚ))
            4 0,
        zrng := (E.lcgrand s.zrng).2 } := by
  simp [initialize_run, expon]

/-- The selection made by `timing` does not depend on the old `next_event_type`. -/
theorem timing_ignores_type (s : State) (c : Int) :
    timing { s with next_event_type := c } = timing s := by
  simp only [timing]

/-- With four event types `timing` reads the cells `1..4` only. -/
theorem timing_observable (s : State) (h4 : s.num_events = 4) :
    timing (observable s) = Except.map observable (timing s) := by
  have hn : s.num_events.toNat = 4 := by rw [h4]; rfl
  simp only [timing, observable, hn, List.range', List.foldl, timing_scan]
  norm_num
  split_ifs <;> rfl

/-- `update_time_avg_stats` does not read the calendar. -/
theorem update_time_avg_stats_observable (s : State) :
    update_time_avg_stats (observable s) = observable (update_time_avg_stats s) := by
  rw [update_time_avg_stats_eq, update_time_avg_stats_eq]
  rfl

/-- The handlers read and write the cells `1..4` only. -/
theorem event_switch_observable (E : Extern) (s : State) :
    event_switch E (observable s) = Except.map observable (event_switch E s) := by
  unfold event_switch
  have hnet : (observable s).next_event_type = s.next_event_type := rfl
  rw [hnet]
  split_ifs
  · simp [order_arrival, observable, Except.map, update_restrict]
  · unfold demand
    simp only [show (observable s).prob_distrib_demand = s.prob_distrib_demand from rfl,
      show (observable s).zrng = s.zrng from rfl]
    cases hr : (random_integer E s.prob_distrib_demand s.zrng).1 with
    | error f => rfl
    | ok size => simp [observable, Except.map, update_restrict]
  · rw [evaluate_eq, evaluate_eq]
    have hl : (observable s).inv_level = s.inv_level := rfl
    have hs : (observable s).smalls = s.smalls := rfl
    rw [hl, hs]
    split_ifs <;> simp [observable, Except.map, update_restrict]
  · simp [observable, Except.map, report]
  · rfl

/-- With four event types the loop body reads and writes the cells `1..4` only. -/
theorem loop_body_observable (E : Extern) (s : State) (h4 : s.num_events = 4) :
    loop_body E (observable s) = Except.map observable (loop_body E s) := by
  unfold loop_body
  rw [timing_observable s h4]
  cases timing s with
  | error f => rfl
  | ok t =>
    simp only [Except.map]
    rw [update_time_avg_stats_observable, event_switch_observable]
    rfl

/-- The loop body does not depend on the old `next_event_type`. -/
theorem loop_body_ignores_type (E : Extern) (s : State) (c : Int) :
    loop_body E { s with next_event_type := c } = loop_body E s := by
  unfold loop_body
  rw [timing_ignores_type]

/-- The `do ... while` loop does not depend on the old `next_event_type`. -/
theorem policy_loop_ignores_type (E : Extern) (fuel : Nat) (s : State) (c : Int) :
    policy_loop E fuel { s with next_event_type := c } = policy_loop E fuel s := by
  cases fuel with
  | zero => rfl
  | succ n =>
    unfold policy_loop
    rw [loop_body_ignores_type]

/-- The `do ... while` loop keeps `num_events`. -/
theorem policy_loop_num_events (E : Extern) (fuel : Nat) (s sf : State)
    (h : policy_loop E fuel s = some (Except.ok sf)) : sf.num_events = s.num_events := by
  induction fuel generalizing s with
  | zero =>
    simp [policy_loop] at h
  | succ n ih =>
    unfold policy_loop at h
    cases hb : loop_body E s with
    | error f =>
      rw [hb] at h
      simp at h
    | ok s1 =>
      rw [hb] at h
      simp only at h
      have hf := (loop_body_frame E s s1 hb).2.2.2.1
      by_cases hne : s1.next_event_type ≠ 3
      · rw [if_pos hne] at h
        exact (ih s1 h).trans hf
      · rw [if_neg hne] at h
        injection h with h
        injection h with h
        subst h
        exact hf

/-- With four event types the `do ... while` loop reads and writes the cells `1..4` of
the calendar only. -/
theorem policy_loop_observable (E : Extern) (fuel : Nat) (s : State)
    (h4 : s.num_events = 4) :
    policy_loop E fuel (observable s) =
      (policy_loop E fuel s).map (Except.map observable) := by
  induction fuel generalizing s with
  | zero => rfl
  | succ n ih =>
    unfold policy_loop
    rw [loop_body_observable E s h4]
    cases hb : loop_body E s with
    | error f => rfl
    | ok s1 =>
      have hf := (loop_body_frame E s s1 hb).2.2.2.1
      simp only [Except.map]
      have hnet : (observable s1).next_event_type = s1.next_event_type := rfl
      rw [hnet]
      by_cases hne : s1.next_event_type ≠ 3
      · rw [if_pos hne, if_pos hne]
        exact ih s1 (hf.trans h4)
      · rw [if_neg hne, if_neg hne]
        rfl

/-- Two states that differ only in `next_event_type` and outside the cells `1..4` of the
calendar give the same outcome of the `do ... while` loop, up to the cells outside
`1..4`. -/
theorem policy_loop_congr (E : Extern) (fuel : Nat) (s t : State)
    (h4 : s.num_events = 4)
    (h : observable { s with next_event_type := 0 } =
      observable { t with next_event_type := 0 }) :
    (policy_loop E fuel s).map (Except.map observable) =
      (policy_loop E fuel t).map (Except.map observable) := by
  have ht4 : t.num_events = 4 := by
    have := congrArg State.num_events h
    simp only [observable] at this
    rw [← this]
    exact h4
  rw [← policy_loop_ignores_type E fuel s 0, ← policy_loop_ignores_type E fuel t 0,
    ← policy_loop_observable E fuel _ (by exact h4),
    ← policy_loop_observable E fuel _ (by exact ht4), h]

/-- States that agree up to the cells outside `1..4` hold the same inputs. -/
theorem sameInputs_of_observable (s t : State) (h : observable s = observable t) :
    SameInputs s t := by
  refine ⟨?_, ?_, ?_, ?_, ?_, ?_, ?_, ?_, ?_, ?_, ?_, ?_, ?_, ?_⟩
  · show (observable s).zrng = (observable t).zrng
    rw [h]
  · show (observable s).initial_inv_level = (observable t).initial_inv_level
    rw [h]
  · show (observable s).num_events = (observable t).num_events
    rw [h]
  · show (observable s).num_months = (observable t).num_months
    rw [h]
  · show (observable s).num_values_demand = (observable t).num_values_demand
    rw [h]
  · show (observable s).mean_interdemand = (observable t).mean_interdemand
    rw [h]
  · show (observable s).setup_cost = (observable t).setup_cost
    rw [h]
  · show (observable s).incremental_cost = (observable t).incremental_cost
    rw [h]
  · show (observable s).holding_cost = (observable t).holding_cost
    rw [h]
  · show (observable s).shortage_cost = (observable t).shortage_cost
    rw [h]
  · show (observable s).minlag = (observable t).minlag
    rw [h]
  · show (observable s).maxlag = (observable t).maxlag
    rw [h]
  · show (observable s).prob_distrib_demand = (observable t).prob_distrib_demand
    rw [h]
  · show (observable s).policies_table = (observable t).policies_table
    rw [h]

/-- From two states with the same inputs, setting the policy and calling `initialize`
gives states that differ only in `next_event_type` and outside the cells `1..4`. -/
theorem initialize_sameInputs (E : Extern) (s t : State) (p : Int × Int) (i : Int)
    (h : SameInputs s t) :
    observable
        { initialize_run E { { s with smalls := p.1, bigs := p.2 } with policy_no := i } with
          next_event_type := 0 } =
      observable
        { initialize_run E { { t with smalls := p.1, bigs := p.2 } with policy_no := i } with
          next_event_type := 0 } := by
  obtain ⟨h1, h2, h3, h4, h5, h6, h7, h8, h9, h10, h11, h12, h13, h14⟩ := h
  rw [initialize_run_eq, initialize_run_eq]
  simp only [observable, State.mk.injEq, h1, h2, h3, h4, h5, h6, h7, h8, h9, h10, h11, h12,
    h13, h14, true_and, and_true]
  funext j
  by_cases hj : 1 ≤ j ∧ j ≤ 4
  · have hc : j = 1 ∨ j = 2 ∨ j = 3 ∨ j = 4 := by omega
    rcases hc with rfl | rfl | rfl | rfl <;> simp [Function.update_apply]
  · simp [hj]

/-- The result rows of the scenario are the same from two states that hold the same
inputs. -/
theorem simulate_policies_congr (E : Extern) (fuel : Nat) (policies : List (Int × Int))
    (i : Int) (s t : State) (h4 : s.num_events = 4) (h : SameInputs s t) :
    result_rows (simulate_policies E fuel policies i s) =
      result_rows (simulate_policies E fuel policies i t) := by
  induction policies generalizing i s t with
  | nil =>
    simp only [simulate_policies, result_rows, Option.map, Except.map]
    rw [h.2.2.2.2.2.2.2.2.2.2.2.2.2]
  | cons p rest ih =>
    have hs4 : (initialize_run E
        { { s with smalls := p.1, bigs := p.2 } with policy_no := i }).num_events = 4 := by
      rw [initialize_run_eq]
      exact h4
    have key := policy_loop_congr E fuel _ _ hs4 (initialize_sameInputs E s t p i h)
    unfold simulate_policies
    simp only
    cases hs : policy_loop E fuel (initialize_run E
        { { s with smalls := p.1, bigs := p.2 } with policy_no := i }) with
    | none =>
      cases ht : policy_loop E fuel (initialize_run E
          { { t with smalls := p.1, bigs := p.2 } with policy_no := i }) with
      | none => rfl
      | some rt =>
        rw [hs, ht] at key
        simp at key
    | some rs =>
      cases ht : policy_loop E fuel (initialize_run E
          { { t with smalls := p.1, bigs := p.2 } with policy_no := i }) with
      | none =>
        rw [hs, ht] at key
        simp at key
      | some rt =>
        rw [hs, ht] at key
        simp only [Option.map, Option.some.injEq] at key
        cases rs with
        | error f =>
          cases rt with
          | error g =>
            simp only [Except.map, Except.error.injEq] at key
            rw [key]
          | ok tf =>
            simp [Except.map] at key
        | ok sf =>
          cases rt with
          | error g =>
            simp [Except.map] at key
          | ok tf =>
            simp only [Except.map, Except.ok.injEq] at key
            have hsf := policy_loop_num_events E fuel _ sf hs
            exact ih (i + 1) sf tf (hsf.trans hs4) (sameInputs_of_observable sf tf key)

/-- The loop of `fputc_times` appends `n` copies of the character (none when `n` is
negative). -/
theorem fputc_times_eq (c : Char) (n : Int) (out : List Char) :
    fputc_times c n out = out ++ List.replicate n.toNat c := by
  unfold fputc_times
  induction n.toNat with
  | zero => simp
  | succ m ih =>
    rw [List.range_succ, List.foldl_append, ih, List.replicate_succ']
    simp [fputc]

/-- A loop over the columns that appends one chunk per column appends the chunks in
order. -/
theorem foldl_chunks (f : Nat → List Char) (l : List Nat) (out : List Char) :
    l.foldl (fun out j => out ++ f j) out = out ++ (l.map f).flatten := by
  induction l generalizing out with
  | nil => simp
  | cons j rest ih =>
    simp only [List.foldl_cons, List.map_cons, List.flatten_cons]
    rw [ih, List.append_assoc]

/-- The loop of `table_total_len` computes `1` plus the sum of `widths[j] + 5`. -/
theorem total_len_sum (g : Nat → Int) (n : Nat) :
    (List.range n).foldl (fun total_len j => total_len + g j) 1 =
      1 + ((List.range n).map g).sum := by
  induction n with
  | zero => simp
  | succ m ih =>
    rw [List.range_succ, List.foldl_append, ih]
    simp [List.sum_append]
    ring

/-- The length of the chunks of `n` columns is the sum of the lengths of the chunks. -/
theorem chunks_length (f : Nat → List Char) (g : Nat → Int) (n : Nat)
    (h : ∀ j, j < n → ((f j).length : Int) = g j) :
    ((((List.range n).map f).flatten.length : Nat) : Int) = ((List.range n).map g).sum := by
  induction n with
  | zero => simp
  | succ m ih =>
    rw [List.range_succ]
    simp only [List.map_append, List.flatten_append, List.length_append, List.sum_append,
      List.map_cons, List.map_nil, List.flatten_cons, List.flatten_nil, List.append_nil,
      List.sum_cons, List.sum_nil, add_zero]
    push_cast
    rw [ih (fun j hj => h j (by omega)), h m (by omega)]

/-- The chunks of the columns hold no newline when no chunk does. -/
theorem chunks_no_newline (f : Nat → List Char) (n : Nat)
    (h : ∀ j, j < n → '\n' ∉ f j) : '\n' ∉ ((List.range n).map f).flatten := by
  intro hmem
  rw [List.mem_flatten] at hmem
  obtain ⟨l, hl, hc⟩ := hmem
  rw [List.mem_map] at hl
  obtain ⟨j, hj, rfl⟩ := hl
  exact h j (List.mem_range.mp hj) hc

/-- The cell code appends two blanks, the centred string, two blanks and `|`. -/
theorem print_cell_eq (w : Int) (label out : List Char) :
    print_cell w label out =
      out ++ ([' ', ' '] ++ List.replicate ((w - (label.length : Int)).tdiv 2).toNat ' ' ++
        label ++
        List.replicate
          (w - (label.length : Int) - (w - (label.length : Int)).tdiv 2).toNat ' ' ++
        [' ', ' ', '|']) := by
  simp [print_cell, fputc, fputs, fputc_times_eq]

/-- A cell whose string is not longer than the column takes `w + 5` characters, with no
newline unless the string has one. -/
theorem print_cell_length (w : Int) (label : List Char) (hw : (label.length : Int) ≤ w) :
    (((([' ', ' '] ++ List.replicate ((w - (label.length : Int)).tdiv 2).toNat ' ' ++
        label ++
        List.replicate
          (w - (label.length : Int) - (w - (label.length : Int)).tdiv 2).toNat ' ' ++
        [' ', ' ', '|']).length : Nat) : Int) = w + 5) ∧
    ('\n' ∉ label →
      '\n' ∉ ([' ', ' '] ++ List.replicate ((w - (label.length : Int)).tdiv 2).toNat ' ' ++
        label ++
        List.replicate
          (w - (label.length : Int) - (w - (label.length : Int)).tdiv 2).toNat ' ' ++
        [' ', ' ', '|'])) := by
  have h0 : 0 ≤ w - (label.length : Int) := by omega
  have hdiv : (w - (label.length : Int)).tdiv 2 = (w - (label.length : Int)) / 2 :=
    Int.tdiv_eq_ediv h0 (by decide)
  constructor
  · rw [hdiv]
    simp only [List.length_append, List.length_replicate, List.length_cons, List.length_nil]
    push_cast
    omega
  · intro hl
    simp only [List.mem_append, List.mem_replicate, List.mem_cons, List.mem_singleton,
      List.not_mem_nil, not_or]
    simp [hl]

/-- Entry `j` of an array filled by a loop over `0..n-1`. -/
theorem getD_map_range (g : Nat → Int) (n j : Nat) (hj : j < n) :
    ((List.range n).map g).getD j 0 = g j := by
  rw [List.getD_eq_getElem _ _ (by simpa using hj)]
  simp

/-- The two width loops: the array keeps `n` entries; entry `j` is at least its first
value and at least the length of cell `j` of every row, and it is one of these numbers. -/
theorem widths_fold (n : Nat) (rows : List (List (List Char))) (w0 : List Int)
    (hlen : w0.length = n) :
    (rows.foldl
        (fun widths row =>
          (List.range n).map (fun j =>
            max_int (widths.getD j 0) ((row.getD j []).length : Int)))
        w0).length = n ∧
    ∀ j, j < n →
      w0.getD j 0 ≤
        (rows.foldl
          (fun widths row =>
            (List.range n).map (fun j =>
              max_int (widths.getD j 0) ((row.getD j []).length : Int)))
          w0).getD j 0 ∧
      (∀ row, row ∈ rows →
        ((row.getD j []).length : Int) ≤
          (rows.foldl
            (fun widths row =>
              (List.range n).map (fun j =>
                max_int (widths.getD j 0) ((row.getD j []).length : Int)))
            w0).getD j 0) ∧
      ((rows.foldl
          (fun widths row =>
            (List.range n).map (fun j =>
              max_int (widths.getD j 0) ((row.getD j []).length : Int)))
          w0).getD j 0 = w0.getD j 0 ∨
        ∃ row, row ∈ rows ∧
          (rows.foldl
            (fun widths row =>
              (List.range n).map (fun j =>
                max_int (widths.getD j 0) ((row.getD j []).length : Int)))
            w0).getD j 0 = ((row.getD j []).length : Int)) := by
  induction rows generalizing w0 with
  | nil =>
    refine ⟨hlen, fun j _ => ⟨le_refl _, ?_, Or.inl rfl⟩⟩
    intro row hrow
    simp at hrow
  | cons r rest ih =>
    simp only [List.foldl_cons]
    have hlen1 : ((List.range n).map (fun j =>
        max_int (w0.getD j 0) ((r.getD j []).length : Int))).length = n := by simp
    obtain ⟨hl, hcol⟩ := ih _ hlen1
    refine ⟨hl, ?_⟩
    intro j hj
    obtain ⟨h1, h2, h3⟩ := hcol j hj
    rw [getD_map_range _ n j hj] at h1 h3
    have hmax : w0.getD j 0 ≤ max_int (w0.getD j 0) ((r.getD j []).length : Int) ∧
        ((r.getD j []).length : Int) ≤ max_int (w0.getD j 0) ((r.getD j []).length : Int) ∧
        (max_int (w0.getD j 0) ((r.getD j []).length : Int) = w0.getD j 0 ∨
          max_int (w0.getD j 0) ((r.getD j []).length : Int) =
            ((r.getD j []).length : Int)) := by
      unfold max_int
      split_ifs with hc
      · exact ⟨le_refl _, by omega, Or.inl rfl⟩
      · exact ⟨by omega, le_refl _, Or.inr rfl⟩
    refine ⟨le_trans hmax.1 h1, ?_, ?_⟩
    · intro row hrow
      rcases List.mem_cons.mp hrow with rfl | hrest
      · exact le_trans hmax.2.1 h1
      · exact h2 row hrest
    · rcases h3 with h3 | ⟨row, hrow, h3⟩
      · rcases hmax.2.2 with h4 | h4
        · left
          rw [h3, h4]
        · right
          exact ⟨r, List.mem_cons_self _ _, by rw [h3, h4]⟩
      · right
        exact ⟨row, List.mem_cons_of_mem _ hrow, h3⟩

/-- The widths that `table_print` computes: `widths[j]` is the maximum of the length of
the name of column `j` (`0` without a name) and of the lengths of the cells of column
`j`. -/
theorem table_widths_spec (t : Table) :
    (table_widths t).length = t.ncols ∧
    ∀ j, j < t.ncols →
      ((table_label t j).length : Int) ≤ (table_widths t).getD j 0 ∧
      (∀ row, row ∈ t.rows →
        ((row.getD j []).length : Int) ≤ (table_widths t).getD j 0) ∧
      ((table_widths t).getD j 0 = ((table_label t j).length : Int) ∨
        ∃ row, row ∈ t.rows ∧
          (table_widths t).getD j 0 = ((row.getD j []).length : Int)) := by
  have hlen0 : (table_widths_names t).length = t.ncols := by simp [table_widths_names]
  have hname : ∀ j, j < t.ncols →
      (table_widths_names t).getD j 0 = ((table_label t j).length : Int) := by
    intro j hj
    unfold table_widths_names
    rw [getD_map_range _ _ j hj]
    unfold table_label
    cases t.colnames.getD j none <;> simp
  obtain ⟨hl, hcol⟩ := widths_fold t.ncols t.rows (table_widths_names t) hlen0
  refine ⟨hl, ?_⟩
  intro j hj
  obtain ⟨h1, h2, h3⟩ := hcol j hj
  rw [hname j hj] at h1 h3
  exact ⟨h1, h2, h3⟩

/-- A line made of a first character and one chunk of `widths[j] + 5` characters per
column has `total_len` characters. -/
theorem line_length (t : Table) (w : List Int) (c : Char) (f : Nat → List Char)
    (h : ∀ j, j < t.ncols → ((f j).length : Int) = w.getD j 0 + 5) :
    (((c :: ((List.range t.ncols).map f).flatten).length : Nat) : Int) =
      table_total_len t w := by
  unfold table_total_len
  rw [total_len_sum (fun j => w.getD j 0 + 5), List.length_cons]
  push_cast
  rw [chunks_length f (fun j => w.getD j 0 + 5) t.ncols h]
  ring

/-- The separator code writes one line of `total_len` characters, without a newline
inside, and the newline. -/
theorem print_separator_line (t : Table) (w : List Int)
    (hw : ∀ j, j < t.ncols → 0 ≤ w.getD j 0) :
    ∃ line : List Char,
      (∀ out, print_separator t w out = out ++ (line ++ ['\n'])) ∧
      ((line.length : Nat) : Int) = table_total_len t w ∧ '\n' ∉ line := by
  refine ⟨'+' :: ((List.range t.ncols).map
    (fun j => List.replicate (w.getD j 0 + 4).toNat '-' ++ ['+'])).flatten, ?_, ?_, ?_⟩
  · intro out
    have hf : (fun (out : List Char) (j : Nat) =>
        fputc '+' (fputc_times '-' (w.getD j 0 + 4) out)) =
        fun out j => out ++ (List.replicate (w.getD j 0 + 4).toNat '-' ++ ['+']) := by
      funext out j
      simp [fputc, fputc_times_eq]
    simp only [print_separator]
    rw [hf, foldl_chunks]
    simp [fputc]
  · apply line_length
    intro j hj
    have := hw j hj
    simp only [List.length_append, List.length_replicate, List.length_cons, List.length_nil]
    push_cast
    omega
  · intro hmem
    rcases List.mem_cons.mp hmem with h | h
    · exact absurd h (by decide)
    · refine chunks_no_newline _ t.ncols ?_ h
      intro j _ hj
      simp only [List.mem_append, List.mem_replicate, List.mem_singleton] at hj
      rcases hj with ⟨_, hj⟩ | hj
      · exact absurd hj (by decide)
      · exact absurd hj (by decide)

/-- The top border is one line of `total_len` characters, without a newline inside,
and the newline. -/
theorem print_top_border_line (t : Table) (w : List Int)
    (hw : ∀ j, j < t.ncols → 0 ≤ w.getD j 0) :
    ∃ line : List Char,
      (∀ out, print_top_border t w out = out ++ (line ++ ['\n'])) ∧
      ((line.length : Nat) : Int) = table_total_len t w ∧ '\n' ∉ line := by
  refine ⟨'+' :: ((List.range t.ncols).map
    (fun j => List.replicate (w.getD j 0 + 4).toNat '-' ++
      [if (j : Int) < (t.ncols : Int) - 1 then '-' else '+'])).flatten, ?_, ?_, ?_⟩
  · intro out
    have hf : (fun (out : List Char) (j : Nat) =>
        if (j : Int) < (t.ncols : Int) - 1 then
          fputc '-' (fputc_times '-' (w.getD j 0 + 4) out)
        else fputc '+' (fputc_times '-' (w.getD j 0 + 4) out)) =
        fun out j => out ++ (List.replicate (w.getD j 0 + 4).toNat '-' ++
          [if (j : Int) < (t.ncols : Int) - 1 then '-' else '+']) := by
      funext out j
      simp only [fputc, fputc_times_eq]
      split_ifs <;> simp
    simp only [print_top_border]
    rw [hf, foldl_chunks]
    simp [fputc]
  · apply line_length
    intro j hj
    have := hw j hj
    simp only [List.length_append, List.length_replicate, List.length_cons, List.length_nil]
    push_cast
    omega
  · intro hmem
    rcases List.mem_cons.mp hmem with h | h
    · exact absurd h (by decide)
    · refine chunks_no_newline _ t.ncols ?_ h
      intro j _ hj
      simp only [List.mem_append, List.mem_replicate, List.mem_singleton] at hj
      rcases hj with ⟨_, hj⟩ | hj
      · exact absurd hj (by decide)
      · split_ifs at hj
        · exact absurd hj (by decide)
        · exact absurd hj (by decide)

/-- A row of cells (the header row, or a data row) whose strings fit their columns is
one line of `total_len` characters and the newline; the line holds no newline when the
strings hold none. -/
theorem print_cells_line (t : Table) (w : List Int) (cell : Nat → List Char)
    (hfit : ∀ j, j < t.ncols → ((cell j).length : Int) ≤ w.getD j 0) :
    ∃ line : List Char,
      (∀ out,
        fputc '\n' ((List.range t.ncols).foldl
          (fun out j => print_cell (w.getD j 0) (cell j) out) (fputc '|' out)) =
        out ++ (line ++ ['\n'])) ∧
      ((line.length : Nat) : Int) = table_total_len t w ∧
      ((∀ j, j < t.ncols → '\n' ∉ cell j) → '\n' ∉ line) := by
  refine ⟨'|' :: ((List.range t.ncols).map
    (fun j => [' ', ' '] ++
      List.replicate ((w.getD j 0 - ((cell j).length : Int)).tdiv 2).toNat ' ' ++ cell j ++
      List.replicate (w.getD j 0 - ((cell j).length : Int) -
        (w.getD j 0 - ((cell j).length : Int)).tdiv 2).toNat ' ' ++
      [' ', ' ', '|'])).flatten, ?_, ?_, ?_⟩
  · intro out
    have hf : (fun (out : List Char) (j : Nat) => print_cell (w.getD j 0) (cell j) out) =
        fun out j => out ++ ([' ', ' '] ++
          List.replicate ((w.getD j 0 - ((cell j).length : Int)).tdiv 2).toNat ' ' ++
          cell j ++
          List.replicate (w.getD j 0 - ((cell j).length : Int) -
            (w.getD j 0 - ((cell j).length : Int)).tdiv 2).toNat ' ' ++
          [' ', ' ', '|']) := by
      funext out j
      rw [print_cell_eq]
    rw [hf, foldl_chunks]
    simp [fputc]
  · apply line_length
    intro j hj
    exact (print_cell_length (w.getD j 0) (cell j) (hfit j hj)).1
  · intro hno hmem
    rcases List.mem_cons.mp hmem with h | h
    · exact absurd h (by decide)
    · refine chunks_no_newline _ t.ncols ?_ h
      intro j hj
      exact (print_cell_length (w.getD j 0) (cell j) (hfit j hj)).2 (hno j hj)

/-- The title line of a title that fits in `total_len - 2` columns is one line of
`total_len` characters and the newline; the line holds no newline when the title holds
none. -/
theorem print_title_line_line (title : List Char) (total_len : Int)
    (hfit : (title.length : Int) ≤ total_len - 2) :
    ∃ line : List Char,
      (∀ out, print_title_line title total_len out = out ++ (line ++ ['\n'])) ∧
      ((line.length : Nat) : Int) = total_len ∧ ('\n' ∉ title → '\n' ∉ line) := by
  have h0 : 0 ≤ total_len - 2 - (title.length : Int) := by omega
  have hdiv : (total_len - 2 - (title.length : Int)).tdiv 2 =
      (total_len - 2 - (title.length : Int)) / 2 := Int.tdiv_eq_ediv h0 (by decide)
  refine ⟨'|' :: (List.replicate ((total_len - 2 - (title.length : Int)).tdiv 2).toNat ' ' ++
    title ++
    List.replicate (total_len - 2 - (title.length : Int) -
      (total_len - 2 - (title.length : Int)).tdiv 2).toNat ' ' ++ ['|']), ?_, ?_, ?_⟩
  · intro out
    simp [print_title_line, fputc, fputs, fputc_times_eq]
  · rw [hdiv]
    simp only [List.length_append, List.length_replicate, List.length_cons, List.length_nil]
    push_cast
    omega
  · intro hno hmem
    simp only [List.mem_cons, List.mem_append, List.mem_replicate, List.mem_singleton,
      List.not_mem_nil] at hmem
    rcases hmem with h | ((⟨_, h⟩ | h) | ⟨_, h⟩) | h
    · exact absurd h (by decide)
    · exact absurd h (by decide)
    · exact hno h
    · exact absurd h (by decide)
    · rcases h with h | h
      · exact absurd h (by decide)
      · exact h

/-- The loop over the data rows writes two lines per row, the row and its separator,
each followed by a newline. -/
theorem print_rows_lines (t : Table) (w : List Int) (P : List Char → Prop)
    (sep : List Char)
    (hsep : ∀ out, print_separator t w out = out ++ (sep ++ ['\n'])) (hPsep : P sep)
    (rows : List (List (List Char)))
    (hrows : ∀ row, row ∈ rows →
      ∃ line : List Char, (∀ out, print_row t w row out = out ++ (line ++ ['\n'])) ∧ P line) :
    ∃ lines : List (List Char),
      (∀ out,
        rows.foldl (fun out row => print_separator t w (print_row t w row out)) out =
          out ++ (lines.map (fun l => l ++ ['\n'])).flatten) ∧
      lines.length = 2 * rows.length ∧ ∀ l, l ∈ lines → P l := by
  induction rows with
  | nil =>
    exact ⟨[], fun out => by simp, rfl, fun l hl => by simp at hl⟩
  | cons r rest ih =>
    obtain ⟨line, hline, hP⟩ := hrows r (List.mem_cons_self _ _)
    obtain ⟨lines, hlines, hlen, hall⟩ :=
      ih (fun row hrow => hrows row (List.mem_cons_of_mem _ hrow))
    refine ⟨line :: sep :: lines, ?_, ?_, ?_⟩
    · intro out
      rw [List.foldl_cons, hlines]
      simp only [hsep, hline, List.map_cons, List.flatten_cons, List.append_assoc]
    · simp only [List.length_cons, hlen]
      omega
    · intro l hl
      rcases List.mem_cons.mp hl with rfl | hl
      · exact hP
      · rcases List.mem_cons.mp hl with rfl | hl
        · exact hPsep
        · exact hall l hl

set_option maxRecDepth 100000 in
/-- The output of `table_print` for the sample table: seven lines of 22 characters. -/
theorem sample_table_output :
    table_print sampleTable [] =
      ("+--------------------+\n|      Policies      |\n+------+-------------+\n" ++
        "|  No  |   Policy    |\n+------+-------------+\n" ++
        "|  1   |  ( 20, 40)  |\n+------+-------------+\n").toList := by
  decide

/-- Under a title of 40 characters the title line of the sample table (`total_len = 22`)
has 42 characters and the newline: the bound on the title is needed. -/
theorem long_title_line :
    table_total_len longTitleTable (table_widths longTitleTable) = 22 ∧
    (print_title_line (List.replicate 40 'x') 22 []).length = 43 := by
  decide

/-- The first loop body of the run of `tieRunState`. -/
theorem tie_first_step :
    loop_body sampleExtern (initialize_run sampleExtern tieRunState) =
      Except.ok tieAfterEvaluate := by
  have ht : timing (initialize_run sampleExtern tieRunState) = Except.ok
      { initialize_run sampleExtern tieRunState with
        next_event_type := 4, sim_time := 0 } := by
    simp [timing, initialize_run, tieRunState, sampleState, sampleExtern, expon,
      List.range', timing_scan]
    norm_num
  rw [loop_body, ht]
  simp only [event_switch, update_time_avg_stats_eq, evaluate_eq]
  simp [initialize_run, tieRunState, sampleState, sampleExtern, expon, tieAfterEvaluate]
  norm_num
  funext i
  simp only [Function.update_apply]
  split_ifs <;> first | rfl | omega

/-- The second loop body of the run of `tieRunState`. -/
theorem tie_second_step :
    loop_body sampleExtern tieAfterEvaluate = Except.ok tieAfterArrival := by
  have ht : timing tieAfterEvaluate = Except.ok
      { tieAfterEvaluate with next_event_type := 1, sim_time := 1 } := by
    simp [timing, tieAfterEvaluate, tieRunState, sampleState, List.range', timing_scan]
    norm_num
  rw [loop_body, ht]
  simp only [event_switch, update_time_avg_stats_eq]
  simp [order_arrival, tieAfterEvaluate, tieRunState, sampleState, tieAfterArrival]
  funext i
  simp only [Function.update_apply]
  split_ifs <;> rfl

/-- The state after the order cycle of `tieRunState` is a state of that run. -/
theorem tie_inRun : InRun sampleExtern tieRunState tieAfterArrival :=
  InRun.next
    (InRun.next InRun.start tie_first_step (by simp [tieAfterEvaluate]))
    tie_second_step (by simp [tieAfterArrival])

/-- At the state after the order cycle of `tieRunState`, `timing` selects EVALUATE. -/
theorem tie_third_timing :
    timing tieAfterArrival =
      Except.ok { tieAfterArrival with next_event_type := 4, sim_time := 1 } := by
  simp [timing, tieAfterArrival, tieAfterEvaluate, tieRunState, sampleState, List.range',
    timing_scan]
  norm_num

/-- The loop body is the handler run on the state that `timing` and
`update_time_avg_stats` leave. -/
theorem loop_body_of_timing (E : Extern) (s t : State) (h : timing s = Except.ok t) :
    loop_body E s = event_switch E (update_time_avg_stats t) := by
  unfold loop_body
  rw [h]

/-- With a non-positive mean interdemand time, no order pending, DEMAND due at or before
time `0` and the other two events at or after it, the loop body selects DEMAND, returns
normally (normalized demand table, draws in `(0,1)`) and leaves the same situation. -/
theorem nonpositive_mean_step (E : Extern) (s : State) (n : Nat)
    (hlog : ∀ u : ℚ, 0 < u → u < 1 → E.log u ≤ 0)
    (hdraw : ∀ z : Int, 0 < (E.lcgrand z).1 ∧ (E.lcgrand z).1 < 1)
    (h4 : s.num_events = 4) (hmean : s.mean_interdemand ≤ 0) (hn : 1 ≤ n)
    (hlast : s.prob_distrib_demand[n]? = some 1)
    (c1 : s.time_next_event 1 = 10 ^ 30) (c2 : s.time_next_event 2 ≤ 0)
    (c3 : 0 ≤ s.time_next_event 3) (c4 : 0 ≤ s.time_next_event 4) :
    ∃ s1, loop_body E s = Except.ok s1 ∧ s1.next_event_type = 2 ∧
      s1.num_events = 4 ∧ s1.mean_interdemand ≤ 0 ∧
      s1.prob_distrib_demand[n]? = some 1 ∧
      s1.time_next_event 1 = 10 ^ 30 ∧ s1.time_next_event 2 ≤ 0 ∧
      0 ≤ s1.time_next_event 3 ∧ 0 ≤ s1.time_next_event 4 ∧
      s1.policies_table = s.policies_table := by
  obtain ⟨t, ht⟩ := timing_ok_of_scheduled s h4 2 (by decide) (by decide)
    (lt_of_le_of_lt c2 (by norm_num))
  obtain ⟨k, hk1, hk4, hlt, _, hfirst, hteq⟩ := timing_ok_first s t h4 ht
  have hk : k = 2 := by
    have hc : k = 1 ∨ k = 2 ∨ k = 3 ∨ k = 4 := by omega
    rcases hc with rfl | rfl | rfl | rfl
    · rw [c1] at hlt
      norm_num at hlt
    · rfl
    · have := hfirst 2 (by decide) (by decide)
      linarith
    · have := hfirst 2 (by decide) (by decide)
      linarith
  subst hk
  have hb := loop_body_of_timing E s t ht
  rw [hteq] at hb
  have hsw : event_switch E (update_time_avg_stats
      { s with next_event_type := ((2 : Nat) : Int), sim_time := s.time_next_event 2 }) =
      demand E (update_time_avg_stats
        { s with next_event_type := ((2 : Nat) : Int), sim_time := s.time_next_event 2 }) := by
    simp [event_switch, update_time_avg_stats_eq]
  rw [hsw] at hb
  obtain ⟨s1, hd⟩ := demand_returns E (update_time_avg_stats
      { s with next_event_type := ((2 : Nat) : Int), sim_time := s.time_next_event 2 }) n hn
    (by rw [update_time_avg_stats_eq]; exact hlast) (hdraw _).2
  obtain ⟨size, _, hs1⟩ := demand_ok_eq E _ s1 hd
  rw [hd] at hb
  refine ⟨s1, hb, ?_⟩
  have hdr := hdraw (E.lcgrand s.zrng).2
  have hl := hlog _ hdr.1 hdr.2
  subst hs1
  rw [update_time_avg_stats_eq]
  refine ⟨rfl, h4, hmean, hlast, ?_, ?_, ?_, ?_, rfl⟩
  · simp only [Function.update_apply]
    norm_num
    exact c1
  · simp only [Function.update_same, expon]
    nlinarith
  · simp only [Function.update_apply]
    norm_num
    exact c3
  · simp only [Function.update_apply]
    norm_num
    exact c4

/-- In that situation the `do ... while` loop never ends and never fails: whatever the
fuel, it is used up. -/
theorem nonpositive_mean_loop (E : Extern) (n : Nat)
    (hlog : ∀ u : ℚ, 0 < u → u < 1 → E.log u ≤ 0)
    (hdraw : ∀ z : Int, 0 < (E.lcgrand z).1 ∧ (E.lcgrand z).1 < 1) (hn : 1 ≤ n)
    (fuel : Nat) (s : State)
    (h4 : s.num_events = 4) (hmean : s.mean_interdemand ≤ 0)
    (hlast : s.prob_distrib_demand[n]? = some 1)
    (c1 : s.time_next_event 1 = 10 ^ 30) (c2 : s.time_next_event 2 ≤ 0)
    (c3 : 0 ≤ s.time_next_event 3) (c4 : 0 ≤ s.time_next_event 4) :
    policy_loop E fuel s = none := by
  induction fuel generalizing s with
  | zero => rfl
  | succ m ih =>
    obtain ⟨s1, hb, hnet, g4, gmean, glast, g1, g2, g3, g44, _⟩ :=
      nonpositive_mean_step E s n hlog hdraw h4 hmean hn hlast c1 c2 c3 c4
    have hne : s1.next_event_type ≠ 3 := by
      rw [hnet]
      decide
    unfold policy_loop
    rw [hb]
    simp only [if_pos hne]
    exact ih s1 g4 gmean glast g1 g2 g3 g44

/-- A policy run with a non-positive mean interdemand time (four event types,
`num_months >= 0`, normalized demand table, draws in `(0,1)` with logarithm `<= 0`)
never ends and never fails. -/
theorem nonpositive_mean_run (E : Extern) (s0 : State) (n : Nat)
    (hlog : ∀ u : ℚ, 0 < u → u < 1 → E.log u ≤ 0)
    (hdraw : ∀ z : Int, 0 < (E.lcgrand z).1 ∧ (E.lcgrand z).1 < 1)
    (h4 : s0.num_events = 4) (hmean : s0.mean_interdemand ≤ 0)
    (hmonths : 0 ≤ s0.num_months) (hn : 1 ≤ n)
    (hlast : s0.prob_distrib_demand[n]? = some 1) (fuel : Nat) :
    policy_loop E fuel (initialize_run E s0) = none := by
  have hd := hdraw s0.zrng
  have hl := hlog _ hd.1 hd.2
  apply nonpositive_mean_loop E n hlog hdraw hn fuel
  · rw [initialize_run_eq]
    exact h4
  · rw [initialize_run_eq]
    exact hmean
  · rw [initialize_run_eq]
    exact hlast
  · rw [initialize_run_eq]
    simp
  · rw [initialize_run_eq]
    simp only [Function.update_apply]
    norm_num
    nlinarith
  · rw [initialize_run_eq]
    simp only [Function.update_apply]
    norm_num
    exact hmonths
  · rw [initialize_run_eq]
    simp

/-- The run of `badConfigState` ends after three loop bodies. -/
theorem bad_run :
    policy_loop sampleExtern 3 (initialize_run sampleExtern badConfigState) =
      some (Except.ok badFinal) := by
  have n1 : badAfterEvaluate.next_event_type ≠ 3 := by simp [badAfterEvaluate]
  have n2 : badAfterArrival.next_event_type ≠ 3 := by simp [badAfterArrival]
  have n3 : ¬ badFinal.next_event_type ≠ 3 := by simp [badFinal]
  simp only [policy_loop, bad_first_step, bad_second_step, bad_third_step, if_pos n1,
    if_pos n2, if_neg n3]

/-- An `int` value is stored as it is. -/
theorem wrap_int_of_int_ok (x : Int) (h : int_ok x) : wrap_int x = x := by
  unfold int_ok INT_MIN INT_MAX at h
  unfold wrap_int
  omega

/-- A run whose `int` arithmetic stays in range is a run. -/
theorem inRunInt_inRun (E : Extern) (s0 s : State) (h : InRunInt E s0 s) :
    InRun E s0 s := by
  induction h with
  | start _ _ _ => exact InRun.start
  | next _ hbody hne _ _ ih => exact InRun.next ih hbody hne

/-- At the start of every loop body of a run whose `int` arithmetic stays in range, the
inputs, the level and the amount on order are `int` values. -/
theorem inRunInt_range (E : Extern) (s0 s : State) (h : InRunInt E s0 s) :
    int_ok s0.initial_inv_level ∧ int_ok s0.smalls ∧ int_ok s0.bigs ∧
    int_ok s.inv_level ∧ int_ok s.amount := by
  induction h with
  | start h1 h2 h3 =>
    refine ⟨h1, h2, h3, ?_, ?_⟩
    · simpa [initialize_run] using h1
    · simp only [initialize_run]
      decide
  | next _ _ _ hl ha ih => exact ⟨ih.1, ih.2.1, ih.2.2.1, hl, ha⟩

/-- The first loop body of the run of `overflowState`, with unbounded integers. -/
theorem overflow_first_step :
    loop_body sampleExtern (initialize_run sampleExtern overflowState) =
      Except.ok overflowAfterEvaluate := by
  have ht : timing (initialize_run sampleExtern overflowState) = Except.ok
      { initialize_run sampleExtern overflowState with
        next_event_type := 4, sim_time := 0 } := by
    simp [timing, initialize_run, overflowState, sampleState, sampleExtern, expon,
      List.range', timing_scan]
    norm_num
  rw [loop_body, ht]
  simp only [event_switch, update_time_avg_stats_eq, evaluate_eq]
  simp [initialize_run, overflowState, sampleState, sampleExtern, expon,
    overflowAfterEvaluate]
  norm_num
  funext i
  simp only [Function.update_apply]
  split_ifs <;> first | rfl | omega

/-- With four event types, END_SIMULATION scheduled below `1.0e+29`, a normalized demand
table and draws below `1`, the `do ... while` loop started at a state of the run never
ends in a fault, whatever the number of bodies allowed. -/
theorem policy_loop_no_fault (E : Extern) (s0 : State) (n : Nat)
    (hdraw : ∀ z : Int, (E.lcgrand z).1 < 1)
    (h4 : s0.num_events = 4) (hT : (s0.num_months : ℚ) < 10 ^ 29) (hn : 1 ≤ n)
    (hlast : s0.prob_distrib_demand[n]? = some 1)
    (fuel : Nat) (s : State) (hrun : InRun E s0 s) (f : Fault) :
    policy_loop E fuel s ≠ some (Except.error f) := by
  induction fuel generalizing s with
  | zero => simp [policy_loop]
  | succ k ih =>
    obtain ⟨c1, _, _, _, _, c6⟩ := inRun_config E s0 s hrun
    obtain ⟨_, _, _, p4, _⟩ := inRun_policy E s0 s hrun
    obtain ⟨s1, hb⟩ := loop_body_returns E s n hdraw (c1.trans h4) (by rw [c6]; exact hT) hn
      (by rw [p4]; exact hlast)
    unfold policy_loop
    rw [hb]
    simp only
    by_cases hne : s1.next_event_type ≠ 3
    · rw [if_pos hne]
      exact ih s1 (InRun.next hrun hb hne)
    · rw [if_neg hne]
      simp

/-- In a policy run with a non-positive mean interdemand time (four event types,
`num_months >= 0`, normalized demand table, draws in `(0,1)` with logarithm `<= 0`), at
the start of every loop body no order is pending, DEMAND is due at or before time `0`
and the other two events at or after it; the body selects DEMAND and returns normally. -/
theorem inRun_nonpositive_mean (E : Extern) (s0 s : State) (n : Nat)
    (hlog : ∀ u : ℚ, 0 < u → u < 1 → E.log u ≤ 0)
    (hdraw : ∀ z : Int, 0 < (E.lcgrand z).1 ∧ (E.lcgrand z).1 < 1)
    (h4 : s0.num_events = 4) (hmean : s0.mean_interdemand ≤ 0)
    (hmonths : 0 ≤ s0.num_months) (hn : 1 ≤ n)
    (hlast : s0.prob_distrib_demand[n]? = some 1) (hrun : InRun E s0 s) :
    (s.time_next_event 1 = 10 ^ 30 ∧ s.time_next_event 2 ≤ 0 ∧
      0 ≤ s.time_next_event 3 ∧ 0 ≤ s.time_next_event 4) ∧
    ∃ s1, loop_body E s = Except.ok s1 ∧ s1.next_event_type = 2 := by
  have hinv : s.time_next_event 1 = 10 ^ 30 ∧ s.time_next_event 2 ≤ 0 ∧
      0 ≤ s.time_next_event 3 ∧ 0 ≤ s.time_next_event 4 := by
    induction hrun with
    | start =>
      have hd := hdraw s0.zrng
      have hl := hlog _ hd.1 hd.2
      rw [initialize_run_eq]
      refine ⟨by simp, ?_, ?_, by simp⟩
      · simp only [Function.update_apply]
        norm_num
        nlinarith
      · simp only [Function.update_apply]
        norm_num
        exact hmonths
    | @next s s1 hprev hbody _ ih =>
      obtain ⟨c1, _, c3, _⟩ := inRun_config E s0 s hprev
      obtain ⟨_, _, _, p4, _⟩ := inRun_policy E s0 s hprev
      obtain ⟨t, hb, _, _, _, _, g1, g2, g3, g4, _⟩ :=
        nonpositive_mean_step E s n hlog hdraw (c1.trans h4) (by rw [c3]; exact hmean) hn
          (by rw [p4]; exact hlast) ih.1 ih.2.1 ih.2.2.1 ih.2.2.2
      rw [hbody] at hb
      have hb := Except.ok.inj hb
      subst hb
      exact ⟨g1, g2, g3, g4⟩
  obtain ⟨c1, _, c3, _⟩ := inRun_config E s0 s hrun
  obtain ⟨_, _, _, p4, _⟩ := inRun_policy E s0 s hrun
  obtain ⟨s1, hb, hnet, _⟩ :=
    nonpositive_mean_step E s n hlog hdraw (c1.trans h4) (by rw [c3]; exact hmean) hn
      (by rw [p4]; exact hlast) hinv.1 hinv.2.1 hinv.2.2.1 hinv.2.2.2
  exact ⟨hinv, s1, hb, hnet⟩

/-! ## The properties of the specification -/

/-- C1: with `num_events = 4` and some cell of `time_next_event[1..4]` below the
threshold `1.0e+29`, `timing` returns normally; `next_event_type` is the smallest index
`k` in `1..4` whose cell holds the minimum of the four cells, `sim_time` is that
minimum, the selected cell does not hold the never value `1.0e+30`, and nothing but
`next_event_type` and `sim_time` changes (so the calendar is unchanged). -/
theorem timing_selects_first_minimum (s : State) (h4 : s.num_events = 4)
    (hsome : ∃ i, 1 ≤ i ∧ i ≤ 4 ∧ s.time_next_event i < 10 ^ 29) :
    ∃ k : Nat, 1 ≤ k ∧ k ≤ 4 ∧
      timing s = Except.ok
        { s with next_event_type := (k : Int), sim_time := s.time_next_event k } ∧
      (∀ j, 1 ≤ j → j ≤ 4 → s.time_next_event k ≤ s.time_next_event j) ∧
      (∀ j, 1 ≤ j → j < k → s.time_next_event k < s.time_next_event j) ∧
      s.time_next_event k ≠ 10 ^ 30 ∧
      ∀ s1, timing s = Except.ok s1 → s1.time_next_event = s.time_next_event := by
  obtain ⟨i, hi1, hi4, hi⟩ := hsome
  rcases timing_scan_spec s.time_next_event (10 ^ 29) 4 with ⟨_, hall⟩ |
    ⟨k, hk1, hk4, hk, hlt, hmin, hfirst⟩
  · exact absurd hi (not_lt.mpr (hall i hi1 hi4))
  · have hk0 : (k : Int) ≠ 0 := by omega
    have ht : timing s = Except.ok
        { s with next_event_type := (k : Int), sim_time := s.time_next_event k } := by
      simp only [timing, h4]
      rw [show Int.toNat 4 = 4 from rfl, hk]
      simp [hk0]
    refine ⟨k, hk1, hk4, ht, hmin, hfirst, ?_, ?_⟩
    · have : (10 : ℚ) ^ 29 < 10 ^ 30 := by norm_num
      exact ne_of_lt (lt_trans hlt this)
    · intro s1 h1
      rw [ht] at h1
      cases h1
      rfl

/-- Witness of C1: on the calendar `5, 3, 3, 3` the three cells holding the minimum `3`
tie, and `timing` selects the first of them. -/
theorem timing_selects_first_minimum_witness :
    sampleTieState.num_events = 4 ∧
    (∃ i, 1 ≤ i ∧ i ≤ 4 ∧ sampleTieState.time_next_event i < 10 ^ 29) ∧
    ∃ k : Nat, 1 ≤ k ∧ k ≤ 4 ∧
      timing sampleTieState = Except.ok
        { sampleTieState with
          next_event_type := (k : Int), sim_time := sampleTieState.time_next_event k } ∧
      (∀ j, 1 ≤ j → j ≤ 4 →
        sampleTieState.time_next_event k ≤ sampleTieState.time_next_event j) ∧
      (∀ j, 1 ≤ j → j < k →
        sampleTieState.time_next_event k < sampleTieState.time_next_event j) ∧
      sampleTieState.time_next_event k ≠ 10 ^ 30 ∧
      ∀ s1, timing sampleTieState = Except.ok s1 →
        s1.time_next_event = sampleTieState.time_next_event :=
  ⟨rfl, ⟨2, by decide, by decide, by simp only [sampleTieState]; norm_num⟩,
    timing_selects_first_minimum sampleTieState rfl
      ⟨2, by decide, by decide, by simp only [sampleTieState]; norm_num⟩⟩

/-- C2: in every state at which the loop body of a policy run starts (four event
types, `num_months` below the threshold `1.0e+29`), the END_SIMULATION cell still holds
`num_months`, so `timing` returns normally and does not take its "event list empty"
exit. -/
theorem timing_never_finds_list_empty (E : Extern) (s0 s : State)
    (h4 : s0.num_events = 4) (hmonths : (s0.num_months : ℚ) < 10 ^ 29)
    (hrun : InRun E s0 s) :
    s.time_next_event 3 = (s0.num_months : ℚ) ∧
    (∃ s1, timing s = Except.ok s1) ∧
    timing s ≠ Except.error Fault.eventListEmpty := by
  obtain ⟨c1, _, _, _, _, c6⟩ := inRun_config E s0 s hrun
  obtain ⟨s1, h1⟩ := timing_ok_of_scheduled s (c1.trans h4) 3 (by decide) (by decide)
    (by rw [c6]; exact hmonths)
  refine ⟨c6, ⟨s1, h1⟩, ?_⟩
  rw [h1]
  intro h
  cases h

/-- Witness of C2: the state after the first step of the sample run (120 months). -/
theorem timing_never_finds_list_empty_witness :
    sampleState.num_events = 4 ∧ (sampleState.num_months : ℚ) < 10 ^ 29 ∧
    sampleAfterEvaluate.time_next_event 3 = (sampleState.num_months : ℚ) ∧
    (∃ s1, timing sampleAfterEvaluate = Except.ok s1) ∧
    timing sampleAfterEvaluate ≠ Except.error Fault.eventListEmpty :=
  ⟨rfl, by simp only [sampleState]; norm_num,
    timing_never_finds_list_empty sampleExtern sampleState sampleAfterEvaluate rfl
      (by simp only [sampleState]; norm_num) sample_inRun⟩

/-- C3: clock monotonicity.  In every state `s` at which the loop body of a policy run
starts, `time_last_event <= sim_time` and every cell `1..4` of the calendar is at or
after `sim_time`; the `timing` call made there does not move `sim_time` back and keeps
`time_last_event <= sim_time`, also after `update_time_avg_stats`; and after the handler
`time_last_event <= sim_time` and every cell `1..4` is at or after `sim_time` again. -/
theorem clock_monotone (E : Extern) (s0 s : State)
    (hlog : ∀ u : ℚ, 0 < u → u < 1 → E.log u ≤ 0)
    (hdraw : ∀ z : Int, 0 < (E.lcgrand z).1 ∧ (E.lcgrand z).1 < 1)
    (h4 : s0.num_events = 4) (hmean : 0 < s0.mean_interdemand) (hlag0 : 0 ≤ s0.minlag)
    (hlag : s0.minlag ≤ s0.maxlag) (hmonths : 0 ≤ s0.num_months)
    (hrun : InRun E s0 s) :
    s.time_last_event ≤ s.sim_time ∧
    (∀ i, 1 ≤ i → i ≤ 4 → s.sim_time ≤ s.time_next_event i) ∧
    (∀ t, timing s = Except.ok t →
      s.sim_time ≤ t.sim_time ∧ t.time_last_event ≤ t.sim_time ∧
      (update_time_avg_stats t).time_last_event ≤ (update_time_avg_stats t).sim_time) ∧
    (∀ s1, loop_body E s = Except.ok s1 →
      s.sim_time ≤ s1.sim_time ∧ s1.time_last_event ≤ s1.sim_time ∧
      ∀ i, 1 ≤ i → i ≤ 4 → s1.sim_time ≤ s1.time_next_event i) := by
  obtain ⟨c1, _, c3, c4, c5, _⟩ := inRun_config E s0 s hrun
  obtain ⟨itle, ical, _, _⟩ := inRun_clock E s0 s hlog hdraw h4 hmean hlag0 hlag hmonths hrun
  refine ⟨le_of_eq itle, ical, ?_, ?_⟩
  · intro t ht
    obtain ⟨k, hk1, hk4, _, _, hteq⟩ := timing_ok_four s t (c1.trans h4) ht
    have hk := ical k hk1 hk4
    rw [update_time_avg_stats_eq, hteq]
    simp only
    rw [itle]
    exact ⟨hk, hk, le_refl _⟩
  · intro s1 hbody
    obtain ⟨hmono, hcal1⟩ := loop_body_clock E s s1 hlog hdraw (c1.trans h4)
      (by rw [c3]; exact hmean) (by rw [c4]; exact hlag0) (by rw [c4, c5]; exact hlag)
      ical hbody
    obtain ⟨_, _, ftle, _⟩ := loop_body_frame E s s1 hbody
    exact ⟨hmono, le_of_eq ftle, hcal1⟩

/-- Witness of C3: the state after the first step of the sample run. -/
theorem clock_monotone_witness :
    sampleAfterEvaluate.time_last_event ≤ sampleAfterEvaluate.sim_time ∧
    (∀ i, 1 ≤ i → i ≤ 4 →
      sampleAfterEvaluate.sim_time ≤ sampleAfterEvaluate.time_next_event i) ∧
    (∀ t, timing sampleAfterEvaluate = Except.ok t →
      sampleAfterEvaluate.sim_time ≤ t.sim_time ∧ t.time_last_event ≤ t.sim_time ∧
      (update_time_avg_stats t).time_last_event ≤ (update_time_avg_stats t).sim_time) ∧
    (∀ s1, loop_body sampleExtern sampleAfterEvaluate = Except.ok s1 →
      sampleAfterEvaluate.sim_time ≤ s1.sim_time ∧ s1.time_last_event ≤ s1.sim_time ∧
      ∀ i, 1 ≤ i → i ≤ 4 → s1.sim_time ≤ s1.time_next_event i) :=
  clock_monotone sampleExtern sampleState sampleAfterEvaluate sample_log sample_draw rfl
    (by simp only [sampleState]; norm_num) (by simp only [sampleState]; norm_num)
    (by simp only [sampleState]; norm_num) (by simp only [sampleState]; norm_num)
    sample_inRun

/-- C4: `update_time_avg_stats` adds `elapsed * max(inv_level, 0)` to `area_holding`
and `elapsed * max(-inv_level, 0)` to `area_shortage`, where
`elapsed = sim_time - time_last_event`, sets `time_last_event` to `sim_time`, and
changes no other field; with `inv_level` exactly `0` only `time_last_event` changes. -/
theorem update_time_avg_stats_spec (s : State) :
    update_time_avg_stats s =
      { s with
        area_holding :=
          s.area_holding + (s.sim_time - s.time_last_event) * max (s.inv_level : ℚ) 0,
        area_shortage :=
          s.area_shortage + (s.sim_time - s.time_last_event) * max (-(s.inv_level : ℚ)) 0,
        time_last_event := s.sim_time } ∧
    update_time_avg_stats { s with inv_level := 0 } =
      { s with inv_level := 0, time_last_event := s.sim_time } :=
  ⟨update_time_avg_stats_eq s, by simp [update_time_avg_stats]⟩

/-- C5: one execution of the loop body (`timing`, `update_time_avg_stats`, handler), for
whatever event type is selected, leaves each area integral at its value before the step
plus `(new sim_time - old time_last_event)` times `max(L, 0)`, respectively
`max(-L, 0)`, with `L` the `inv_level` before the step; and no handler changes the
integrals, the clock or `time_last_event`. -/
theorem loop_body_advances_integrals_once (E : Extern) (s s1 : State)
    (h : loop_body E s = Except.ok s1) :
    s1.area_holding =
      s.area_holding + (s1.sim_time - s.time_last_event) * max (s.inv_level : ℚ) 0 ∧
    s1.area_shortage =
      s.area_shortage + (s1.sim_time - s.time_last_event) * max (-(s.inv_level : ℚ)) 0 ∧
    ∀ t t1, event_switch E t = Except.ok t1 →
      t1.area_holding = t.area_holding ∧ t1.area_shortage = t.area_shortage ∧
      t1.sim_time = t.sim_time ∧ t1.time_last_event = t.time_last_event := by
  obtain ⟨fa, fs, _⟩ := loop_body_frame E s s1 h
  refine ⟨fa, fs, ?_⟩
  intro t t1 ht
  obtain ⟨g1, g2, g3, g4, _⟩ := event_switch_frame E t t1 ht
  exact ⟨g1, g2, g3, g4⟩

/-- Witness of C5: the second step of the sample run, a DEMAND at time `1/20` with level
`60` held since time `0`, adds `(1/20 - 0) * 60 = 3` to `area_holding` and nothing to
`area_shortage`. -/
theorem loop_body_advances_integrals_once_witness :
    loop_body sampleExtern sampleAfterEvaluate = Except.ok sampleAfterDemand ∧
    sampleAfterDemand.area_holding =
      sampleAfterEvaluate.area_holding +
        (sampleAfterDemand.sim_time - sampleAfterEvaluate.time_last_event) *
          max (sampleAfterEvaluate.inv_level : ℚ) 0 ∧
    sampleAfterDemand.area_shortage =
      sampleAfterEvaluate.area_shortage +
        (sampleAfterDemand.sim_time - sampleAfterEvaluate.time_last_event) *
          max (-(sampleAfterEvaluate.inv_level : ℚ)) 0 :=
  ⟨sample_second_step,
    (loop_body_advances_integrals_once sampleExtern sampleAfterEvaluate sampleAfterDemand
      sample_second_step).1,
    (loop_body_advances_integrals_once sampleExtern sampleAfterEvaluate sampleAfterDemand
      sample_second_step).2.1⟩

/-- C6: in every state at which the loop body of a policy run starts, `area_holding`
and `area_shortage` are non-negative, and one more execution of the loop body leaves
each of them at least as large (and so non-negative). -/
theorem areas_nonneg_nondecreasing (E : Extern) (s0 s : State)
    (hlog : ∀ u : ℚ, 0 < u → u < 1 → E.log u ≤ 0)
    (hdraw : ∀ z : Int, 0 < (E.lcgrand z).1 ∧ (E.lcgrand z).1 < 1)
    (h4 : s0.num_events = 4) (hmean : 0 < s0.mean_interdemand) (hlag0 : 0 ≤ s0.minlag)
    (hlag : s0.minlag ≤ s0.maxlag) (hmonths : 0 ≤ s0.num_months)
    (hrun : InRun E s0 s) :
    0 ≤ s.area_holding ∧ 0 ≤ s.area_shortage ∧
    ∀ s1, loop_body E s = Except.ok s1 →
      s.area_holding ≤ s1.area_holding ∧ s.area_shortage ≤ s1.area_shortage ∧
      0 ≤ s1.area_holding ∧ 0 ≤ s1.area_shortage := by
  obtain ⟨c1, _, c3, c4, c5, _⟩ := inRun_config E s0 s hrun
  obtain ⟨itle, ical, iah, ias⟩ :=
    inRun_clock E s0 s hlog hdraw h4 hmean hlag0 hlag hmonths hrun
  refine ⟨iah, ias, ?_⟩
  intro s1 hbody
  obtain ⟨hmono, _⟩ := loop_body_clock E s s1 hlog hdraw (c1.trans h4)
    (by rw [c3]; exact hmean) (by rw [c4]; exact hlag0) (by rw [c4, c5]; exact hlag)
    ical hbody
  obtain ⟨fa, fs, _⟩ := loop_body_frame E s s1 hbody
  have ha : (0 : ℚ) ≤ max (s.inv_level : ℚ) 0 := le_max_right _ _
  have hs : (0 : ℚ) ≤ max (-(s.inv_level : ℚ)) 0 := le_max_right _ _
  have hA : s.area_holding ≤ s1.area_holding := by
    rw [fa, itle]
    nlinarith
  have hS : s.area_shortage ≤ s1.area_shortage := by
    rw [fs, itle]
    nlinarith
  exact ⟨hA, hS, le_trans iah hA, le_trans ias hS⟩

/-- Witness of C6: the state after the first step of the sample run. -/
theorem areas_nonneg_nondecreasing_witness :
    0 ≤ sampleAfterEvaluate.area_holding ∧ 0 ≤ sampleAfterEvaluate.area_shortage ∧
    ∀ s1, loop_body sampleExtern sampleAfterEvaluate = Except.ok s1 →
      sampleAfterEvaluate.area_holding ≤ s1.area_holding ∧
      sampleAfterEvaluate.area_shortage ≤ s1.area_shortage ∧
      0 ≤ s1.area_holding ∧ 0 ≤ s1.area_shortage :=
  areas_nonneg_nondecreasing sampleExtern sampleState sampleAfterEvaluate sample_log
    sample_draw rfl
    (by simp only [sampleState]; norm_num) (by simp only [sampleState]; norm_num)
    (by simp only [sampleState]; norm_num) (by simp only [sampleState]; norm_num)
    sample_inRun

/-- C7: `evaluate` is the specified transition.  With `inv_level < smalls` it sets
`amount = bigs - inv_level`, adds `setup_cost + incremental_cost * amount` to
`total_ordering_cost`, schedules ORDER_ARRIVAL at `sim_time + uniform(minlag, maxlag)`
and consumes one draw.  With `inv_level >= smalls` (so also with `inv_level = smalls`)
it places no order.  In both cases EVALUATE is rescheduled at `sim_time + 1` and
`inv_level` and every other field are unchanged. -/
theorem evaluate_spec (E : Extern) (s : State) :
    (s.inv_level < s.smalls →
      evaluate E s =
        { s with
          amount := s.bigs - s.inv_level,
          total_ordering_cost := s.total_ordering_cost +
            (s.setup_cost + s.incremental_cost * ((s.bigs - s.inv_level : Int) : ℚ)),
          time_next_event :=
            Function.update
              (Function.update s.time_next_event 1
                (s.sim_time + (s.minlag + (E.lcgrand s.zrng).1 * (s.maxlag - s.minlag))))
              4 (s.sim_time + 1),
          zrng := (E.lcgrand s.zrng).2 }) ∧
    (s.smalls ≤ s.inv_level →
      evaluate E s =
        { s with time_next_event := Function.update s.time_next_event 4 (s.sim_time + 1) }) ∧
    evaluate E { s with inv_level := s.smalls } =
      { s with
        inv_level := s.smalls,
        time_next_event := Function.update s.time_next_event 4 (s.sim_time + 1) } ∧
    (evaluate E s).time_next_event 4 = s.sim_time + 1 ∧
    (evaluate E s).inv_level = s.inv_level := by
  refine ⟨?_, ?_, ?_, ?_, ?_⟩
  · intro h
    simp [evaluate, uniform, h]
  · intro h
    have hn : ¬ s.inv_level < s.smalls := not_lt.mpr h
    simp [evaluate, hn]
  · simp [evaluate]
  · by_cases h : s.inv_level < s.smalls <;> simp [evaluate, h]
  · by_cases h : s.inv_level < s.smalls <;> simp [evaluate, h]

/-- Witness of C7: at the sample state with level `10 < smalls = 20` an order of
`40 - 10 = 30` is placed at cost `32 + 3 * 30`, and with level `20 = smalls` none is. -/
theorem evaluate_spec_witness :
    (evaluate sampleExtern { sampleState with inv_level := 10 }).amount = 30 ∧
    (evaluate sampleExtern { sampleState with inv_level := 10 }).total_ordering_cost = 122 ∧
    (evaluate sampleExtern { sampleState with inv_level := 10 }).time_next_event 1 = 3 / 4 ∧
    (evaluate sampleExtern { sampleState with inv_level := 10 }).zrng = 2 ∧
    (evaluate sampleExtern { sampleState with inv_level := 20 }).amount = 0 ∧
    (evaluate sampleExtern { sampleState with inv_level := 20 }).total_ordering_cost = 0 ∧
    (evaluate sampleExtern { sampleState with inv_level := 20 }).zrng = 1 := by
  have h1 := (evaluate_spec sampleExtern { sampleState with inv_level := 10 }).1
    (by simp [sampleState])
  have h2 := (evaluate_spec sampleExtern { sampleState with inv_level := 20 }).2.1
    (by simp [sampleState])
  rw [h1, h2]
  simp only [sampleState, sampleExtern]
  norm_num

/-- C8: for a table whose cell `n` (`n >= 1`) holds `1.0` and a draw `u < 1`,
`random_integer` returns normally the smallest index `i >= 1` with
`u < prob_distrib[i]`, and `1 <= i <= n`; the stream advances by that one draw. -/
theorem random_integer_smallest_index (E : Extern) (prob_distrib : List ℚ) (n : Nat)
    (z : Int) (hn : 1 ≤ n) (hlast : prob_distrib[n]? = some 1)
    (hu : 0 < (E.lcgrand z).1 ∧ (E.lcgrand z).1 < 1) :
    ∃ i : Nat, 1 ≤ i ∧ i ≤ n ∧
      random_integer E prob_distrib z = (Except.ok (i : Int), (E.lcgrand z).2) ∧
      (∃ p, prob_distrib[i]? = some p ∧ (E.lcgrand z).1 < p) ∧
      ∀ j q, 1 ≤ j → j < i → prob_distrib[j]? = some q → q ≤ (E.lcgrand z).1 := by
  have hcell : ∀ k, (prob_distrib.drop 1)[k]? = prob_distrib[1 + k]? := by
    intro k
    rw [List.getElem?_drop]
  rcases random_integer_scan_spec (E.lcgrand z).1 (prob_distrib.drop 1) 1 with
    ⟨k, p, hk, hlt, hbelow, hres⟩ | ⟨hall, _⟩
  · refine ⟨1 + k, by omega, ?_, ?_, ⟨p, by rw [← hcell]; exact hk, hlt⟩, ?_⟩
    · by_contra hgt
      have h1 : (prob_distrib.drop 1)[n - 1]? = some 1 := by
        rw [hcell, show 1 + (n - 1) = n by omega]
        exact hlast
      have := hbelow (n - 1) 1 (by omega) h1
      linarith [hu.2]
    · simp only [random_integer, hres]
    · intro j q hj1 hji hq
      have h1 : (prob_distrib.drop 1)[j - 1]? = some q := by
        rw [hcell, show 1 + (j - 1) = j by omega]
        exact hq
      exact hbelow (j - 1) q (by omega) h1
  · have h1 : (prob_distrib.drop 1)[n - 1]? = some 1 := by
      rw [hcell, show 1 + (n - 1) = n by omega]
      exact hlast
    have := hall (n - 1) 1 h1
    linarith [hu.2]

/-- Witness of C8: the demand table of the sample state (`n = 4`) and the draw `1/2` give
size `3`, the first cell above `1/2` being `833/1000`. -/
theorem random_integer_smallest_index_witness :
    (1 : Nat) ≤ 4 ∧ sampleState.prob_distrib_demand[4]? = some 1 ∧
    ∃ i : Nat, 1 ≤ i ∧ i ≤ 4 ∧
      random_integer sampleExtern sampleState.prob_distrib_demand 1 =
        (Except.ok (i : Int), (sampleExtern.lcgrand 1).2) ∧
      (∃ p, sampleState.prob_distrib_demand[i]? = some p ∧ (sampleExtern.lcgrand 1).1 < p) ∧
      ∀ j q, 1 ≤ j → j < i → sampleState.prob_distrib_demand[j]? = some q →
        q ≤ (sampleExtern.lcgrand 1).1 :=
  ⟨by decide, by simp [sampleState],
    random_integer_smallest_index sampleExtern sampleState.prob_distrib_demand 4 1
      (by decide) (by simp [sampleState]) (by simp only [sampleExtern]; norm_num)⟩

/-- C9 as stated fails.  With the 26-cell array holding the two-entry table
`0.3, 0.4` (all other cells `0`) and the draw `1/2`, every entry of the table is at most
the draw, and `random_integer` raises no normalization error: the scan goes past index
`2` through every cell and ends in a read at index `26`, beyond the array.  With `0.9`
in cell `3` it returns the index `3`, outside the table, with no error at all. -/
theorem random_integer_scans_past_table :
    (∀ i : Nat, 1 ≤ i → i ≤ 2 → ∀ q : ℚ, unnormalizedTable[i]? = some q →
        q ≤ (sampleExtern.lcgrand 1).1) ∧
    random_integer sampleExtern unnormalizedTable 1 =
      (Except.error (Fault.outOfBounds 26), 2) ∧
    random_integer sampleExtern ([0, 3 / 10, 4 / 10, 9 / 10] ++ List.replicate 22 0) 1 =
      (Except.ok 3, 2) := by
  refine ⟨?_, ?_, ?_⟩
  · intro i h1 h2 q hq
    have hi : i = 1 ∨ i = 2 := by omega
    rcases hi with rfl | rfl
    · simp [unnormalizedTable] at hq
      simp only [sampleExtern]
      rw [← hq]
      norm_num
    · simp [unnormalizedTable] at hq
      simp only [sampleExtern]
      rw [← hq]
      norm_num
  · simp only [random_integer, unnormalizedTable, sampleExtern]
    norm_num [random_integer_scan, List.replicate]
  · simp only [random_integer, sampleExtern]
    norm_num [random_integer_scan, List.replicate]

/-- C9, amended: when the draw is at least every entry `prob_distrib[1..n]` of the
table, `random_integer` makes no normalization check.  The scan goes on past index `n`:
it either returns the first index `i > n` of the array whose cell exceeds the draw
(every cell `1..i-1` is at most the draw), or, when no cell of the array exceeds the
draw, ends in a read beyond the last cell of the array. -/
theorem random_integer_unnormalized (E : Extern) (prob_distrib : List ℚ) (n : Nat)
    (z : Int) (hlen : n < prob_distrib.length)
    (hall : ∀ i : Nat, 1 ≤ i → i ≤ n → ∀ q : ℚ, prob_distrib[i]? = some q →
      q ≤ (E.lcgrand z).1) :
    (∃ i : Nat, n < i ∧ i < prob_distrib.length ∧
        random_integer E prob_distrib z = (Except.ok (i : Int), (E.lcgrand z).2) ∧
        (∃ p : ℚ, prob_distrib[i]? = some p ∧ (E.lcgrand z).1 < p) ∧
        ∀ (j : Nat) (q : ℚ), 1 ≤ j → j < i → prob_distrib[j]? = some q →
          q ≤ (E.lcgrand z).1) ∨
    (random_integer E prob_distrib z =
        (Except.error (Fault.outOfBounds prob_distrib.length), (E.lcgrand z).2) ∧
      ∀ (j : Nat) (q : ℚ), 1 ≤ j → prob_distrib[j]? = some q → q ≤ (E.lcgrand z).1) := by
  have hcell : ∀ k, (prob_distrib.drop 1)[k]? = prob_distrib[1 + k]? := by
    intro k
    rw [List.getElem?_drop]
  rcases random_integer_scan_spec (E.lcgrand z).1 (prob_distrib.drop 1) 1 with
    ⟨k, p, hk, hlt, hbelow, hres⟩ | ⟨hbelow, hres⟩
  · left
    rw [hcell] at hk
    refine ⟨1 + k, ?_, ?_, by simp only [random_integer, hres], ⟨p, hk, hlt⟩, ?_⟩
    · by_contra hle
      have := hall (1 + k) (by omega) (by omega) p hk
      linarith
    · by_contra hge
      rw [List.getElem?_eq_none (by omega)] at hk
      cases hk
    · intro j q hj1 hji hq
      have h1 : (prob_distrib.drop 1)[j - 1]? = some q := by
        rw [hcell, show 1 + (j - 1) = j by omega]
        exact hq
      exact hbelow (j - 1) q (by omega) h1
  · right
    constructor
    · simp only [random_integer, hres, List.length_drop]
      rw [show 1 + (prob_distrib.length - 1) = prob_distrib.length by omega]
    · intro j q hj1 hq
      have h1 : (prob_distrib.drop 1)[j - 1]? = some q := by
        rw [hcell, show 1 + (j - 1) = j by omega]
        exact hq
      exact hbelow (j - 1) q h1

/-- Witness of the amended C9: with the table `0.3, 0.4` (`n = 2`), `0` in cell `3`,
`0.9` in cell `4` and the draw `1/2`, `random_integer` returns `4`, the first index
behind the table whose cell exceeds the draw. -/
theorem random_integer_unnormalized_witness :
    2 < overrunTable.length ∧
    random_integer sampleExtern overrunTable 1 = (Except.ok 4, 2) ∧
    ((∃ i : Nat, 2 < i ∧ i < overrunTable.length ∧
        random_integer sampleExtern overrunTable 1 =
          (Except.ok (i : Int), (sampleExtern.lcgrand 1).2) ∧
        (∃ p : ℚ, overrunTable[i]? = some p ∧ (sampleExtern.lcgrand 1).1 < p) ∧
        ∀ (j : Nat) (q : ℚ), 1 ≤ j → j < i → overrunTable[j]? = some q →
          q ≤ (sampleExtern.lcgrand 1).1) ∨
    (random_integer sampleExtern overrunTable 1 =
        (Except.error (Fault.outOfBounds overrunTable.length),
          (sampleExtern.lcgrand 1).2) ∧
      ∀ (j : Nat) (q : ℚ), 1 ≤ j → overrunTable[j]? = some q →
        q ≤ (sampleExtern.lcgrand 1).1)) := by
  refine ⟨by simp [overrunTable], ?_,
    random_integer_unnormalized sampleExtern overrunTable 2 1 (by simp [overrunTable]) ?_⟩
  · simp only [random_integer, sampleExtern, overrunTable]
    norm_num [random_integer_scan, List.replicate]
  · intro i h1 h2 q hq
    have hi : i = 1 ∨ i = 2 := by omega
    rcases hi with rfl | rfl
    · simp [overrunTable] at hq
      simp only [sampleExtern]
      rw [← hq]
      norm_num
    · simp [overrunTable] at hq
      simp only [sampleExtern]
      rw [← hq]
      norm_num

/-- C10: for a draw `u` in `(0,1)` (and a logarithm that is not positive on `(0,1)`),
`expon(mean) = -mean * log(u)` is `>= 0` for every `mean > 0`, and
`uniform(a, b) = a + u * (b - a)` lies in `[a, b]` for every `a <= b`. -/
theorem variates_in_range (E : Extern) (z : Int) (mean a b : ℚ)
    (hlog : ∀ u : ℚ, 0 < u → u < 1 → E.log u ≤ 0)
    (hu : 0 < (E.lcgrand z).1 ∧ (E.lcgrand z).1 < 1)
    (hmean : 0 < mean) (hab : a ≤ b) :
    (expon E mean z).1 = -mean * E.log (E.lcgrand z).1 ∧ 0 ≤ (expon E mean z).1 ∧
    (uniform E a b z).1 = a + (E.lcgrand z).1 * (b - a) ∧
    a ≤ (uniform E a b z).1 ∧ (uniform E a b z).1 ≤ b := by
  obtain ⟨h0, h1⟩ := hu
  have hl := hlog _ h0 h1
  refine ⟨rfl, ?_, rfl, ?_, ?_⟩
  · simp only [expon]
    nlinarith
  · simp only [uniform]
    nlinarith
  · simp only [uniform]
    nlinarith

/-- Witness of C10: the sample generator at stream state `1` (draw `1/2`), mean `1/10`
and the lag range `[1/2, 1]`. -/
theorem variates_in_range_witness :
    (0 : ℚ) < 1 / 10 ∧ (1 / 2 : ℚ) ≤ 1 ∧
    (expon sampleExtern (1 / 10) 1).1 = 1 / 20 ∧ 0 ≤ (expon sampleExtern (1 / 10) 1).1 ∧
    (uniform sampleExtern (1 / 2) 1 1).1 = 3 / 4 ∧
    (1 / 2 : ℚ) ≤ (uniform sampleExtern (1 / 2) 1 1).1 ∧
    (uniform sampleExtern (1 / 2) 1 1).1 ≤ 1 := by
  have h := variates_in_range sampleExtern 1 (1 / 10) (1 / 2) 1
    (by intro u _ h1; simp only [sampleExtern]; linarith)
    (by simp only [sampleExtern]; norm_num) (by norm_num) (by norm_num)
  refine ⟨by norm_num, by norm_num, ?_, h.2.1, ?_, h.2.2.2.1, h.2.2.2.2⟩
  · rw [h.1]; simp only [sampleExtern]; norm_num
  · rw [h.2.2.1]; simp only [sampleExtern]; norm_num

/-- C11: for a state with `num_months != 0`, `report` appends one row holding
`avg_ordering_cost = total_ordering_cost / num_months`,
`avg_holding_cost = holding_cost * area_holding / num_months`,
`avg_shortage_cost = shortage_cost * area_shortage / num_months` and their sum
`avg_total_cost` (the divisor is `num_months`, never `sim_time`); the END_SIMULATION
case of the switch changes the table only, no simulation variable. -/
theorem report_spec (E : Extern) (table : List Row) (s : State)
    (_hmonths : s.num_months ≠ 0) :
    report table s = table ++
      [{ policy_no := s.policy_no, smalls := s.smalls, bigs := s.bigs,
         avg_total_cost :=
           s.total_ordering_cost / (s.num_months : ℚ) +
             s.holding_cost * s.area_holding / (s.num_months : ℚ) +
             s.shortage_cost * s.area_shortage / (s.num_months : ℚ),
         avg_ordering_cost := s.total_ordering_cost / (s.num_months : ℚ),
         avg_holding_cost := s.holding_cost * s.area_holding / (s.num_months : ℚ),
         avg_shortage_cost := s.shortage_cost * s.area_shortage / (s.num_months : ℚ) }] ∧
    event_switch E { s with next_event_type := 3 } =
      Except.ok { s with next_event_type := 3, policies_table := report s.policies_table s } :=
  ⟨rfl, by simp [event_switch, report]⟩

/-- Witness of C11: the sample state with `total_ordering_cost = 240`,
`area_holding = 600` and `area_shortage = 12` after `120` months, at a clock of `7`
that plays no part: the averages are `2`, `5`, `1/2` and `15/2`. -/
theorem report_spec_witness :
    sampleState.num_months ≠ 0 ∧
    report []
      { sampleState with
        total_ordering_cost := 240, area_holding := 600, area_shortage := 12,
        sim_time := 7 } =
      [{ policy_no := 1, smalls := 20, bigs := 40, avg_total_cost := 15 / 2,
         avg_ordering_cost := 2, avg_holding_cost := 5, avg_shortage_cost := 1 / 2 }] := by
  have h := (report_spec sampleExtern []
    { sampleState with
      total_ordering_cost := 240, area_holding := 600, area_shortage := 12, sim_time := 7 }
    (by simp [sampleState])).1
  refine ⟨by simp [sampleState], ?_⟩
  rw [h]
  simp only [sampleState]
  norm_num

/-- C12: `initialize` sets `inv_level = initial_inv_level`, `sim_time = 0`,
`time_last_event = 0`, `total_ordering_cost = area_holding = area_shortage = 0`,
`amount = 0`, ORDER_ARRIVAL to `1.0e+30`, DEMAND to `expon(mean_interdemand)` computed
from one draw, END_SIMULATION to `num_months` and EVALUATE to `0`; the stream state
becomes the state after that one draw, and every other field is unchanged. -/
theorem initialize_spec (E : Extern) (s : State) :
    initialize_run E s =
      { s with
        inv_level := s.initial_inv_level, sim_time := 0, time_last_event := 0,
        total_ordering_cost := 0, area_holding := 0, area_shortage := 0, amount := 0,
        time_next_event :=
          Function.update
            (Function.update
              (Function.update (Function.update s.time_next_event 1 (10 ^ 30)) 2
                (-s.mean_interdemand * E.log (E.lcgrand s.zrng).1))
              3 (s.num_months : ℚ))
            4 0,
        zrng := (E.lcgrand s.zrng).2 } ∧
    (initialize_run E s).time_next_event 1 = 10 ^ 30 ∧
    (initialize_run E s).time_next_event 2 = (expon E s.mean_interdemand s.zrng).1 ∧
    (initialize_run E s).time_next_event 3 = (s.num_months : ℚ) ∧
    (initialize_run E s).time_next_event 4 = 0 ∧
    (initialize_run E s).zrng = (expon E s.mean_interdemand s.zrng).2 := by
  refine ⟨?_, ?_, ?_, ?_, ?_, ?_⟩ <;> simp [initialize_run, expon]

/-- C13 as stated fails once the `float` that `expon` returns is taken into account:
`mean_interdemand = 2^-149` (the least positive `float`) is positive, the first draw
`3/4` is in `(0,1)` and `num_months = 120 >= 1`; the product `-mean * log(u)` is positive
but below `2^-150`, so the `float` result of `expon` is `0`, DEMAND is scheduled at time
`0` like EVALUATE and, having the lower index, is selected by the first `timing` call. -/
theorem first_event_is_demand_on_underflow :
    1 ≤ underflowState.num_months ∧ underflowState.num_events = 4 ∧
    0 < underflowState.mean_interdemand ∧
    (0 < (underflowExtern.lcgrand underflowState.zrng).1 ∧
      (underflowExtern.lcgrand underflowState.zrng).1 < 1) ∧
    underflowExtern.log (underflowExtern.lcgrand underflowState.zrng).1 < 0 ∧
    0 < (expon underflowExtern underflowState.mean_interdemand underflowState.zrng).1 ∧
    (expon_float underflowExtern underflowState.mean_interdemand underflowState.zrng).1 = 0 ∧
    timing (initialize_float underflowExtern underflowState) =
      Except.ok
        { initialize_float underflowExtern underflowState with
          next_event_type := 2, sim_time := 0 } := by
  have hx : expon_float underflowExtern (1 / 2 ^ 149) 1 = (0, 2) := by
    simp only [expon_float, expon, float_underflow, underflowExtern]
    norm_num [abs_of_pos]
  have hi : (initialize_float underflowExtern underflowState).time_next_event 2 = 0 := by
    simp only [initialize_float, underflowState, sampleState, hx]
    simp [Function.update_apply]
  have h1 : (initialize_float underflowExtern underflowState).time_next_event 1 = 10 ^ 30 := by
    simp [initialize_float, Function.update_apply]
  have h3 : (initialize_float underflowExtern underflowState).time_next_event 3 = 120 := by
    simp [initialize_float, Function.update_apply, underflowState, sampleState]
  have h4 : (initialize_float underflowExtern underflowState).time_next_event 4 = 0 := by
    simp [initialize_float, Function.update_apply]
  have hn : (initialize_float underflowExtern underflowState).num_events = 4 := rfl
  refine ⟨by simp [underflowState, sampleState], rfl, ?_, ?_, ?_, ?_, ?_, ?_⟩
  · simp only [underflowState]
    norm_num
  · simp only [underflowExtern]
    norm_num
  · simp only [underflowExtern]
    norm_num
  · simp only [expon, underflowExtern, underflowState]
    norm_num
  · have hm : underflowState.mean_interdemand = 1 / 2 ^ 149 := rfl
    have hz : underflowState.zrng = 1 := rfl
    rw [hm, hz, hx]
  · simp only [timing, hn]
    simp [List.range', timing_scan, h1, hi, h3, h4]
    norm_num

/-- C13, amended: with four event types and `num_months >= 1`, if the value that `expon`
returns for the first interdemand time is at least the least positive `float` `2^-149`
(then the conversion to `float` cannot take it to `0`: `initialize_float` and
`initialize` agree), the first `timing` call after `initialize` selects EVALUATE
(type 4) and leaves `sim_time` at `0`, and the first body of the `do ... while` loop
returns the state that the handler `evaluate` leaves at time `0`: its `next_event_type`
is 4, its `sim_time` is `0`, the next evaluation is scheduled at time `1`, the level is
the initial level, and an order of `bigs - initial_inv_level` items, at cost
`setup_cost + incremental_cost * amount` and due after the lag drawn next from the
stream, is placed exactly when the initial level is below `smalls`. -/
theorem first_event_is_evaluate (E : Extern) (s0 : State)
    (h4 : s0.num_events = 4) (hmonths : 1 ≤ s0.num_months)
    (hfloat : 1 / 2 ^ 149 ≤ (expon E s0.mean_interdemand s0.zrng).1) :
    initialize_float E s0 = initialize_run E s0 ∧
    timing (initialize_run E s0) =
      Except.ok { initialize_run E s0 with next_event_type := 4, sim_time := 0 } ∧
    loop_body E (initialize_run E s0) =
      Except.ok (evaluate E (update_time_avg_stats
        { initialize_run E s0 with next_event_type := 4, sim_time := 0 })) ∧
    ∀ s1 : State, loop_body E (initialize_run E s0) = Except.ok s1 →
      s1.next_event_type = 4 ∧ s1.sim_time = 0 ∧ s1.time_next_event 4 = 1 ∧
      s1.inv_level = s0.initial_inv_level ∧
      (s0.initial_inv_level < s0.smalls →
        s1.amount = s0.bigs - s0.initial_inv_level ∧
        s1.total_ordering_cost =
          s0.setup_cost + s0.incremental_cost * ((s0.bigs - s0.initial_inv_level : Int) : ℚ) ∧
        s1.time_next_event 1 =
          s0.minlag + (E.lcgrand (E.lcgrand s0.zrng).2).1 * (s0.maxlag - s0.minlag)) ∧
      (¬ s0.initial_inv_level < s0.smalls →
        s1.amount = 0 ∧ s1.total_ordering_cost = 0 ∧ s1.time_next_event 1 = 10 ^ 30) := by
  have hpos : (0 : ℚ) < (expon E s0.mean_interdemand s0.zrng).1 :=
    lt_of_lt_of_le (by norm_num) hfloat
  have hm : (1 : ℚ) ≤ (s0.num_months : ℚ) := by exact_mod_cast hmonths
  have hn : (initialize_run E s0).num_events = 4 := by simpa [initialize_run] using h4
  have c1 : (initialize_run E s0).time_next_event 1 = 10 ^ 30 := by simp [initialize_run]
  have c2 : (initialize_run E s0).time_next_event 2 =
      (expon E s0.mean_interdemand s0.zrng).1 := by
    simp [initialize_run]
  have c3 : (initialize_run E s0).time_next_event 3 = (s0.num_months : ℚ) := by
    simp [initialize_run]
  have c4 : (initialize_run E s0).time_next_event 4 = 0 := by simp [initialize_run]
  have ht : timing (initialize_run E s0) =
      Except.ok { initialize_run E s0 with next_event_type := 4, sim_time := 0 } := by
    obtain ⟨s1, h1⟩ := timing_ok_of_scheduled (initialize_run E s0) hn 4 (by decide)
      (by decide) (by rw [c4]; norm_num)
    obtain ⟨k, hk1, hk4, _, hmin, hs1⟩ := timing_ok_four (initialize_run E s0) s1 hn h1
    have hle := hmin 4 (by decide) (by decide)
    rw [c4] at hle
    have hk : k = 1 ∨ k = 2 ∨ k = 3 ∨ k = 4 := by omega
    rcases hk with rfl | rfl | rfl | rfl
    · rw [c1] at hle
      norm_num at hle
    · rw [c2] at hle
      linarith
    · rw [c3] at hle
      linarith
    · rw [h1, hs1, c4]
      rfl
  have hbody : loop_body E (initialize_run E s0) =
      Except.ok (evaluate E (update_time_avg_stats
        { initialize_run E s0 with next_event_type := 4, sim_time := 0 })) := by
    rw [loop_body_of_timing E _ _ ht, update_time_avg_stats_eq]
    simp [event_switch]
  refine ⟨?_, ht, hbody, ?_⟩
  · have hx : float_underflow (expon E s0.mean_interdemand s0.zrng).1 =
        (expon E s0.mean_interdemand s0.zrng).1 := by
      unfold float_underflow
      rw [if_neg]
      rw [abs_of_pos hpos]
      intro h
      have h150 : (1 : ℚ) / 2 ^ 150 < 1 / 2 ^ 149 := by norm_num
      linarith
    simp only [initialize_float, initialize_run, expon_float, hx]
  · intro s1 h
    rw [hbody] at h
    have h := (Except.ok.inj h).symm
    subst h
    rw [update_time_avg_stats_eq, evaluate_eq]
    by_cases hlt : s0.initial_inv_level < s0.smalls
    · simp [initialize_run, expon, hlt]
    · simp [initialize_run, expon, hlt]

/-- Witness of C13: the sample scenario (120 months, mean interdemand time `1/10`, first
draw `1/2`), where `expon` returns `1/20`; the first loop body is the evaluation that
leaves `sampleAfterEvaluate`, with no order since the level `60` is not below `20`. -/
theorem first_event_is_evaluate_witness :
    (0 < sampleState.mean_interdemand ∧
      0 < (sampleExtern.lcgrand sampleState.zrng).1 ∧
      (sampleExtern.lcgrand sampleState.zrng).1 < 1) ∧
    loop_body sampleExtern (initialize_run sampleExtern sampleState) =
      Except.ok sampleAfterEvaluate ∧
    sampleAfterEvaluate.next_event_type = 4 ∧ sampleAfterEvaluate.sim_time = 0 ∧
    sampleAfterEvaluate.time_next_event 4 = 1 ∧
    sampleAfterEvaluate.inv_level = sampleState.initial_inv_level ∧
    sampleAfterEvaluate.amount = 0 ∧ sampleAfterEvaluate.total_ordering_cost = 0 ∧
    sampleAfterEvaluate.time_next_event 1 = 10 ^ 30 :=
  have h := (first_event_is_evaluate sampleExtern sampleState rfl (by simp [sampleState])
    (by simp only [expon, sampleExtern, sampleState]; norm_num)).2.2.2
      sampleAfterEvaluate sample_first_step
  ⟨⟨by simp only [sampleState]; norm_num, (sample_draw _).1, (sample_draw _).2⟩,
    sample_first_step, h.1, h.2.1, h.2.2.1, h.2.2.2.1, h.2.2.2.2.2 (by decide)⟩

/-- C15: `order_arrival` adds `amount` to `inv_level`, sets the ORDER_ARRIVAL cell to
`1.0e+30`, and changes nothing else: the other cells of the calendar and every other
field keep their values. -/
theorem order_arrival_spec (s : State) :
    order_arrival s =
      { s with
        inv_level := s.inv_level + s.amount,
        time_next_event := Function.update s.time_next_event 1 (10 ^ 30) } ∧
    (order_arrival s).time_next_event 1 = 10 ^ 30 ∧
    (order_arrival s).time_next_event 2 = s.time_next_event 2 ∧
    (order_arrival s).time_next_event 3 = s.time_next_event 3 ∧
    (order_arrival s).time_next_event 4 = s.time_next_event 4 := by
  refine ⟨rfl, ?_, ?_, ?_, ?_⟩ <;> simp [order_arrival]

/-- C17 as stated fails.  The configuration `badConfigState` has `smalls = 40 >= bigs = 20`
and `minlag = 1 > maxlag = 1/2`; the program detects neither: the policy run executes
three loop bodies (EVALUATE at `0` ordering `20 - 10` items due at `3/4`, ORDER_ARRIVAL
at `3/4`, END_SIMULATION at `1`) and emits the result row of policy `(40, 20)`.  The
configuration `negativeMeanState` has `mean_interdemand = -10`; the program does not
detect it either: the run never fails (and never ends), whatever the number of loop
bodies allowed. -/
theorem bad_configuration_emits_row :
    badConfigState.bigs ≤ badConfigState.smalls ∧
    badConfigState.maxlag < badConfigState.minlag ∧
    policy_loop sampleExtern 3 (initialize_run sampleExtern badConfigState) =
      some (Except.ok badFinal) ∧
    badFinal.policies_table =
      [{ policy_no := 1, smalls := 40, bigs := 20, avg_total_cost := 149 / 2,
         avg_ordering_cost := 62, avg_holding_cost := 25 / 2, avg_shortage_cost := 0 }] ∧
    negativeMeanState.mean_interdemand ≤ 0 ∧
    ¬ ∃ (fuel : Nat) (r : Except Fault State),
      policy_loop sampleExtern fuel (initialize_run sampleExtern negativeMeanState) =
        some r := by
  refine ⟨by simp [badConfigState], by simp only [badConfigState]; norm_num, bad_run, rfl,
    by simp only [negativeMeanState]; norm_num, ?_⟩
  rintro ⟨fuel, r, h⟩
  have hnone := nonpositive_mean_run sampleExtern negativeMeanState 4 sample_log sample_draw
    rfl (by simp only [negativeMeanState]; norm_num)
    (by simp [negativeMeanState, sampleState]) (by decide)
    (by simp [negativeMeanState, sampleState]) fuel
  rw [hnone] at h
  cases h

/-- C17, amended: the program makes no check of the configuration (four event types,
`0 <= num_months < 1.0e+29`, a normalized demand table, draws in `(0,1)` with logarithm
`<= 0`).  A policy run whose configuration has `smalls >= bigs` or `minlag > maxlag`
uses the values as given: it never fails, whatever the number of loop bodies, and
whenever its loop ends, at END_SIMULATION, the table holds one more row, which carries
that `smalls` and `bigs`.  A policy run with `mean_interdemand <= 0` never fails and
never ends: every loop body of the run returns normally and selects DEMAND, and the
fuel is used up whatever it is. -/
theorem configuration_is_not_checked (E : Extern) (s0 : State) (n : Nat)
    (hlog : ∀ u : ℚ, 0 < u → u < 1 → E.log u ≤ 0)
    (hdraw : ∀ z : Int, 0 < (E.lcgrand z).1 ∧ (E.lcgrand z).1 < 1)
    (h4 : s0.num_events = 4) (hmonths : 0 ≤ s0.num_months)
    (hT : (s0.num_months : ℚ) < 10 ^ 29) (hn : 1 ≤ n)
    (hlast : s0.prob_distrib_demand[n]? = some 1) :
    ((s0.bigs ≤ s0.smalls ∨ s0.maxlag < s0.minlag) →
      (∀ (fuel : Nat) (f : Fault),
        policy_loop E fuel (initialize_run E s0) ≠ some (Except.error f)) ∧
      ∀ (fuel : Nat) (sf : State),
        policy_loop E fuel (initialize_run E s0) = some (Except.ok sf) →
        ∃ r : Row, sf.policies_table = s0.policies_table ++ [r] ∧
          r.smalls = s0.smalls ∧ r.bigs = s0.bigs ∧ r.policy_no = s0.policy_no ∧
          sf.minlag = s0.minlag ∧ sf.maxlag = s0.maxlag) ∧
    (s0.mean_interdemand ≤ 0 →
      (∀ s : State, InRun E s0 s →
        ∃ s1, loop_body E s = Except.ok s1 ∧ s1.next_event_type = 2) ∧
      ∀ fuel : Nat, policy_loop E fuel (initialize_run E s0) = none) := by
  constructor
  · intro _
    constructor
    · intro fuel f
      exact policy_loop_no_fault E s0 n (fun z => (hdraw z).2) h4 hT hn hlast fuel _
        InRun.start f
    · intro fuel sf hsf
      obtain ⟨s, hrun, hb, hnet⟩ := policy_loop_result E s0 fuel _ sf InRun.start hsf
      obtain ⟨c1, _, _, c4, c5, _⟩ := inRun_config E s0 s hrun
      obtain ⟨p1, p2, _, _, p5, _, _, _, _, _, p11⟩ := inRun_policy E s0 s hrun
      obtain ⟨f1, f2, _, _, f5, _⟩ := loop_body_frame_policy E s sf hb
      obtain ⟨_, _, _, _, _, _, g7, g8, _⟩ := loop_body_frame E s sf hb
      obtain ⟨_, _, e3, _⟩ := loop_body_end E s sf (c1.trans h4) hb hnet
      rw [p11] at e3
      exact ⟨_, e3, f2.trans p2, f1.trans p1, f5.trans p5, g7.trans c4, g8.trans c5⟩
  · intro hmean
    constructor
    · intro s hrun
      exact (inRun_nonpositive_mean E s0 s n hlog hdraw h4 hmean hmonths hn hlast hrun).2
    · intro fuel
      exact nonpositive_mean_run E s0 n hlog hdraw h4 hmean hmonths hn hlast fuel

/-- Witness of the amended C17: the run of `badConfigState` ends with the row of policy
`(40, 20)`, and the run of `negativeMeanState` has not ended after `1000` loop bodies. -/
theorem configuration_is_not_checked_witness :
    (badConfigState.bigs ≤ badConfigState.smalls ∨
      badConfigState.maxlag < badConfigState.minlag) ∧
    policy_loop sampleExtern 3 (initialize_run sampleExtern badConfigState) =
      some (Except.ok badFinal) ∧
    (∃ r : Row, badFinal.policies_table = badConfigState.policies_table ++ [r] ∧
      r.smalls = badConfigState.smalls ∧ r.bigs = badConfigState.bigs ∧
      r.policy_no = badConfigState.policy_no ∧
      badFinal.minlag = badConfigState.minlag ∧ badFinal.maxlag = badConfigState.maxlag) ∧
    negativeMeanState.mean_interdemand ≤ 0 ∧
    policy_loop sampleExtern 1000 (initialize_run sampleExtern negativeMeanState) = none :=
  ⟨Or.inl (by simp [badConfigState]), bad_run,
    ((configuration_is_not_checked sampleExtern badConfigState 4 sample_log sample_draw rfl
      (by simp [badConfigState]) (by simp only [badConfigState]; norm_num) (by decide)
      (by simp [badConfigState, sampleState])).1
      (Or.inl (by simp [badConfigState]))).2 3 badFinal bad_run,
    by simp only [negativeMeanState]; norm_num,
    ((configuration_is_not_checked sampleExtern negativeMeanState 4 sample_log sample_draw rfl
      (by simp [negativeMeanState, sampleState])
      (by simp only [negativeMeanState, sampleState]; norm_num) (by decide)
      (by simp [negativeMeanState, sampleState])).2
      (by simp only [negativeMeanState]; norm_num)).2 1000⟩

/-- C18: determinism.  From two states that hold the same inputs (the seed, the scenario
parameters, the rows already in the table) and with the same list of `(smalls, bigs)`
pairs, the scenario gives the same result rows (or the same fault), whatever the other
variables hold.  The random stream is threaded from one policy run into the next: the
scenario continues from the final state of the first run, and `initialize` only takes
one draw from the stream it finds. -/
theorem scenario_rows_are_determined (E : Extern) (fuel : Nat)
    (policies : List (Int × Int)) (i : Int) (s t : State)
    (h4 : s.num_events = 4) (h : SameInputs s t) :
    result_rows (simulate_policies E fuel policies i s) =
      result_rows (simulate_policies E fuel policies i t) ∧
    (∀ (p : Int × Int) (rest : List (Int × Int)) (sf : State),
      policy_loop E fuel
          (initialize_run E { { s with smalls := p.1, bigs := p.2 } with policy_no := i }) =
        some (Except.ok sf) →
      simulate_policies E fuel (p :: rest) i s = simulate_policies E fuel rest (i + 1) sf) ∧
    ∀ u : State, (initialize_run E u).zrng = (E.lcgrand u.zrng).2 := by
  refine ⟨simulate_policies_congr E fuel policies i s t h4 h, ?_, ?_⟩
  · intro p rest sf hsf
    simp only [simulate_policies, hsf]
  · intro u
    rw [initialize_run_eq]

/-- Witness of C18: the sample state and a state with the same inputs but other values
everywhere else, over the policies `(20, 40)` and `(20, 60)`. -/
theorem scenario_rows_are_determined_witness :
    sampleState.num_events = 4 ∧ SameInputs sampleState sampleStateOther ∧
    result_rows
        (simulate_policies sampleExtern 5000 [(20, 40), (20, 60)] 1 sampleState) =
      result_rows
        (simulate_policies sampleExtern 5000 [(20, 40), (20, 60)] 1 sampleStateOther) :=
  ⟨rfl, ⟨rfl, rfl, rfl, rfl, rfl, rfl, rfl, rfl, rfl, rfl, rfl, rfl, rfl, rfl⟩,
    (scenario_rows_are_determined sampleExtern 5000 [(20, 40), (20, 60)] 1 sampleState
      sampleStateOther rfl
      ⟨rfl, rfl, rfl, rfl, rfl, rfl, rfl, rfl, rfl, rfl, rfl, rfl, rfl, rfl⟩).1⟩

/-- C19: no overlapping orders.  In a policy run with `minlag <= maxlag <= 1` and draws
in `(0,1)`, every state at which the loop body starts has its ORDER_ARRIVAL cell at
`1.0e+30` or at most the EVALUATE cell (a pending order arrives no later than the next
evaluation, and wins the tie by its lower index); so whenever `timing` selects EVALUATE
there, the ORDER_ARRIVAL cell of the state that `evaluate` receives is `1.0e+30`. -/
theorem no_overlapping_orders (E : Extern) (s0 s : State)
    (hdraw : ∀ z : Int, 0 < (E.lcgrand z).1 ∧ (E.lcgrand z).1 < 1)
    (h4 : s0.num_events = 4) (hlag : s0.minlag ≤ s0.maxlag) (hmax : s0.maxlag ≤ 1)
    (hrun : InRun E s0 s) :
    (s.time_next_event 1 = 10 ^ 30 ∨ s.time_next_event 1 ≤ s.time_next_event 4) ∧
    ∀ t, timing s = Except.ok t → t.next_event_type = 4 →
      (update_time_avg_stats t).time_next_event 1 = 10 ^ 30 := by
  have hinv := inRun_no_overlap E s0 s hdraw h4 hlag hmax hrun
  refine ⟨hinv, ?_⟩
  intro t ht hnet
  obtain ⟨c1, _⟩ := inRun_config E s0 s hrun
  obtain ⟨k, hk1, hk4, _, _, hfirst, hteq⟩ := timing_ok_first s t (c1.trans h4) ht
  subst hteq
  simp only at hnet
  have hk : k = 4 := by omega
  subst hk
  have h14 := hfirst 1 (by decide) (by decide)
  rw [update_time_avg_stats_eq]
  simp only
  rcases hinv with h1 | h1
  · exact h1
  · exact absurd h1 (not_le.mpr h14)

/-- Witness of C19: in the run of `tieRunState` (lag `minlag = maxlag = 1`) the order
placed by the evaluation at time `0` is due at time `1`, like the next evaluation;
ORDER_ARRIVAL is processed first, and at the state it leaves `timing` selects EVALUATE
(type 4) at time `1` with the ORDER_ARRIVAL cell at `1.0e+30`. -/
theorem no_overlapping_orders_witness :
    tieAfterEvaluate.time_next_event 1 = tieAfterEvaluate.time_next_event 4 ∧
    loop_body sampleExtern tieAfterEvaluate = Except.ok tieAfterArrival ∧
    tieAfterArrival.next_event_type = 1 ∧
    timing tieAfterArrival =
      Except.ok { tieAfterArrival with next_event_type := 4, sim_time := 1 } ∧
    (update_time_avg_stats
      { tieAfterArrival with next_event_type := 4, sim_time := 1 }).time_next_event 1 =
        10 ^ 30 :=
  ⟨by simp [tieAfterEvaluate], tie_second_step, rfl, tie_third_timing,
    (no_overlapping_orders sampleExtern tieRunState tieAfterArrival sample_draw rfl
      (by simp only [tieRunState]; norm_num) (by simp only [tieRunState]; norm_num)
      tie_inRun).2 _ tie_third_timing rfl⟩

/-- C20 as stated fails for the `int` variables of the program: with initial level `-1`
and the policy `(smalls, bigs) = (0, INT_MAX)`, all `int` values with `smalls <= bigs`
(lags in `[0,1]`, positive mean, draws in `(0,1)`, normalized table), the first loop
body places an order (`inv_level = -1 < smalls`) of `bigs - inv_level = 2147483648`
items, which is not an `int`: the subtraction overflows, and the `int` that a
two's-complement machine stores in `amount` is `-2147483648`, not a positive amount. -/
theorem order_amount_overflows :
    (int_ok overflowState.initial_inv_level ∧ int_ok overflowState.smalls ∧
      int_ok overflowState.bigs ∧ overflowState.smalls ≤ overflowState.bigs) ∧
    (0 ≤ overflowState.minlag ∧ overflowState.minlag ≤ overflowState.maxlag ∧
      overflowState.maxlag ≤ 1 ∧ 0 < overflowState.mean_interdemand) ∧
    (initialize_run sampleExtern overflowState).inv_level < overflowState.smalls ∧
    loop_body sampleExtern (initialize_run sampleExtern overflowState) =
      Except.ok overflowAfterEvaluate ∧
    overflowAfterEvaluate.amount = overflowState.bigs - (-1) ∧
    ¬ int_ok overflowAfterEvaluate.amount ∧
    wrap_int overflowAfterEvaluate.amount = -2147483648 ∧
    ¬ 0 < wrap_int overflowAfterEvaluate.amount := by
  refine ⟨⟨by decide, by decide, by decide, by decide⟩, ⟨?_, ?_, ?_, ?_⟩, by decide,
    overflow_first_step, by decide, by decide, by decide, by decide⟩
  · simp only [overflowState, sampleState]
    norm_num
  · simp only [overflowState, sampleState]
    norm_num
  · simp only [overflowState, sampleState]
    norm_num
  · simp only [overflowState, sampleState]
    norm_num

/-- C20, amended: in a policy run whose `int` arithmetic has stayed within the range of
`int` (four event types), at the start of every loop body the level and the amount on
order are `int` values and `inv_level` is at most `max(initial_inv_level, bigs)`; so it
is after a loop body that leaves `int` values; when `timing` selects EVALUATE, the level
is below `smalls`, `smalls <= bigs` and `bigs - inv_level` is an `int`, the loop body
returns with `amount = bigs - inv_level`, which is the `int` stored and is strictly
positive; and `evaluate` on any state with `inv_level < smalls <= bigs` and
`bigs - inv_level` an `int` leaves that strictly positive amount. -/
theorem level_bounded_and_orders_positive (E : Extern) (s0 s : State)
    (h4 : s0.num_events = 4) (hrun : InRunInt E s0 s) :
    (int_ok s.inv_level ∧ int_ok s.amount ∧
      s.inv_level ≤ max s0.initial_inv_level s0.bigs) ∧
    (∀ s1, loop_body E s = Except.ok s1 → int_ok s1.inv_level → int_ok s1.amount →
      s1.inv_level ≤ max s0.initial_inv_level s0.bigs) ∧
    (∀ t : State, timing s = Except.ok t → t.next_event_type = 4 →
      s.inv_level < s0.smalls → s0.smalls ≤ s0.bigs → int_ok (s0.bigs - s.inv_level) →
      ∃ s1, loop_body E s = Except.ok s1 ∧ s1.amount = s0.bigs - s.inv_level ∧
        wrap_int (s0.bigs - s.inv_level) = s1.amount ∧ 0 < s1.amount) ∧
    ∀ t : State, t.inv_level < t.smalls → t.smalls ≤ t.bigs →
      int_ok (t.bigs - t.inv_level) →
      (evaluate E t).amount = t.bigs - t.inv_level ∧
      wrap_int (t.bigs - t.inv_level) = (evaluate E t).amount ∧
      0 < (evaluate E t).amount := by
  have hrun1 := inRunInt_inRun E s0 s hrun
  obtain ⟨_, _, _, hl, ha⟩ := inRunInt_range E s0 s hrun
  obtain ⟨hlevel, hpending⟩ := inRun_level_bound E s0 s h4 hrun1
  obtain ⟨c1, _⟩ := inRun_config E s0 s hrun1
  obtain ⟨p1, p2, _⟩ := inRun_policy E s0 s hrun1
  refine ⟨⟨hl, ha, hlevel⟩, ?_, ?_, ?_⟩
  · intro s1 hbody _ _
    exact (loop_body_level_bound E s s1 _ (c1.trans h4)
      (by rw [p1]; exact le_max_right _ _) hlevel hpending hbody).1
  · intro t ht hnet hlt hle hok
    have hteq := timing_ok_eq s t ht
    have hbody : loop_body E s = Except.ok (evaluate E (update_time_avg_stats t)) := by
      rw [loop_body_of_timing E s t ht, update_time_avg_stats_eq]
      simp [event_switch, hnet]
    have hlev : (update_time_avg_stats t).inv_level = s.inv_level := by
      rw [update_time_avg_stats_eq, hteq]
    have hsm : (update_time_avg_stats t).smalls = s0.smalls := by
      rw [update_time_avg_stats_eq, hteq]
      exact p2
    have hbg : (update_time_avg_stats t).bigs = s0.bigs := by
      rw [update_time_avg_stats_eq, hteq]
      exact p1
    have hamt : (evaluate E (update_time_avg_stats t)).amount = s0.bigs - s.inv_level := by
      rw [evaluate_eq, hlev, hsm, hbg]
      simp only [hlt, if_true]
    refine ⟨_, hbody, hamt, ?_, ?_⟩
    · rw [hamt]
      exact wrap_int_of_int_ok _ hok
    · rw [hamt]
      omega
  · intro t hlt hle hok
    have hamt : (evaluate E t).amount = t.bigs - t.inv_level := by
      rw [evaluate_eq]
      simp only [hlt, if_true]
    refine ⟨hamt, ?_, ?_⟩
    · rw [hamt]
      exact wrap_int_of_int_ok _ hok
    · rw [hamt]
      omega

/-- Witness of C20: the start of the run of `tieRunState` (initial level `10`, policy
`(20, 40)`): the level `10` is at most `max(10, 40)`, and the first loop body, an
evaluation, orders `40 - 10 = 30` items. -/
theorem level_bounded_and_orders_positive_witness :
    (initialize_run sampleExtern tieRunState).inv_level ≤
      max tieRunState.initial_inv_level tieRunState.bigs ∧
    tieAfterEvaluate.inv_level ≤ max tieRunState.initial_inv_level tieRunState.bigs ∧
    ∃ s1, loop_body sampleExtern (initialize_run sampleExtern tieRunState) = Except.ok s1 ∧
      s1.amount = tieRunState.bigs - (initialize_run sampleExtern tieRunState).inv_level ∧
      wrap_int (tieRunState.bigs - (initialize_run sampleExtern tieRunState).inv_level) =
        s1.amount ∧
      0 < s1.amount :=
  have h := level_bounded_and_orders_positive sampleExtern tieRunState
    (initialize_run sampleExtern tieRunState) rfl
    (InRunInt.start (by decide) (by decide) (by decide))
  ⟨h.1.2.2, h.2.1 tieAfterEvaluate tie_first_step (by decide) (by decide),
    h.2.2.1 _ (by
        simp [timing, initialize_run, tieRunState, sampleState, sampleExtern, expon,
          List.range', timing_scan]
        norm_num
        rfl)
      rfl (by decide) (by decide) (by decide)⟩

/-- C21: for a table (with `ncols` names and `ncols` cells per row) whose title is
absent or not longer than `total_len - 2`, `table_print` writes
`3 + 2 + 2 * nrows` lines with a title and `2 + 2 * nrows` without (top border, title
line, title separator, header row, header separator, and per data row the row and its
separator), each ended by a newline and each of `total_len` characters, where
`total_len = 1 + sum over the columns of (widths[j] + 5)` and `widths[j]` is the maximum
of the length of the name of column `j` and of the lengths of the cells of column `j`;
when no string of the table holds a newline, no line holds one. -/
theorem table_print_lines_have_total_len (t : Table) (out : List Char)
    (_hcols : t.colnames.length = t.ncols)
    (_hrows : ∀ row, row ∈ t.rows → row.length = t.ncols)
    (htitle : ∀ title, t.title = some title →
      (title.length : Int) ≤ table_total_len t (table_widths t) - 2) :
    table_total_len t (table_widths t) =
      1 + ((List.range t.ncols).map (fun j => (table_widths t).getD j 0 + 5)).sum ∧
    (∀ j, j < t.ncols →
      ((table_label t j).length : Int) ≤ (table_widths t).getD j 0 ∧
      (∀ row, row ∈ t.rows →
        ((row.getD j []).length : Int) ≤ (table_widths t).getD j 0) ∧
      ((table_widths t).getD j 0 = ((table_label t j).length : Int) ∨
        ∃ row, row ∈ t.rows ∧
          (table_widths t).getD j 0 = ((row.getD j []).length : Int))) ∧
    ∃ lines : List (List Char),
      table_print t out = out ++ (lines.map (fun l => l ++ ['\n'])).flatten ∧
      lines.length = (if t.title.isSome then 3 else 0) + 2 + 2 * t.rows.length ∧
      ∀ l, l ∈ lines →
        ((l.length : Nat) : Int) = table_total_len t (table_widths t) ∧
        (table_no_newline t → '\n' ∉ l) := by
  obtain ⟨_, hcol⟩ := table_widths_spec t
  have hw : ∀ j, j < t.ncols → 0 ≤ (table_widths t).getD j 0 := by
    intro j hj
    have := (hcol j hj).1
    omega
  refine ⟨total_len_sum _ _, hcol, ?_⟩
  obtain ⟨sep, hsep, hsepLen, hsepNo⟩ := print_separator_line t (table_widths t) hw
  obtain ⟨head, hhead, hheadLen, hheadNo⟩ :=
    print_cells_line t (table_widths t) (table_label t) (fun j hj => (hcol j hj).1)
  have hhead1 : ∀ out, print_header t (table_widths t) out = out ++ (head ++ ['\n']) :=
    fun out => hhead out
  obtain ⟨rowLines, hrowLines, hrowLen, hrowAll⟩ :=
    print_rows_lines t (table_widths t)
      (fun l => ((l.length : Nat) : Int) = table_total_len t (table_widths t) ∧
        (table_no_newline t → '\n' ∉ l))
      sep hsep ⟨hsepLen, fun _ => hsepNo⟩ t.rows
      (by
        intro row hrow
        obtain ⟨line, hline, hlineLen, hlineNo⟩ :=
          print_cells_line t (table_widths t) (fun j => row.getD j [])
            (fun j hj => (hcol j hj).2.1 row hrow)
        exact ⟨line, fun out => hline out, hlineLen,
          fun hno => hlineNo (fun j hj => hno.2.2 row hrow j hj)⟩)
  cases ht : t.title with
  | none =>
    refine ⟨head :: sep :: rowLines, ?_, ?_, ?_⟩
    · simp only [table_print, ht]
      rw [hrowLines]
      simp only [hhead1, hsep, List.map_cons, List.flatten_cons, List.append_assoc]
    · simp only [List.length_cons, hrowLen, Option.isSome_none]
      simp
      omega
    · intro l hl
      rcases List.mem_cons.mp hl with rfl | hl
      · exact ⟨hheadLen, fun hno => hheadNo hno.2.1⟩
      · rcases List.mem_cons.mp hl with rfl | hl
        · exact ⟨hsepLen, fun _ => hsepNo⟩
        · exact hrowAll l hl
  | some title =>
    obtain ⟨top, htop, htopLen, htopNo⟩ := print_top_border_line t (table_widths t) hw
    obtain ⟨tline, htline, htlineLen, htlineNo⟩ :=
      print_title_line_line title (table_total_len t (table_widths t)) (htitle title ht)
    refine ⟨top :: tline :: sep :: head :: sep :: rowLines, ?_, ?_, ?_⟩
    · simp only [table_print, ht]
      rw [hrowLines]
      simp only [htop, htline, hhead1, hsep, List.map_cons, List.flatten_cons,
        List.append_assoc]
    · simp only [List.length_cons, hrowLen, Option.isSome_some]
      simp
      omega
    · intro l hl
      simp only [List.mem_cons] at hl
      rcases hl with rfl | rfl | rfl | rfl | rfl | hl
      · exact ⟨htopLen, fun _ => htopNo⟩
      · exact ⟨htlineLen, fun hno => htlineNo (hno.1 title ht)⟩
      · exact ⟨hsepLen, fun _ => hsepNo⟩
      · exact ⟨hheadLen, fun hno => hheadNo hno.2.1⟩
      · exact ⟨hsepLen, fun _ => hsepNo⟩
      · exact hrowAll l hl

/-- Witness of C21: the sample table (title `Policies` of 8 characters,
`total_len = 1 + (2 + 5) + (9 + 5) = 22`) is printed as seven lines of 22 characters. -/
theorem table_print_lines_have_total_len_witness :
    sampleTable.colnames.length = sampleTable.ncols ∧
    table_total_len sampleTable (table_widths sampleTable) = 22 ∧
    ∃ lines : List (List Char),
      table_print sampleTable [] = [] ++ (lines.map (fun l => l ++ ['\n'])).flatten ∧
      lines.length = 7 ∧
      ∀ l, l ∈ lines → ((l.length : Nat) : Int) = 22 ∧ '\n' ∉ l := by
  have hlen : table_total_len sampleTable (table_widths sampleTable) = 22 := by decide
  obtain ⟨_, _, lines, hout, hcount, hall⟩ :=
    table_print_lines_have_total_len sampleTable [] rfl (by decide)
      (by
        intro title ht
        rw [hlen]
        have : title = "Policies".toList := by
          have h2 : sampleTable.title = some "Policies".toList := rfl
          rw [h2] at ht
          exact (Option.some.inj ht).symm
        rw [this]
        decide)
  have hno : table_no_newline sampleTable := by
    refine ⟨?_, ?_, ?_⟩
    · intro title ht
      have : title = "Policies".toList := by
        have h2 : sampleTable.title = some "Policies".toList := rfl
        rw [h2] at ht
        exact (Option.some.inj ht).symm
      rw [this]
      set_option maxRecDepth 10000 in decide
    · intro j hj
      have hj2 : j = 0 ∨ j = 1 := by
        have : j < 2 := hj
        omega
      rcases hj2 with rfl | rfl <;> (set_option maxRecDepth 10000 in decide)
    · intro row hrow j hj
      have hr : row = ["1".toList, "( 20, 40)".toList] := by
        simpa [sampleTable] using hrow
      have hj2 : j = 0 ∨ j = 1 := by
        have : j < 2 := hj
        omega
      rw [hr]
      rcases hj2 with rfl | rfl <;> (set_option maxRecDepth 10000 in decide)
  refine ⟨rfl, hlen, lines, hout, by simpa [sampleTable] using hcount, ?_⟩
  intro l hl
  obtain ⟨h1, h2⟩ := hall l hl
  rw [hlen] at h1
  exact ⟨h1, h2 hno⟩

end Inventory
